import Mathlib

/-!
# Verification development for `jeremyylimmm/ml`

A shallow embedding of `src/matrix.h` (the fixed-size dense `Matrix<NR, NC>` type and its
arithmetic) and of `src/main.cpp` (reading the dataset, initialisation, the epoch, batch and
sample loops), followed by theorems about them.

Conventions of the embedding:

* `float` is a type parameter `α` carrying the arithmetic operations the code uses; the
  transcendental library functions `expf` and `powf` are function parameters, and the initial
  `-INFINITY` of the prediction scan is the parameter `negInf`. Statements about exact
  arithmetic take `α` to be an ordered field, those about `float` arithmetic take the model
  `F32` of IEEE-754 binary32 (round to nearest, ties to even).
* `float data[NR * NC]` is a function `Fin (NR * NC) → α`; a raw access `data[i]` is checked and
  an index outside the array is the fault `Fault.outOfBounds` (undefined behaviour in C++).
* a failed `assert` is the fault `Fault.assertion`.
* a `for (size_t i = 0; i < n; ++i)` loop is `forLoop n body init`; the batch loop, whose
  counter is a `uint32_t` that can wrap around, takes a bound `fuel` on its iterations and
  returns `none` when the bound is reached.
* a file is the list of its unread bytes; the ways `main` can end early are the type `Stop`.
-/

namespace ML

/-- Ways in which the program can stop abnormally. -/
inductive Fault where
  | assertion
  | outOfBounds
  | divByZero
  deriving DecidableEq, Repr

instance instDecidableEqExcept {ε β : Type} [DecidableEq ε] [DecidableEq β] :
    DecidableEq (Except ε β)
  | .ok a, .ok b =>
      if h : a = b then isTrue (by rw [h]) else isFalse (by intro e; cases e; exact h rfl)
  | .error a, .error b =>
      if h : a = b then isTrue (by rw [h]) else isFalse (by intro e; cases e; exact h rfl)
  | .ok _, .error _ => isFalse (by intro e; cases e)
  | .error _, .ok _ => isFalse (by intro e; cases e)

/-- `for (size_t i = 0; i < n; ++i) body`, threading the mutated variables as a state. -/
def forLoop {σ : Type} (n : Nat) (body : Nat → σ → Except Fault σ) (s : σ) : Except Fault σ :=
  (List.range n).foldlM (fun s i => body i s) s

/-- `template <size_t NR, size_t NC> struct Matrix { float data[NR * NC]; ... }`. -/
structure Matrix (NR NC : Nat) (α : Type) where
  data : Fin (NR * NC) → α

instance instDecidableEqMatrix {NR NC : Nat} {α : Type} [DecidableEq α] :
    DecidableEq (Matrix NR NC α) := fun a b =>
  decidable_of_iff (∀ i, a.data i = b.data i)
    ⟨fun h => by cases a; cases b; congr 1; exact funext h, fun h _ => by rw [h]⟩

namespace Matrix

variable {NR NC : Nat} {α : Type}

/-- Row-major position `r * NC + c` of element `(r, c)`, an index of the array. -/
def idx (r : Fin NR) (c : Fin NC) : Fin (NR * NC) :=
  ⟨r.val * NC + c.val, by
    calc r.val * NC + c.val < r.val * NC + NC := Nat.add_lt_add_left c.isLt _
      _ = (r.val + 1) * NC := by ring
      _ ≤ NR * NC := Nat.mul_le_mul_right _ r.isLt⟩

/-- Mathematical view of element `(r, c)`: the value stored at `data[r * NC + c]`. -/
def entry (m : Matrix NR NC α) (r : Fin NR) (c : Fin NC) : α :=
  m.data (idx r c)

/-- The matrix whose every element is the image under `fn` of the same element of `m`. -/
def map (fn : α → α) (m : Matrix NR NC α) : Matrix NR NC α := ⟨fun i => fn (m.data i)⟩

/-- The matrix whose every element combines the same elements of `l` and `x`. -/
def zipWith (op : α → α → α) (l x : Matrix NR NC α) : Matrix NR NC α :=
  ⟨fun i => op (l.data i) (x.data i)⟩

/-- `Matrix()`: the default constructor leaves `data` indeterminate. -/
def uninit [Inhabited α] : Matrix NR NC α := ⟨fun _ => default⟩

/-- Raw read `data[i]`. -/
def get (m : Matrix NR NC α) (i : Nat) : Except Fault α :=
  if h : i < NR * NC then .ok (m.data ⟨i, h⟩) else .error .outOfBounds

/-- Raw write `data[i] = v`. -/
def set (m : Matrix NR NC α) (i : Nat) (v : α) : Except Fault (Matrix NR NC α) :=
  if h : i < NR * NC then .ok ⟨Function.update m.data ⟨i, h⟩ v⟩ else .error .outOfBounds

/-- `Matrix(const std::initializer_list<float>& input)`; the state of the loop is the matrix
under construction and the position of the iterator `it`. -/
def ofList [Inhabited α] (input : List α) : Except Fault (Matrix NR NC α) :=
  if input.length = NR * NC then do
    let s ← forLoop (NR * NC)
      (fun i (s : Matrix NR NC α × Nat) => do
        let v ← match input[s.2]? with
          | some v => pure v
          | none => throw Fault.outOfBounds
        let m ← s.1.set i v
        pure (m, s.2 + 1))
      (uninit, 0)
    pure s.1
  else .error .assertion

/-- `static Matrix zero()`: `memset` of the whole array to zero bytes, i.e. to `0.0f`. -/
def zero [Zero α] : Matrix NR NC α := ⟨fun _ => 0⟩

/-- `float& at(size_t r, size_t c)` used to read: asserts `r < NR && c < NC`. -/
def atGet (m : Matrix NR NC α) (r c : Nat) : Except Fault α :=
  if r < NR ∧ c < NC then m.get (r * NC + c) else .error .assertion

/-- `float& at(size_t r, size_t c)` used to write through the returned reference. -/
def atSet (m : Matrix NR NC α) (r c : Nat) (v : α) : Except Fault (Matrix NR NC α) :=
  if r < NR ∧ c < NC then m.set (r * NC + c) v else .error .assertion

/-- `const float& at(size_t r, size_t c) const`: no assertion, `data[r * NC + c]` directly. -/
def atConst (m : Matrix NR NC α) (r c : Nat) : Except Fault α :=
  m.get (r * NC + c)

/-- `Matrix<NC, NR> T() const`. -/
def T [Inhabited α] (m : Matrix NR NC α) : Except Fault (Matrix NC NR α) :=
  forLoop NR
    (fun r result => forLoop NC
      (fun c result => do
        let v ← m.atConst r c
        result.atSet c r v)
      result)
    uninit

/-- `Matrix<NR, NC> apply(const std::function<float(float)>& fn) const`. -/
def apply [Inhabited α] (m : Matrix NR NC α) (fn : α → α) : Except Fault (Matrix NR NC α) :=
  forLoop (NR * NC)
    (fun i result => do
      let x ← m.get i
      result.set i (fn x))
    uninit

end Matrix

open Matrix

variable {α : Type}

/-- `dot(left, right)`; the `static_assert(NC1 == NR2)` is carried by the types. -/
def dot {NR1 NC1 NC2 : Nat} [Inhabited α] [Zero α] [Add α] [Mul α]
    (left : Matrix NR1 NC1 α) (right : Matrix NC1 NC2 α) : Except Fault (Matrix NR1 NC2 α) :=
  forLoop NR1
    (fun r result => forLoop NC2
      (fun c result => do
        let dot_product ← forLoop NC1
          (fun i dot_product => do
            let l ← left.atConst r i
            let x ← right.atConst i c
            pure (dot_product + l * x))
          (0 : α)
        result.atSet r c dot_product)
      result)
    uninit

/-- Shared shape of `operator+`, `operator-` and the elementwise `operator*` on two matrices. -/
def zipLoop {NR NC : Nat} [Inhabited α] (op : α → α → α)
    (left right : Matrix NR NC α) : Except Fault (Matrix NR NC α) :=
  forLoop (NR * NC)
    (fun i result => do
      let l ← left.get i
      let x ← right.get i
      result.set i (op l x))
    uninit

/-- `operator+(left, right)`. -/
def add {NR NC : Nat} [Inhabited α] [Add α] (left right : Matrix NR NC α) :
    Except Fault (Matrix NR NC α) :=
  zipLoop (fun l x => l + x) left right

/-- `operator-(left, right)`. -/
def sub {NR NC : Nat} [Inhabited α] [Sub α] (left right : Matrix NR NC α) :
    Except Fault (Matrix NR NC α) :=
  zipLoop (fun l x => l - x) left right

/-- `operator*(left, right)` on two matrices: the elementwise product. -/
def mul {NR NC : Nat} [Inhabited α] [Mul α] (left right : Matrix NR NC α) :
    Except Fault (Matrix NR NC α) :=
  zipLoop (fun l x => l * x) left right

/-- `operator*(float left, right)`. -/
def smul {NR NC : Nat} [Inhabited α] [Mul α] (left : α) (right : Matrix NR NC α) :
    Except Fault (Matrix NR NC α) :=
  right.apply (fun x => left * x)

/-- `operator+=`: `*this = *this + right`. -/
def addAssign {NR NC : Nat} [Inhabited α] [Add α] (self right : Matrix NR NC α) :
    Except Fault (Matrix NR NC α) :=
  add self right

/-- `operator-=`: `*this = *this - right`. -/
def subAssign {NR NC : Nat} [Inhabited α] [Sub α] (self right : Matrix NR NC α) :
    Except Fault (Matrix NR NC α) :=
  sub self right

/-- `sum(input)`. -/
def sum {NR NC : Nat} [Zero α] [Add α] (input : Matrix NR NC α) : Except Fault α :=
  forLoop (NR * NC)
    (fun i result => do
      let x ← input.get i
      pure (result + x))
    (0 : α)

/-- `pow(base, power)`, with the library function `powf` as a parameter. -/
def pow {NR NC : Nat} [Inhabited α] (powf : α → α → α) (base : Matrix NR NC α) (power : α) :
    Except Fault (Matrix NR NC α) :=
  base.apply (fun x => powf x power)

/-- `sigmoidf(x)`: `1.0f/(1.0f + expf(-x))`. -/
def sigmoidf [One α] [Add α] [Div α] [Neg α] (expf : α → α) (x : α) : α :=
  1 / (1 + expf (-x))

/-- `sigmoid(input)`. -/
def sigmoid {NR NC : Nat} [Inhabited α] [One α] [Add α] [Div α] [Neg α] (expf : α → α)
    (input : Matrix NR NC α) : Except Fault (Matrix NR NC α) :=
  input.apply (sigmoidf expf)

/-- `d_sigmoid(input)`. -/
def d_sigmoid {NR NC : Nat} [Inhabited α] [One α] [Add α] [Sub α] [Mul α] [Div α] [Neg α]
    (expf : α → α) (input : Matrix NR NC α) : Except Fault (Matrix NR NC α) :=
  input.apply (fun x => sigmoidf expf x * (1 - sigmoidf expf x))

/-- `exp(input)`. -/
def exp {NR NC : Nat} [Inhabited α] (expf : α → α) (input : Matrix NR NC α) :
    Except Fault (Matrix NR NC α) :=
  input.apply expf

/-- `softmax(input)`. -/
def softmax {NR NC : Nat} [Inhabited α] [Zero α] [Add α] [Div α] (expf : α → α)
    (input : Matrix NR NC α) : Except Fault (Matrix NR NC α) := do
  let expon ← exp expf input
  let denom ← sum expon
  input.apply (fun x => expf x / denom)

/-- Row `r` of `left` times column `c` of `right`, accumulated from `0` in increasing `i`. -/
def rowCol {NR1 NC1 NC2 : Nat} [Zero α] [Add α] [Mul α]
    (left : Matrix NR1 NC1 α) (right : Matrix NC1 NC2 α) (r : Fin NR1) (c : Fin NC2) : α :=
  (List.finRange NC1).foldl (fun acc i => acc + left.entry r i * right.entry i c) 0

/-! ## `main.cpp`: the training loop -/

/-- The constants `batch_size`, `epochs` and `learning_rate` of `main`. -/
structure Hyper (α : Type) where
  batch_size : Nat
  epochs : Nat
  learning_rate : α

/-- The values `main` gives them: `128`, `64`, `1.0f`. -/
def mainHyper [One α] : Hyper α := ⟨128, 64, 1⟩

/-- What `main` keeps of the two dataset files: the image count (a `uint32_t`), the bytes of
the `labels` buffer and the bytes of the `image_data` buffer. -/
structure Dataset where
  num_images : Nat
  labels : List Nat
  image_data : List Nat

/-- Raw read `buf[i]` of a heap buffer of bytes. -/
def readBuf (buf : List Nat) (i : Nat) : Except Fault Nat :=
  match buf[i]? with
  | some b => .ok b
  | none => .error .outOfBounds

/-- Conversion of a `char` holding the byte `b` to `size_t` (`char` is signed on the target,
so bytes from 128 up are negative and wrap to the top of the 64-bit range). -/
def charToSize (b : Nat) : Nat := if b < 128 then b else 2 ^ 64 - 256 + b

/-- The six learnable parameters `w1, b1, w2, b2, w3, b3`. -/
structure Params (α : Type) where
  w1 : Matrix 16 784 α
  b1 : Matrix 16 1 α
  w2 : Matrix 16 16 α
  b2 : Matrix 16 1 α
  w3 : Matrix 10 16 α
  b3 : Matrix 10 1 α

/-- The variables a batch accumulates into: `a_dw1 .. a_db3`, `loss`, `num_correct`. -/
structure Accum (α : Type) where
  a_dw1 : Matrix 16 784 α
  a_db1 : Matrix 16 1 α
  a_dw2 : Matrix 16 16 α
  a_db2 : Matrix 16 1 α
  a_dw3 : Matrix 10 16 α
  a_db3 : Matrix 10 1 α
  loss : α
  num_correct : Nat

/-- The intermediate values `z1, a1, z2, a2, z3, a3` of the forward pass. -/
structure Forward (α : Type) where
  z1 : Matrix 16 1 α
  a1 : Matrix 16 1 α
  z2 : Matrix 16 1 α
  a2 : Matrix 16 1 α
  z3 : Matrix 10 1 α
  a3 : Matrix 10 1 α

/-- The per-sample gradients `dw1, db1, dw2, db2, dw3, db3`. -/
structure Grads (α : Type) where
  dw1 : Matrix 16 784 α
  db1 : Matrix 16 1 α
  dw2 : Matrix 16 16 α
  db2 : Matrix 16 1 α
  dw3 : Matrix 10 16 α
  db3 : Matrix 10 1 α

/-- The two numbers a batch prints: `loss` and `accuracy`. -/
structure Report (α : Type) where
  loss : α
  accuracy : α

/-- Lines 109-111: the input vector `a0` of the sample `image`. -/
def loadInput [Inhabited α] [NatCast α] [Div α] (ds : Dataset) (image : Nat) :
    Except Fault (Matrix 784 1 α) :=
  forLoop (28 * 28)
    (fun texel (a0 : Matrix 784 1 α) => do
      let px ← readBuf ds.image_data (image * 28 * 28 + texel)
      a0.atSet texel 0 ((px : α) / ((255 : Nat) : α)))
    uninit

/-- Lines 113-120: the forward pass. -/
def forward [Inhabited α] [Zero α] [One α] [Add α] [Mul α] [Div α] [Neg α] (expf : α → α)
    (p : Params α) (a0 : Matrix 784 1 α) : Except Fault (Forward α) := do
  let z1 ← add (← dot p.w1 a0) p.b1
  let a1 ← sigmoid expf z1
  let z2 ← add (← dot p.w2 a1) p.b2
  let a2 ← sigmoid expf z2
  let z3 ← add (← dot p.w3 a2) p.b3
  let a3 ← softmax expf z3
  pure ⟨z1, a1, z2, a2, z3, a3⟩

/-- Lines 122-130: the prediction scan; the state is `(digit, digit_prob)`. -/
def predict [LT α] [DecidableRel (fun (a b : α) => a < b)] (negInf : α)
    (a3 : Matrix 10 1 α) : Except Fault Nat := do
  let s ← forLoop 10
    (fun i (s : Nat × α) => do
      let x ← a3.atGet i 0
      if s.2 < x then pure (i, x) else pure s)
    (0, negInf)
  pure s.1

/-- Lines 136-137: the one-hot target `y` of a label byte. -/
def oneHot [Zero α] [One α] (label : Nat) : Except Fault (Matrix 10 1 α) :=
  (zero : Matrix 10 1 α).atSet (charToSize label) 0 1

/-- Lines 141-153: the backward pass. -/
def backward [Inhabited α] [Zero α] [One α] [Add α] [Sub α] [Mul α] [Div α] [Neg α]
    [NatCast α] (expf : α → α) (p : Params α) (a0 : Matrix 784 1 α) (fw : Forward α)
    (y : Matrix 10 1 α) : Except Fault (Grads α) := do
  let dz3 ← smul ((2 : Nat) : α) (← sub fw.a3 y)
  let dw3 ← dot dz3 (← fw.a2.T)
  let db3 := dz3
  let da2 ← dot (← p.w3.T) dz3
  let dz2 ← mul da2 (← d_sigmoid expf fw.z2)
  let dw2 ← dot dz2 (← fw.a1.T)
  let db2 := dz2
  let da1 ← dot (← p.w2.T) dz2
  let dz1 ← mul da1 (← d_sigmoid expf fw.z1)
  let dw1 ← dot dz1 (← a0.T)
  let db1 := dz1
  pure ⟨dw1, db1, dw2, db2, dw3, db3⟩

/-- Lines 105-163: the body of the sample loop, for the sample `batch_i` of the batch that
starts at `image_base`. -/
def sampleBody [Inhabited α] [Zero α] [One α] [Add α] [Sub α] [Mul α] [Div α] [Neg α]
    [NatCast α] [LT α] [DecidableRel (fun (a b : α) => a < b)]
    (expf : α → α) (powf : α → α → α) (negInf : α) (ds : Dataset) (p : Params α)
    (image_base batch_i : Nat) (acc : Accum α) : Except Fault (Accum α) := do
  if ds.num_images = 0 then throw Fault.divByZero
  let image := (image_base + batch_i) % 2 ^ 64 % ds.num_images
  let a0 ← loadInput ds image
  let fw ← forward expf p a0
  let digit ← predict negInf fw.a3
  let label ← readBuf ds.labels image
  let num_correct := if digit = charToSize label then acc.num_correct + 1 else acc.num_correct
  let y ← oneHot label
  let loss := acc.loss + (← sum (← pow powf (← sub fw.a3 y) ((2 : Nat) : α)))
  let g ← backward expf p a0 fw y
  let a_dw1 ← addAssign acc.a_dw1 g.dw1
  let a_db1 ← addAssign acc.a_db1 g.db1
  let a_dw2 ← addAssign acc.a_dw2 g.dw2
  let a_db2 ← addAssign acc.a_db2 g.db2
  let a_dw3 ← addAssign acc.a_dw3 g.dw3
  let a_db3 ← addAssign acc.a_db3 g.db3
  pure ⟨a_dw1, a_db1, a_dw2, a_db2, a_dw3, a_db3, loss, num_correct⟩

/-- Lines 93-180: the body of the batch loop, for the batch that starts at `image_base`:
the new parameters and the printed loss and accuracy. -/
def batchBody [Inhabited α] [Zero α] [One α] [Add α] [Sub α] [Mul α] [Div α] [Neg α]
    [NatCast α] [LT α] [DecidableRel (fun (a b : α) => a < b)]
    (expf : α → α) (powf : α → α → α) (negInf : α) (h : Hyper α) (ds : Dataset)
    (image_base : Nat) (p : Params α) : Except Fault (Params α × Report α) := do
  let acc ← forLoop h.batch_size
    (fun batch_i acc => sampleBody expf powf negInf ds p image_base batch_i acc)
    (⟨zero, zero, zero, zero, zero, zero, 0, 0⟩ : Accum α)
  let loss := acc.loss / (h.batch_size : α)
  let factor := h.learning_rate / (h.batch_size : α)
  let w1 ← subAssign p.w1 (← smul factor acc.a_dw1)
  let b1 ← subAssign p.b1 (← smul factor acc.a_db1)
  let w2 ← subAssign p.w2 (← smul factor acc.a_dw2)
  let b2 ← subAssign p.b2 (← smul factor acc.a_db2)
  let w3 ← subAssign p.w3 (← smul factor acc.a_dw3)
  let b3 ← subAssign p.b3 (← smul factor acc.a_db3)
  let accuracy := (acc.num_correct : α) / (h.batch_size : α) * ((100 : Nat) : α)
  pure (⟨w1, b1, w2, b2, w3, b3⟩, ⟨loss, accuracy⟩)

/-! ## The values the operations compute

Closed forms, free of loops and of faults, of the results of the operations above; the
lemmas below show that each operation returns the corresponding value. -/

namespace Matrix

variable {NR NC : Nat}

/-- The matrix with element `(r, c)` equal to `f r c`. -/
def ofFn (f : Fin NR → Fin NC → α) : Matrix NR NC α :=
  ⟨fun k => f
    ⟨k.val / NC, Nat.div_lt_of_lt_mul (Nat.lt_of_lt_of_eq k.isLt (Nat.mul_comm NR NC))⟩
    ⟨k.val % NC, Nat.mod_lt _ (Nat.pos_of_ne_zero (by
      rintro rfl
      exact absurd k.isLt (by simp)))⟩⟩

/-- The value of `T()`. -/
def transpose (m : Matrix NR NC α) : Matrix NC NR α := ofFn (fun c r => m.entry r c)

end Matrix

/-- The value of `dot(left, right)`. -/
def dotVal {NR1 NC1 NC2 : Nat} [Zero α] [Add α] [Mul α]
    (left : Matrix NR1 NC1 α) (right : Matrix NC1 NC2 α) : Matrix NR1 NC2 α :=
  Matrix.ofFn (rowCol left right)

/-- The value of `sum(input)`. -/
def sumVal {NR NC : Nat} [Zero α] [Add α] (input : Matrix NR NC α) : α :=
  (List.finRange (NR * NC)).foldl (fun acc i => acc + input.data i) 0

/-- The value of `softmax(input)`. -/
def softmaxVal {NR NC : Nat} [Zero α] [Add α] [Div α] (expf : α → α)
    (input : Matrix NR NC α) : Matrix NR NC α :=
  input.map (fun x => expf x / sumVal (input.map expf))

/-- The value of the forward pass. -/
def forwardVal [Zero α] [One α] [Add α] [Mul α] [Div α] [Neg α] (expf : α → α)
    (p : Params α) (a0 : Matrix 784 1 α) : Forward α :=
  let z1 := Matrix.zipWith (fun l x => l + x) (dotVal p.w1 a0) p.b1
  let a1 := z1.map (sigmoidf expf)
  let z2 := Matrix.zipWith (fun l x => l + x) (dotVal p.w2 a1) p.b2
  let a2 := z2.map (sigmoidf expf)
  let z3 := Matrix.zipWith (fun l x => l + x) (dotVal p.w3 a2) p.b3
  let a3 := softmaxVal expf z3
  ⟨z1, a1, z2, a2, z3, a3⟩

/-- The final state `(digit, digit_prob)` of the prediction scan. -/
def predictState [LT α] [DecidableRel (fun (a b : α) => a < b)] (negInf : α)
    (a3 : Matrix 10 1 α) : Nat × α :=
  (List.finRange 10).foldl
    (fun (s : Nat × α) i => if s.2 < a3.entry i 0 then (i.val, a3.entry i 0) else s)
    (0, negInf)

/-- The value of the prediction scan. -/
def predictVal [LT α] [DecidableRel (fun (a b : α) => a < b)] (negInf : α)
    (a3 : Matrix 10 1 α) : Nat :=
  (predictState negInf a3).1

/-- The one-hot target of the label index `label`: `1` at `label`, `0` elsewhere. -/
def oneHotVal [Zero α] [One α] (label : Nat) : Matrix 10 1 α :=
  ⟨fun k => if k.val = label then 1 else 0⟩

/-- The value of the backward pass. -/
def backwardVal [Zero α] [One α] [Add α] [Sub α] [Mul α] [Div α] [Neg α] [NatCast α]
    (expf : α → α) (p : Params α) (a0 : Matrix 784 1 α) (fw : Forward α)
    (y : Matrix 10 1 α) : Grads α :=
  let dz3 := (Matrix.zipWith (fun l x => l - x) fw.a3 y).map (fun x => ((2 : Nat) : α) * x)
  let dw3 := dotVal dz3 fw.a2.transpose
  let da2 := dotVal p.w3.transpose dz3
  let dz2 := Matrix.zipWith (fun l x => l * x) da2
    (fw.z2.map (fun x => sigmoidf expf x * (1 - sigmoidf expf x)))
  let dw2 := dotVal dz2 fw.a1.transpose
  let da1 := dotVal p.w2.transpose dz2
  let dz1 := Matrix.zipWith (fun l x => l * x) da1
    (fw.z1.map (fun x => sigmoidf expf x * (1 - sigmoidf expf x)))
  let dw1 := dotVal dz1 a0.transpose
  ⟨dw1, dz1, dw2, dz2, dw3, dz3⟩

/-- The accumulators after one more sample with input `a0` and label index `label`. -/
def sampleVal [Zero α] [One α] [Add α] [Sub α] [Mul α] [Div α] [Neg α] [NatCast α] [LT α]
    [DecidableRel (fun (a b : α) => a < b)] (expf : α → α) (powf : α → α → α) (negInf : α)
    (p : Params α) (a0 : Matrix 784 1 α) (label : Nat) (acc : Accum α) : Accum α :=
  let fw := forwardVal expf p a0
  let y : Matrix 10 1 α := oneHotVal label
  let g := backwardVal expf p a0 fw y
  ⟨Matrix.zipWith (fun l x => l + x) acc.a_dw1 g.dw1,
   Matrix.zipWith (fun l x => l + x) acc.a_db1 g.db1,
   Matrix.zipWith (fun l x => l + x) acc.a_dw2 g.dw2,
   Matrix.zipWith (fun l x => l + x) acc.a_db2 g.db2,
   Matrix.zipWith (fun l x => l + x) acc.a_dw3 g.dw3,
   Matrix.zipWith (fun l x => l + x) acc.a_db3 g.db3,
   acc.loss + sumVal ((Matrix.zipWith (fun l x => l - x) fw.a3 y).map
     (fun x => powf x ((2 : Nat) : α))),
   if predictVal negInf fw.a3 = label then acc.num_correct + 1 else acc.num_correct⟩

/-- The index `image` of the sample `batch_i` of the batch that starts at `image_base`. -/
def sampleIndex (ds : Dataset) (image_base batch_i : Nat) : Nat :=
  (image_base + batch_i) % 2 ^ 64 % ds.num_images

/-- The value of the input vector of the sample `image`. -/
def loadInputVal [NatCast α] [Div α] (ds : Dataset) (image : Nat) : Matrix 784 1 α :=
  Matrix.ofFn (fun texel _ =>
    ((ds.image_data.getD (image * 28 * 28 + texel.val) 0 : Nat) : α) / ((255 : Nat) : α))

/-- The label index of the sample `image`. -/
def labelVal (ds : Dataset) (image : Nat) : Nat := charToSize (ds.labels.getD image 0)

/-- The sample `image` can be processed: there is an image to index, its pixels and its
label lie inside the two buffers, and the label is a digit. -/
def SampleOk (ds : Dataset) (image : Nat) : Prop :=
  ds.num_images ≠ 0 ∧ image * 28 * 28 + 28 * 28 ≤ ds.image_data.length ∧
    image < ds.labels.length ∧ ds.labels.getD image 0 ≤ 9

instance instDecidableSampleOk (ds : Dataset) (image : Nat) : Decidable (SampleOk ds image) := by
  unfold SampleOk
  exact inferInstance

/-- The accumulators after the samples of the batch that starts at `image_base`. -/
def accumVal [Zero α] [One α] [Add α] [Sub α] [Mul α] [Div α] [Neg α] [NatCast α] [LT α]
    [DecidableRel (fun (a b : α) => a < b)] (expf : α → α) (powf : α → α → α) (negInf : α)
    (h : Hyper α) (ds : Dataset) (image_base : Nat) (p : Params α) : Accum α :=
  (List.finRange h.batch_size).foldl
    (fun acc batch_i => sampleVal expf powf negInf p
      (loadInputVal ds (sampleIndex ds image_base batch_i.val))
      (labelVal ds (sampleIndex ds image_base batch_i.val)) acc)
    (⟨Matrix.zero, Matrix.zero, Matrix.zero, Matrix.zero, Matrix.zero, Matrix.zero, 0, 0⟩ :
      Accum α)

/-- The parameters and the report a batch ends with, from its final accumulators. -/
def updateVal [Sub α] [Mul α] [Div α] [NatCast α] (h : Hyper α) (p : Params α)
    (acc : Accum α) : Params α × Report α :=
  let factor := h.learning_rate / (h.batch_size : α)
  (⟨Matrix.zipWith (fun l x => l - x) p.w1 (acc.a_dw1.map (fun x => factor * x)),
    Matrix.zipWith (fun l x => l - x) p.b1 (acc.a_db1.map (fun x => factor * x)),
    Matrix.zipWith (fun l x => l - x) p.w2 (acc.a_dw2.map (fun x => factor * x)),
    Matrix.zipWith (fun l x => l - x) p.b2 (acc.a_db2.map (fun x => factor * x)),
    Matrix.zipWith (fun l x => l - x) p.w3 (acc.a_dw3.map (fun x => factor * x)),
    Matrix.zipWith (fun l x => l - x) p.b3 (acc.a_db3.map (fun x => factor * x))⟩,
   ⟨acc.loss / (h.batch_size : α),
    (acc.num_correct : α) / (h.batch_size : α) * ((100 : Nat) : α)⟩)

/-- Lines 107-130 for one sample: the class the network predicts for the sample `image`. -/
def predictedClass [Inhabited α] [Zero α] [One α] [Add α] [Mul α] [Div α] [Neg α] [NatCast α]
    [LT α] [DecidableRel (fun (a b : α) => a < b)] (expf : α → α) (negInf : α) (ds : Dataset)
    (p : Params α) (image : Nat) : Except Fault Nat := do
  let a0 ← loadInput ds image
  let fw ← forward expf p a0
  predict negInf fw.a3

/-- The number of samples of the batch that starts at `image_base` whose predicted class
equals their label. -/
def correctCount [Inhabited α] [Zero α] [One α] [Add α] [Mul α] [Div α] [Neg α] [NatCast α]
    [LT α] [DecidableRel (fun (a b : α) => a < b)] (expf : α → α) (negInf : α) (h : Hyper α)
    (ds : Dataset) (image_base : Nat) (p : Params α) : Nat :=
  (List.finRange h.batch_size).countP (fun batch_i =>
    decide (predictedClass expf negInf ds p (sampleIndex ds image_base batch_i.val)
      = .ok (labelVal ds (sampleIndex ds image_base batch_i.val))))

/-! ## A model of IEEE-754 binary32 (`float`) -/

/-- A `float` datum: NaN, an infinity, or a finite value given by its sign bit and the
exact rational value of its magnitude (so `fin true 0` is `-0.0f`). -/
inductive F32 where
  | nan
  | inf (neg : Bool)
  | fin (neg : Bool) (mag : ℚ)
  deriving DecidableEq

namespace F32

/-- The rational `2 ^ e`. -/
def pow2 (e : Int) : ℚ :=
  match e with
  | .ofNat n => ((2 ^ n : Nat) : ℚ)
  | .negSucc n => 1 / ((2 ^ (n + 1) : Nat) : ℚ)

/-- Binary logarithm of `n`, rounded down, by at most `fuel` halvings. -/
def log2Aux (fuel n : Nat) : Nat :=
  match fuel with
  | 0 => 0
  | fuel + 1 => if n < 2 then 0 else log2Aux fuel (n / 2) + 1

/-- The integer `e` with `2 ^ e ≤ q < 2 ^ (e + 1)`, for `q > 0`. -/
def ilog2 (q : ℚ) : Int :=
  let d : Int := (log2Aux q.num.toNat q.num.toNat : Int) - (log2Aux q.den q.den : Int)
  if pow2 d ≤ q then d else d - 1

/-- Nearest natural number to `t ≥ 0`, ties to the even one. -/
def rne (t : ℚ) : Nat :=
  let f : Nat := ⌊t⌋₊
  let r : ℚ := t - (f : ℚ)
  if r < 1 / 2 then f else if 1 / 2 < r then f + 1 else if f % 2 = 0 then f else f + 1

/-- Rounding to nearest, ties to even, of the exact magnitude `q ≥ 0` of a result with sign
bit `neg`: 24 significant bits, least exponent `-126` (below it the spacing stays `2 ^ -149`,
the subnormal range), overflow to infinity from `2 ^ 128`. -/
def round (neg : Bool) (q : ℚ) : F32 :=
  let e : Int := max (ilog2 q) (-126)
  let ulp : ℚ := pow2 (e - 23)
  let v : ℚ := (rne (q / ulp) : ℚ) * ulp
  if q = 0 then fin neg 0 else if pow2 128 ≤ v then inf neg else fin neg v

/-- The signed rational value of a finite datum. -/
def signed (neg : Bool) (mag : ℚ) : ℚ := if neg then -mag else mag

/-- Rounding of an exact signed result; an exact zero gets the sign bit `zneg`. -/
def roundSigned (zneg : Bool) (x : ℚ) : F32 :=
  if x = 0 then fin zneg 0 else round (decide (x < 0)) |x|

/-- Addition: `x + y`. Exact cancellation gives `+0.0f`; zeros of one sign add to it. -/
def add : F32 → F32 → F32
  | nan, _ => nan
  | _, nan => nan
  | inf s, inf t => if s = t then inf s else nan
  | inf s, fin _ _ => inf s
  | fin _ _, inf t => inf t
  | fin s a, fin t b => roundSigned (s && t) (signed s a + signed t b)

/-- Negation: `-x`. -/
def neg : F32 → F32
  | nan => nan
  | inf s => inf (!s)
  | fin s a => fin (!s) a

/-- Subtraction: `x - y`. -/
def sub (x y : F32) : F32 := add x (neg y)

/-- Multiplication: `x * y`; `0 * inf` is NaN. -/
def mul : F32 → F32 → F32
  | nan, _ => nan
  | _, nan => nan
  | inf s, inf t => inf (xor s t)
  | inf s, fin t b => if b = 0 then nan else inf (xor s t)
  | fin s a, inf t => if a = 0 then nan else inf (xor s t)
  | fin s a, fin t b => round (xor s t) (a * b)

/-- Division: `x / y`; `0 / 0` and `inf / inf` are NaN, a nonzero over zero is infinite. -/
def div : F32 → F32 → F32
  | nan, _ => nan
  | _, nan => nan
  | inf _, inf _ => nan
  | inf s, fin t _ => inf (xor s t)
  | fin s _, inf t => fin (xor s t) 0
  | fin s a, fin t b =>
    if b = 0 then (if a = 0 then nan else inf (xor s t)) else round (xor s t) (a / b)

/-- The comparison `x < y`: false when an operand is NaN, and `-0.0f < 0.0f` is false. -/
def lt : F32 → F32 → Bool
  | nan, _ => false
  | _, nan => false
  | inf s, inf t => s && !t
  | inf s, fin _ _ => s
  | fin _ _, inf t => !t
  | fin s a, fin t b => decide (signed s a < signed t b)

instance : Inhabited F32 := ⟨nan⟩
instance : Zero F32 := ⟨fin false 0⟩
instance : One F32 := ⟨fin false 1⟩
instance : Add F32 := ⟨add⟩
instance : Sub F32 := ⟨sub⟩
instance : Neg F32 := ⟨neg⟩
instance : Mul F32 := ⟨mul⟩
instance : Div F32 := ⟨div⟩
instance : NatCast F32 := ⟨fun n => round false (n : ℚ)⟩
instance : LT F32 := ⟨fun x y => lt x y = true⟩
instance : DecidableRel (fun (x y : F32) => x < y) := fun x y =>
  inferInstanceAs (Decidable (lt x y = true))

/-- The values of the C library function `expf` that are fixed independently of the library:
`expf(NaN)` is NaN, `expf(+inf) = +inf`, `expf(-inf) = +0`, `expf(±0) = 1`, and for a finite
argument of `89` or more the result overflows to `+inf` (as `e ^ 89` exceeds the largest
`float`, `2 ^ 128 - 2 ^ 104`). At the other arguments, where the result depends on the
library, this table holds NaN; the theorems that use it evaluate it only where it is fixed. -/
def expfTable : F32 → F32
  | nan => nan
  | inf s => if s then fin false 0 else inf false
  | fin s a => if a = 0 then fin false 1 else if !s && decide (89 ≤ a) then inf false else nan

end F32

/-! ## Predicates on `float` data -/

namespace F32

/-- The datum is finite: neither NaN nor an infinity. -/
def isFinite : F32 → Bool
  | fin _ _ => true
  | _ => false

/-- The datum is a value of the type `float`: NaN, an infinity, or a finite value whose
magnitude is not negative and is representable, that is, left unchanged by rounding. -/
def IsFloat : F32 → Prop
  | fin s q => 0 ≤ q ∧ round s q = fin s q
  | _ => True

/-- The datum `y` is the datum `x`, or `x` is `-0.0f` and `y` is `+0.0f`. -/
def sameOrPosZero (x y : F32) : Prop := y = x ∨ (x = fin true 0 ∧ y = fin false 0)

/-- The datum is `+inf`, or finite with a clear sign bit: neither NaN nor negative. -/
def IsNonneg : F32 → Prop
  | nan => False
  | inf s => s = false
  | fin s q => s = false ∧ 0 ≤ q

end F32

/-! ## A frozen single-sample batch in `float` arithmetic -/

/-- A dataset of one all-black image with label `1`. -/
def frozenData : Dataset := ⟨1, [1], List.replicate 784 0⟩

/-- Parameters that are all `0.0f` except `b3[0] = 100.0f`. -/
def frozenParams : Params F32 :=
  ⟨Matrix.zero, Matrix.zero, Matrix.zero, Matrix.zero, Matrix.zero,
   ⟨fun k => if k.val = 0 then F32.fin false 100 else F32.fin false 0⟩⟩

/-- The constants of a frozen single-sample batch: `batch_size = 1`, `learning_rate = 0.0f`. -/
def frozenHyper : Hyper F32 := ⟨1, 1, 0⟩

/-- A stand-in for `powf`, which only the printed loss depends on: `x * x`. -/
def powfSquare (x _power : F32) : F32 := x * x

/-- A dataset of one all-black image with label `0`. -/
def zeroLabelData : Dataset := ⟨1, [0], List.replicate 784 0⟩

/-- Parameters that are all `+0.0f` except `b3[0] = -0.0f`. -/
def negZeroParams : Params F32 :=
  ⟨Matrix.zero, Matrix.zero, Matrix.zero, Matrix.zero, Matrix.zero,
   ⟨fun k => if k.val = 0 then F32.fin true 0 else F32.fin false 0⟩⟩

/-- Parameters that are all `0.0f` except `b2[0] = -100.0f`. -/
def signParams : Params F32 :=
  ⟨Matrix.zero, Matrix.zero, Matrix.zero,
   ⟨fun k => if k.val = 0 then F32.fin true 100 else F32.fin false 0⟩,
   Matrix.zero, Matrix.zero⟩

/-! ## `main.cpp`: reading the dataset -/

/-- `reverse_integer<uint32_t>(x)` on a little-endian host: `in[i]` is byte `i` of `x`, the loop
stores it at `out[sizeof(T) - i - 1]`, and the result is the integer whose bytes are `out`
(the bytes of `out`, indeterminate before the loop, start as `0`). -/
def reverse_integer (x : Nat) : Nat :=
  let out := (List.range 4).foldl
    (fun (out : List Nat) i => out.set (4 - i - 1) (x / 256 ^ i % 256)) (List.replicate 4 0)
  out.getD 0 0 + out.getD 1 0 * 256 + out.getD 2 0 * 256 ^ 2 + out.getD 3 0 * 256 ^ 3

/-- What the console shows when startup stops with status `1`. -/
inductive Message where
  | failedToLoad
  | unrecognized
  deriving DecidableEq, Repr

/-- Ways in which `main` ends before completing the training: `exit(1)` or `return 1` after
a message, a failed `assert` (the process aborts), or undefined behaviour (an indeterminate
value is used, or memory outside a buffer is accessed). -/
inductive Stop where
  | exit1 (msg : Message)
  | abort
  | undefined
  deriving DecidableEq, Repr

/-- `load_buffer(path)`: the unread bytes of the opened file, `exit(1)` when it cannot be
opened (`none`). -/
def load_buffer (contents : Option (List Nat)) : Except Stop (List Nat) :=
  match contents with
  | some bytes => .ok bytes
  | none => .error (.exit1 .failedToLoad)

/-- `load<uint32_t>(file)` on a little-endian host: `fread` stores the next four bytes at
increasing addresses of `result`; with fewer than four bytes left `result` is indeterminate. -/
def load (file : List Nat) : Except Stop (Nat × List Nat) :=
  match file with
  | b0 :: b1 :: b2 :: b3 :: rest => .ok (b0 + b1 * 256 + b2 * 256 ^ 2 + b3 * 256 ^ 3, rest)
  | _ => .error .undefined

/-- `load_big_endian<uint32_t>(file)`. -/
def load_big_endian (file : List Nat) : Except Stop (Nat × List Nat) := do
  let (result, file) ← load file
  pure (reverse_integer result, file)

/-- `fread` of up to `want` bytes into a fresh buffer of `cap` bytes: writing past the buffer
is undefined behaviour; bytes the file does not provide stay indeterminate (shown as `0`). -/
def freadBuf (file : List Nat) (cap want : Nat) : Except Stop (List Nat) :=
  if cap < (file.take want).length then .error .undefined
  else .ok (file.take want ++ List.replicate (cap - (file.take want).length) 0)

/-- The length of the buffer `new uint8_t[num_images * 28 * 28]`: the product is computed
in `uint32_t`. -/
def imageBufLen (num_images : Nat) : Nat := num_images * 28 * 28 % 2 ^ 32

/-- Lines 44-73 of `main`: reading and validating the two dataset files, given as their
contents (`none` for a file that cannot be opened). -/
def startup (labelsFile imagesFile : Option (List Nat)) : Except Stop Dataset := do
  let file ← load_buffer labelsFile
  let (magic, file) ← load_big_endian file
  if magic ≠ 2049 then
    throw (Stop.exit1 Message.unrecognized)
  else
    let (num_labels, file) ← load_big_endian file
    let labels ← freadBuf file num_labels (1 * num_labels)
    let file ← load_buffer imagesFile
    let (magic, file) ← load_big_endian file
    if magic ≠ 2051 then
      throw (Stop.exit1 Message.unrecognized)
    else
      let (num_images, file) ← load_big_endian file
      if num_images ≠ num_labels then
        throw Stop.abort
      else
        let (image_rows, file) ← load_big_endian file
        let (image_cols, file) ← load_big_endian file
        if ¬ (image_rows = 28 ∧ image_cols = 28) then
          throw Stop.abort
        else
          let image_data ← freadBuf file (imageBufLen num_images) (28 * 28 * num_images)
          pure ⟨num_images, labels, image_data⟩

/-- The big-endian 32-bit word number `k` of a file. -/
def beWord (bytes : List Nat) (k : Nat) : Nat :=
  bytes.getD (4 * k) 0 * 2 ^ 24 + bytes.getD (4 * k + 1) 0 * 2 ^ 16
    + bytes.getD (4 * k + 2) 0 * 2 ^ 8 + bytes.getD (4 * k + 3) 0

/-! ## `main.cpp`: initialisation and the epoch and batch loops -/

/-- `static Matrix randn(std::default_random_engine generator)`: `generator` is the callee's
copy of the engine (the parameter is passed by value) and `fresh` the state of the newly
constructed `distribution`; `draw` is one call `distribution(generator)`, which returns a
sample and advances both. Only the matrix is returned. -/
def Matrix.randn {NR NC : Nat} {E D : Type} [Inhabited α] (draw : D × E → α × (D × E))
    (fresh : D) (generator : E) : Except Fault (Matrix NR NC α) := do
  let s ← forLoop (NR * NC)
    (fun i (s : Matrix NR NC α × (D × E)) => do
      let result ← s.1.set i (draw s.2).1
      pure (result, (draw s.2).2))
    (Matrix.uninit, (fresh, generator))
  pure s.1

/-- Lines 79-88 of `main`: the initial parameters, every `randn` called with the variable
`generator`. -/
def initParams {E D : Type} [Inhabited α] [Zero α] (draw : D × E → α × (D × E)) (fresh : D)
    (generator : E) : Except Fault (Params α) := do
  let w1 ← Matrix.randn draw fresh generator
  let b1 := Matrix.zero
  let w2 ← Matrix.randn draw fresh generator
  let b2 := Matrix.zero
  let w3 ← Matrix.randn draw fresh generator
  let b3 := Matrix.zero
  pure ⟨w1, b1, w2, b2, w3, b3⟩

/-- Line 91: `for (uint32_t image_base = 0; image_base < num_images; image_base += batch_size)`
from the current `image_base`, for at most `fuel` tests of the condition (`none` when that
many do not reach the exit). The sum is formed in `size_t` and stored in a `uint32_t`. -/
def batchLoop {σ : Type} (fuel num_images batch_size : Nat) (body : Nat → σ → Except Fault σ)
    (image_base : Nat) (s : σ) : Except Fault (Option σ) :=
  match fuel with
  | 0 => .ok none
  | fuel + 1 =>
    if image_base < num_images then do
      let s ← body image_base s
      batchLoop fuel num_images batch_size body
        ((image_base + batch_size) % 2 ^ 64 % 2 ^ 32) s
    else .ok (some s)

/-- Line 90: the epoch loop around the batch loop, each batch loop with `fuel` tests. -/
def epochLoop {σ : Type} (fuel epochs num_images batch_size : Nat)
    (body : Nat → σ → Except Fault σ) (s : σ) : Except Fault (Option σ) :=
  forLoop epochs
    (fun _ (s : Option σ) =>
      match s with
      | some s => batchLoop fuel num_images batch_size body 0 s
      | none => .ok none)
    (some s)

/-- Lines 90-182: the training. The state is the current parameters and the history of the
run: for each batch so far, the parameters after it and the report it printed. -/
def train [Inhabited α] [Zero α] [One α] [Add α] [Sub α] [Mul α] [Div α] [Neg α]
    [NatCast α] [LT α] [DecidableRel (fun (a b : α) => a < b)]
    (expf : α → α) (powf : α → α → α) (negInf : α) (fuel : Nat) (h : Hyper α) (ds : Dataset)
    (p : Params α) : Except Fault (Option (Params α × List (Params α × Report α))) :=
  epochLoop fuel h.epochs ds.num_images h.batch_size
    (fun image_base (s : Params α × List (Params α × Report α)) => do
      let r ← batchBody expf powf negInf h ds image_base s.1
      pure (r.1, s.2 ++ [r]))
    (p, [])

/-- How a fault of the training ends the process: a failed `assert` aborts, the others are
undefined behaviour. -/
def stopOfFault : Fault → Stop
  | .assertion => .abort
  | .outOfBounds => .undefined
  | .divByZero => .undefined

/-- The whole of `main`: startup, initialisation, training with the constants of the source;
`.ok` is the return with status `0`. -/
def mainRun {E D : Type} [Inhabited α] [Zero α] [One α] [Add α] [Sub α] [Mul α] [Div α]
    [Neg α] [NatCast α] [LT α] [DecidableRel (fun (a b : α) => a < b)]
    (expf : α → α) (powf : α → α → α) (negInf : α) (draw : D × E → α × (D × E)) (fresh : D)
    (generator : E) (fuel : Nat) (labelsFile imagesFile : Option (List Nat)) :
    Except Stop (Option (Params α × List (Params α × Report α))) := do
  let ds ← startup labelsFile imagesFile
  let p ← match initParams draw fresh generator with
    | .ok p => pure p
    | .error e => throw (stopOfFault e)
  match train expf powf negInf fuel mainHyper ds p with
  | .ok r => pure r
  | .error e => throw (stopOfFault e)

/-- The gradients of one sample of the batch that starts at `image_base`, with the
parameters `p`. -/
def sampleGrads [Zero α] [One α] [Add α] [Sub α] [Mul α] [Div α] [Neg α] [NatCast α]
    (expf : α → α) (ds : Dataset) (image_base : Nat) (p : Params α) (batch_i : Nat) : Grads α :=
  backwardVal expf p (loadInputVal ds (sampleIndex ds image_base batch_i))
    (forwardVal expf p (loadInputVal ds (sampleIndex ds image_base batch_i)))
    (oneHotVal (labelVal ds (sampleIndex ds image_base batch_i)))

/-- The elementwise sum, in sample order from the zero matrix, of one gradient of each of
the first `n` samples. -/
def gradSum {NR NC : Nat} [Zero α] [Add α] (n : Nat) (g : Nat → Matrix NR NC α) : Matrix NR NC α :=
  (List.finRange n).foldl (fun acc i => Matrix.zipWith (fun l x => l + x) acc (g i.val))
    Matrix.zero

/-- The loss of one sample of the batch that starts at `image_base`. -/
def sampleLoss [Zero α] [One α] [Add α] [Sub α] [Mul α] [Div α] [Neg α] [NatCast α]
    (expf : α → α) (powf : α → α → α) (ds : Dataset) (image_base : Nat) (p : Params α)
    (batch_i : Nat) : α :=
  sumVal ((Matrix.zipWith (fun l x => l - x)
    (forwardVal expf p (loadInputVal ds (sampleIndex ds image_base batch_i))).a3
    (oneHotVal (labelVal ds (sampleIndex ds image_base batch_i)) : Matrix 10 1 α)).map
      (fun x => powf x ((2 : Nat) : α)))

/-- The sample number `i` of the sequence drawn from the joint state `s0` of a distribution
and an engine. -/
def drawSeq {E D : Type} (draw : D × E → α × (D × E)) (s0 : D × E) (i : Nat) : α :=
  (draw (Nat.iterate (fun s => (draw s).2) i s0)).1

/-- The number of batches of an epoch: `ceil(num_images / batch_size)`. -/
def numBatches (num_images batch_size : Nat) : Nat := (num_images + batch_size - 1) / batch_size

/-! ## Loops that cannot fault -/

@[simp] theorem ok_bind {β γ : Type} (a : β) (f : β → Except Fault γ) :
    (Except.ok a >>= f) = f a := rfl

@[simp] theorem error_bind {β γ : Type} (e : Fault) (f : β → Except Fault γ) :
    (Except.error e >>= f) = Except.error e := rfl

@[simp] theorem pure_eq_ok {β : Type} (a : β) : (pure a : Except Fault β) = Except.ok a := rfl

theorem foldlM_ok {σ ι : Type} (l : List ι) (g : σ → ι → Except Fault σ) (f : σ → ι → σ)
    (h : ∀ i ∈ l, ∀ s, g s i = .ok (f s i)) (s0 : σ) :
    l.foldlM g s0 = .ok (l.foldl f s0) := by
  induction l generalizing s0 with
  | nil => rfl
  | cons a l ih =>
    rw [List.foldlM_cons, h a (List.mem_cons_self a l) s0, List.foldl_cons]
    exact ih (fun i hi s => h i (List.mem_cons_of_mem a hi) s) (f s0 a)

/-- A loop whose body succeeds at every index below the bound is a pure left fold over the
indices `0, 1, ..., n - 1` in increasing order. -/
theorem forLoop_fin {σ : Type} {n : Nat} {body : Nat → σ → Except Fault σ} (f : Fin n → σ → σ)
    (h : ∀ (i : Fin n) (s : σ), body i.val s = .ok (f i s)) (s0 : σ) :
    forLoop n body s0 = .ok ((List.finRange n).foldl (fun s i => f i s) s0) := by
  unfold forLoop
  rw [← List.map_coe_finRange n, List.foldlM_map]
  exact foldlM_ok _ _ _ (fun i _ s => h i s) s0

theorem foldl_inv {σ ι : Type} (l : List ι) (step : σ → ι → σ) (P : σ → Prop)
    (hkeep : ∀ s i, i ∈ l → P s → P (step s i)) (s0 : σ) (h0 : P s0) :
    P (l.foldl step s0) := by
  induction l generalizing s0 with
  | nil => exact h0
  | cons a l ih =>
    rw [List.foldl_cons]
    exact ih (fun s i hi => hkeep s i (List.mem_cons_of_mem a hi)) _
      (hkeep s0 a (List.mem_cons_self a l) h0)

/-- A property established by the step at `i0` and kept by every step holds after the fold. -/
theorem foldl_hit {σ ι : Type} (l : List ι) (step : σ → ι → σ) (P : σ → Prop) (i0 : ι)
    (hi0 : i0 ∈ l) (hset : ∀ s, P (step s i0))
    (hkeep : ∀ s i, i ∈ l → P s → P (step s i)) (s0 : σ) :
    P (l.foldl step s0) := by
  induction l generalizing s0 with
  | nil => cases hi0
  | cons a l ih =>
    rw [List.foldl_cons]
    by_cases hmem : i0 ∈ l
    · exact ih hmem (fun s i hi => hkeep s i (List.mem_cons_of_mem a hi)) _
    · have ha : i0 = a := by
        rcases List.mem_cons.mp hi0 with h | h
        · exact h
        · exact absurd h hmem
      subst ha
      exact foldl_inv l step P (fun s i hi => hkeep s i (List.mem_cons_of_mem i0 hi)) _
        (hset s0)

namespace Matrix

variable {NR NC : Nat}

theorem index_lt {r c : Nat} (hr : r < NR) (hc : c < NC) : r * NC + c < NR * NC :=
  (idx (⟨r, hr⟩ : Fin NR) (⟨c, hc⟩ : Fin NC)).isLt

theorem entry_eq (m : Matrix NR NC α) (r : Fin NR) (c : Fin NC) : m.entry r c = m.data (idx r c) :=
  rfl

theorem idx_inj {r r' : Fin NR} {c c' : Fin NC} (h : idx r c = idx r' c') : r = r' ∧ c = c' := by
  have h1 : r.val * NC + c.val = r'.val * NC + c'.val := congrArg Fin.val h
  have hc := c.isLt
  have hc' := c'.isLt
  have hr : r.val = r'.val := by
    rcases Nat.lt_trichotomy r.val r'.val with hlt | heq | hgt
    · exfalso
      have : (r.val + 1) * NC ≤ r'.val * NC := Nat.mul_le_mul_right _ hlt
      nlinarith
    · exact heq
    · exfalso
      have : (r'.val + 1) * NC ≤ r.val * NC := Nat.mul_le_mul_right _ hgt
      nlinarith
  refine ⟨Fin.ext hr, Fin.ext ?_⟩
  rw [hr] at h1
  omega

/-- Every position of the array is the row-major position of exactly one `(r, c)`. -/
theorem exists_idx (k : Fin (NR * NC)) : ∃ (r : Fin NR) (c : Fin NC), idx r c = k := by
  have hk := k.isLt
  have hNC : 0 < NC := by
    apply Nat.pos_of_ne_zero
    intro h
    subst h
    simp at hk
  have hr : k.val / NC < NR := by
    rw [Nat.div_lt_iff_lt_mul hNC]; exact hk
  refine ⟨⟨k.val / NC, hr⟩, ⟨k.val % NC, Nat.mod_lt _ hNC⟩, ?_⟩
  apply Fin.ext
  show k.val / NC * NC + k.val % NC = k.val
  rw [Nat.mul_comm]
  exact Nat.div_add_mod _ _

theorem ext_entry {a b : Matrix NR NC α} (h : ∀ r c, a.entry r c = b.entry r c) : a = b := by
  cases a with
  | mk da =>
    cases b with
    | mk db =>
      congr 1
      funext k
      obtain ⟨r, c, hk⟩ := exists_idx k
      rw [← hk]
      exact h r c

theorem ext_data {a b : Matrix NR NC α} (h : ∀ i, a.data i = b.data i) : a = b := by
  cases a; cases b; congr 1; exact funext h

@[simp] theorem get_fin (m : Matrix NR NC α) (i : Fin (NR * NC)) : m.get i.val = .ok (m.data i) := by
  simp [get]

@[simp] theorem set_fin (m : Matrix NR NC α) (i : Fin (NR * NC)) (v : α) :
    m.set i.val v = .ok ⟨Function.update m.data i v⟩ := by
  simp [set]

theorem atConst_fin (m : Matrix NR NC α) (r : Fin NR) (c : Fin NC) :
    m.atConst r.val c.val = .ok (m.entry r c) := by
  simp [atConst, get, entry, idx, index_lt r.isLt c.isLt]

theorem atGet_fin (m : Matrix NR NC α) (r : Fin NR) (c : Fin NC) :
    m.atGet r.val c.val = .ok (m.entry r c) := by
  simp [atGet, get, entry, idx, index_lt r.isLt c.isLt]

theorem atSet_fin (m : Matrix NR NC α) (r : Fin NR) (c : Fin NC) (v : α) :
    m.atSet r.val c.val v = .ok ⟨Function.update m.data (idx r c) v⟩ := by
  simp [atSet, set, idx, index_lt r.isLt c.isLt]

/-- A flat loop writing `g i` to `data[i]` for every `i` produces the array `g`. -/
theorem foldl_update_all (g : Fin (NR * NC) → α) (m0 : Matrix NR NC α) :
    (List.finRange (NR * NC)).foldl
      (fun (m : Matrix NR NC α) i => (⟨Function.update m.data i (g i)⟩ : Matrix NR NC α)) m0
      = ⟨g⟩ := by
  apply ext_data
  intro k
  refine foldl_hit (List.finRange (NR * NC)) _ (fun m => m.data k = g k) k
    (List.mem_finRange k) (fun s => ?_) (fun s i _ hs => ?_) m0
  · simp
  · by_cases hik : k = i
    · subst hik; simp
    · simp [Function.update_noteq hik, hs]

theorem apply_eq [Inhabited α] (m : Matrix NR NC α) (fn : α → α) :
    m.apply fn = .ok (m.map fn) := by
  unfold apply
  rw [forLoop_fin (fun i (result : Matrix NR NC α) =>
    (⟨Function.update result.data i (fn (m.data i))⟩ : Matrix NR NC α))]
  · rw [foldl_update_all (fun i => fn (m.data i))]; rfl
  · intro i s; simp

end Matrix

theorem zipLoop_eq {NR NC : Nat} [Inhabited α] (op : α → α → α) (left right : Matrix NR NC α) :
    zipLoop op left right = .ok (Matrix.zipWith op left right) := by
  unfold zipLoop
  rw [forLoop_fin (fun i (result : Matrix NR NC α) =>
    (⟨Function.update result.data i (op (left.data i) (right.data i))⟩ : Matrix NR NC α))]
  · rw [foldl_update_all (fun i => op (left.data i) (right.data i))]; rfl
  · intro i s; simp

/-- A loop whose every step succeeds and re-establishes the invariant succeeds. -/
theorem forLoop_inv {σ : Type} (n : Nat) (body : Nat → σ → Except Fault σ)
    (Inv : Nat → σ → Prop) (s0 : σ) (h0 : Inv 0 s0)
    (hstep : ∀ i s, i < n → Inv i s → ∃ s', body i s = .ok s' ∧ Inv (i + 1) s') :
    ∃ s, forLoop n body s0 = .ok s ∧ Inv n s := by
  induction n with
  | zero => exact ⟨s0, rfl, h0⟩
  | succ n ih =>
    obtain ⟨s, hs, hinv⟩ := ih (fun i s hi => hstep i s (Nat.lt_succ_of_lt hi))
    obtain ⟨s', hs', hinv'⟩ := hstep n s (Nat.lt_succ_self n) hinv
    refine ⟨s', ?_, hinv'⟩
    unfold forLoop at hs ⊢
    rw [List.range_succ, List.foldlM_append, hs]
    simp [hs']

namespace Matrix

variable {NR NC : Nat}

/-- Two nested loops that write `g i j` at position `k i j` leave `g i0 j0` at `k i0 j0`, when
positions written twice receive the same value. -/
theorem foldl_update_nested {ι κ : Type} (li : List ι) (lj : List κ)
    (k : ι → κ → Fin (NR * NC)) (g : ι → κ → α)
    (hg : ∀ i j i' j', k i j = k i' j' → g i j = g i' j')
    (m0 : Matrix NR NC α) (i0 : ι) (j0 : κ) (hi0 : i0 ∈ li) (hj0 : j0 ∈ lj) :
    (li.foldl (fun (m : Matrix NR NC α) i =>
        lj.foldl (fun (m : Matrix NR NC α) j =>
          (⟨Function.update m.data (k i j) (g i j)⟩ : Matrix NR NC α)) m) m0).data (k i0 j0)
      = g i0 j0 := by
  have hwrite : ∀ (m : Matrix NR NC α) i j, m.data (k i0 j0) = g i0 j0 →
      (⟨Function.update m.data (k i j) (g i j)⟩ : Matrix NR NC α).data (k i0 j0) = g i0 j0 := by
    intro m i j hm
    by_cases h : k i0 j0 = k i j
    · show Function.update m.data (k i j) (g i j) (k i0 j0) = g i0 j0
      rw [h, Function.update_same]
      exact (hg i0 j0 i j h).symm
    · show Function.update m.data (k i j) (g i j) (k i0 j0) = g i0 j0
      rw [Function.update_noteq h]
      exact hm
  refine foldl_hit li _ (fun m => m.data (k i0 j0) = g i0 j0) i0 hi0 (fun s => ?_)
    (fun s i _ hs => ?_) m0
  · refine foldl_hit lj _ (fun m => m.data (k i0 j0) = g i0 j0) j0 hj0 (fun s => ?_)
      (fun s j _ hs => hwrite s i0 j hs) s
    show Function.update s.data (k i0 j0) (g i0 j0) (k i0 j0) = g i0 j0
    rw [Function.update_same]
  · exact foldl_inv lj _ (fun m => m.data (k i0 j0) = g i0 j0)
      (fun s j _ hs => hwrite s i j hs) s hs

/-- The pure fold computed by `T()`. -/
theorem T_fold [Inhabited α] (m : Matrix NR NC α) :
    m.T = .ok ((List.finRange NR).foldl (fun (result : Matrix NC NR α) r =>
      (List.finRange NC).foldl (fun (result : Matrix NC NR α) c =>
        (⟨Function.update result.data (idx c r) (m.entry r c)⟩ : Matrix NC NR α)) result)
      uninit) := by
  unfold T
  refine forLoop_fin (fun r (result : Matrix NC NR α) =>
      (List.finRange NC).foldl (fun (result : Matrix NC NR α) c =>
        (⟨Function.update result.data (idx c r) (m.entry r c)⟩ : Matrix NC NR α)) result)
    (fun r s => ?_) uninit
  refine forLoop_fin (fun c (result : Matrix NC NR α) =>
      (⟨Function.update result.data (idx c r) (m.entry r c)⟩ : Matrix NC NR α))
    (fun c s => ?_) s
  simp [atConst_fin, atSet_fin]

/-- Elements of the result of `T()`. -/
theorem T_entry [Inhabited α] (m : Matrix NR NC α) :
    ∃ result : Matrix NC NR α, m.T = .ok result ∧ ∀ r c, result.entry c r = m.entry r c := by
  refine ⟨_, T_fold m, fun r c => ?_⟩
  rw [entry_eq]
  exact foldl_update_nested (List.finRange NR) (List.finRange NC) (fun r c => idx c r)
    (fun r c => m.entry r c)
    (fun i j i' j' h => by
      obtain ⟨h1, h2⟩ := idx_inj h
      rw [h1, h2])
    uninit r c (List.mem_finRange r) (List.mem_finRange c)

end Matrix

theorem dot_fold {NR1 NC1 NC2 : Nat} [Inhabited α] [Zero α] [Add α] [Mul α]
    (left : Matrix NR1 NC1 α) (right : Matrix NC1 NC2 α) :
    dot left right = .ok ((List.finRange NR1).foldl (fun (result : Matrix NR1 NC2 α) r =>
      (List.finRange NC2).foldl (fun (result : Matrix NR1 NC2 α) c =>
        (⟨Function.update result.data (idx r c) (rowCol left right r c)⟩ : Matrix NR1 NC2 α))
        result)
      uninit) := by
  unfold dot
  refine forLoop_fin (fun r (result : Matrix NR1 NC2 α) =>
      (List.finRange NC2).foldl (fun (result : Matrix NR1 NC2 α) c =>
        (⟨Function.update result.data (idx r c) (rowCol left right r c)⟩ : Matrix NR1 NC2 α))
        result)
    (fun r s => ?_) uninit
  refine forLoop_fin (fun c (result : Matrix NR1 NC2 α) =>
      (⟨Function.update result.data (idx r c) (rowCol left right r c)⟩ : Matrix NR1 NC2 α))
    (fun c s => ?_) s
  rw [forLoop_fin (fun i (acc : α) => acc + left.entry r i * right.entry i c)
    (fun i acc => by simp [atConst_fin])]
  simp [atSet_fin, rowCol]

theorem dot_entry {NR1 NC1 NC2 : Nat} [Inhabited α] [Zero α] [Add α] [Mul α]
    (left : Matrix NR1 NC1 α) (right : Matrix NC1 NC2 α) :
    ∃ result : Matrix NR1 NC2 α, dot left right = .ok result ∧
      ∀ r c, result.entry r c = rowCol left right r c := by
  refine ⟨_, dot_fold left right, fun r c => ?_⟩
  rw [entry_eq]
  exact foldl_update_nested (List.finRange NR1) (List.finRange NC2) (fun r c => idx r c)
    (fun r c => rowCol left right r c)
    (fun i j i' j' h => by
      obtain ⟨h1, h2⟩ := idx_inj h
      rw [h1, h2])
    uninit r c (List.mem_finRange r) (List.mem_finRange c)

theorem sum_eq {NR NC : Nat} [Zero α] [Add α] (input : Matrix NR NC α) :
    sum input = .ok ((List.finRange (NR * NC)).foldl (fun acc i => acc + input.data i) 0) := by
  unfold sum
  exact forLoop_fin (fun i (acc : α) => acc + input.data i) (fun i acc => by simp) 0

theorem softmax_eq {NR NC : Nat} [Inhabited α] [Zero α] [Add α] [Div α] (expf : α → α)
    (input : Matrix NR NC α) :
    softmax expf input = .ok (input.map (fun x => expf x /
      (List.finRange (NR * NC)).foldl (fun acc i => acc + expf (input.data i)) 0)) := by
  unfold softmax exp
  rw [Matrix.apply_eq]
  simp only [ok_bind, sum_eq, Matrix.apply_eq]
  rfl

theorem foldl_add_eq_sum_map {ι β : Type} [AddMonoid β] (l : List ι) (f : ι → β) (a : β) :
    l.foldl (fun acc i => acc + f i) a = a + (l.map f).sum := by
  induction l generalizing a with
  | nil => simp
  | cons x l ih => rw [List.foldl_cons, ih, List.map_cons, List.sum_cons, add_assoc]

/-- In exact arithmetic the accumulation loop over `0, ..., n - 1` is the finite sum. -/
theorem foldl_add_eq_sum {β : Type} [AddCommMonoid β] {n : Nat} (f : Fin n → β) :
    (List.finRange n).foldl (fun acc i => acc + f i) 0 = ∑ i, f i := by
  rw [foldl_add_eq_sum_map, zero_add, Fin.sum_univ_def]

/-! ## Every operation returns its value -/

namespace Matrix

variable {NR NC : Nat}

theorem entry_ofFn (f : Fin NR → Fin NC → α) (r : Fin NR) (c : Fin NC) :
    (ofFn f).entry r c = f r c := by
  have hNC : 0 < NC := Nat.lt_of_le_of_lt (Nat.zero_le _) c.isLt
  have h1 : (r.val * NC + c.val) / NC = r.val := by
    rw [Nat.add_comm, Nat.add_mul_div_right _ _ hNC, Nat.div_eq_of_lt c.isLt, Nat.zero_add]
  have h2 : (r.val * NC + c.val) % NC = c.val := by
    rw [Nat.add_comm, Nat.add_mul_mod_self_right, Nat.mod_eq_of_lt c.isLt]
  show f ⟨(r.val * NC + c.val) / NC, _⟩ ⟨(r.val * NC + c.val) % NC, _⟩ = f r c
  congr 1
  · exact Fin.ext h1
  · exact Fin.ext h2

theorem T_eq [Inhabited α] (m : Matrix NR NC α) : m.T = .ok m.transpose := by
  obtain ⟨result, h, he⟩ := T_entry m
  rw [h]
  congr 1
  apply ext_entry
  intro c r
  rw [he r c, transpose, entry_ofFn]

end Matrix

theorem dot_eq {NR1 NC1 NC2 : Nat} [Inhabited α] [Zero α] [Add α] [Mul α]
    (left : Matrix NR1 NC1 α) (right : Matrix NC1 NC2 α) :
    dot left right = .ok (dotVal left right) := by
  obtain ⟨result, h, he⟩ := dot_entry left right
  rw [h]
  congr 1
  apply Matrix.ext_entry
  intro r c
  rw [he r c, dotVal, Matrix.entry_ofFn]

theorem add_eq {NR NC : Nat} [Inhabited α] [Add α] (left right : Matrix NR NC α) :
    add left right = .ok (Matrix.zipWith (fun l x => l + x) left right) :=
  zipLoop_eq _ left right

theorem sub_eq {NR NC : Nat} [Inhabited α] [Sub α] (left right : Matrix NR NC α) :
    sub left right = .ok (Matrix.zipWith (fun l x => l - x) left right) :=
  zipLoop_eq _ left right

theorem mul_eq {NR NC : Nat} [Inhabited α] [Mul α] (left right : Matrix NR NC α) :
    mul left right = .ok (Matrix.zipWith (fun l x => l * x) left right) :=
  zipLoop_eq _ left right

theorem smul_eq {NR NC : Nat} [Inhabited α] [Mul α] (left : α) (right : Matrix NR NC α) :
    smul left right = .ok (right.map (fun x => left * x)) :=
  Matrix.apply_eq right _

theorem addAssign_eq {NR NC : Nat} [Inhabited α] [Add α] (self right : Matrix NR NC α) :
    addAssign self right = .ok (Matrix.zipWith (fun l x => l + x) self right) :=
  zipLoop_eq _ self right

theorem subAssign_eq {NR NC : Nat} [Inhabited α] [Sub α] (self right : Matrix NR NC α) :
    subAssign self right = .ok (Matrix.zipWith (fun l x => l - x) self right) :=
  zipLoop_eq _ self right

theorem sum_eq_sumVal {NR NC : Nat} [Zero α] [Add α] (input : Matrix NR NC α) :
    sum input = .ok (sumVal input) :=
  sum_eq input

theorem pow_eq {NR NC : Nat} [Inhabited α] (powf : α → α → α) (base : Matrix NR NC α)
    (power : α) : pow powf base power = .ok (base.map (fun x => powf x power)) :=
  Matrix.apply_eq base _

theorem sigmoid_eq {NR NC : Nat} [Inhabited α] [One α] [Add α] [Div α] [Neg α] (expf : α → α)
    (input : Matrix NR NC α) : sigmoid expf input = .ok (input.map (sigmoidf expf)) :=
  Matrix.apply_eq input _

theorem d_sigmoid_eq {NR NC : Nat} [Inhabited α] [One α] [Add α] [Sub α] [Mul α] [Div α]
    [Neg α] (expf : α → α) (input : Matrix NR NC α) :
    d_sigmoid expf input
      = .ok (input.map (fun x => sigmoidf expf x * (1 - sigmoidf expf x))) :=
  Matrix.apply_eq input _

theorem softmax_eq_softmaxVal {NR NC : Nat} [Inhabited α] [Zero α] [Add α] [Div α]
    (expf : α → α) (input : Matrix NR NC α) :
    softmax expf input = .ok (softmaxVal expf input) :=
  softmax_eq expf input

theorem forward_eq [Inhabited α] [Zero α] [One α] [Add α] [Mul α] [Div α] [Neg α]
    (expf : α → α) (p : Params α) (a0 : Matrix 784 1 α) :
    forward expf p a0 = .ok (forwardVal expf p a0) := by
  simp only [forward, dot_eq, add_eq, sigmoid_eq, softmax_eq_softmaxVal, ok_bind, bind_pure_comp,
    pure_eq_ok, forwardVal]

theorem predict_eq [LT α] [DecidableRel (fun (a b : α) => a < b)] (negInf : α)
    (a3 : Matrix 10 1 α) : predict negInf a3 = .ok (predictVal negInf a3) := by
  unfold predict
  rw [forLoop_fin (fun i (s : Nat × α) =>
    if s.2 < a3.entry i 0 then (i.val, a3.entry i 0) else s)]
  · rfl
  · intro i s
    have hget : a3.atGet i.val 0 = .ok (a3.entry i 0) := Matrix.atGet_fin a3 i 0
    by_cases hlt : s.2 < a3.entry i 0 <;> simp [hget, hlt]

theorem predictVal_lt [LT α] [DecidableRel (fun (a b : α) => a < b)] (negInf : α)
    (a3 : Matrix 10 1 α) : predictVal negInf a3 < 10 := by
  unfold predictVal predictState
  refine foldl_inv (List.finRange 10) _ (fun (s : Nat × α) => s.1 < 10)
    (fun s i _ hs => ?_) _ (Nat.zero_lt_succ 9)
  by_cases hlt : s.2 < a3.entry i 0
  · simp only [hlt, if_true]; exact i.isLt
  · simp only [hlt, if_false]; exact hs

theorem oneHot_eq [Zero α] [One α] (label : Nat) (hl : charToSize label < 10) :
    (oneHot label : Except Fault (Matrix 10 1 α)) = .ok (oneHotVal (charToSize label)) := by
  unfold oneHot
  refine (Matrix.atSet_fin (Matrix.zero : Matrix 10 1 α) ⟨charToSize label, hl⟩ 0 1).trans ?_
  refine congrArg Except.ok ?_
  apply Matrix.ext_data
  intro k
  show Function.update (Matrix.zero : Matrix 10 1 α).data _ 1 k = if k.val = _ then 1 else 0
  by_cases hk : k.val = charToSize label
  · have : k = Matrix.idx (⟨charToSize label, hl⟩ : Fin 10) (0 : Fin 1) := by
      apply Fin.ext
      simp [Matrix.idx, hk]
    rw [this, Function.update_same]
    simp [Matrix.idx]
  · have : k ≠ Matrix.idx (⟨charToSize label, hl⟩ : Fin 10) (0 : Fin 1) := by
      intro h
      apply hk
      rw [h]
      simp [Matrix.idx]
    rw [Function.update_noteq this, if_neg hk]
    rfl

theorem backward_eq [Inhabited α] [Zero α] [One α] [Add α] [Sub α] [Mul α] [Div α] [Neg α]
    [NatCast α] (expf : α → α) (p : Params α) (a0 : Matrix 784 1 α) (fw : Forward α)
    (y : Matrix 10 1 α) :
    backward expf p a0 fw y = .ok (backwardVal expf p a0 fw y) := by
  simp only [backward, dot_eq, sub_eq, mul_eq, smul_eq, d_sigmoid_eq, Matrix.T_eq, ok_bind,
    pure_eq_ok, backwardVal]

theorem readBuf_eq (buf : List Nat) (i : Nat) (h : i < buf.length) :
    readBuf buf i = .ok (buf.getD i 0) := by
  unfold readBuf
  rw [List.getD_eq_getElem?_getD, List.getElem?_eq_getElem h]
  rfl

theorem loadInput_eq [Inhabited α] [NatCast α] [Div α] (ds : Dataset) (image : Nat)
    (h : image * 28 * 28 + 28 * 28 ≤ ds.image_data.length) :
    (loadInput ds image : Except Fault (Matrix 784 1 α)) = .ok (loadInputVal ds image) := by
  unfold loadInput
  rw [forLoop_fin (fun (texel : Fin (28 * 28)) (a0 : Matrix 784 1 α) =>
    (⟨Function.update a0.data (Matrix.idx (⟨texel.val, texel.isLt⟩ : Fin 784) (0 : Fin 1))
      (((ds.image_data.getD (image * 28 * 28 + texel.val) 0 : Nat) : α) / ((255 : Nat) : α))⟩ :
      Matrix 784 1 α))]
  · refine congrArg Except.ok ?_
    apply Matrix.ext_entry
    intro r c
    have hc : c = 0 := Subsingleton.elim c 0
    subst hc
    rw [loadInputVal, Matrix.entry_ofFn, Matrix.entry_eq]
    refine foldl_hit (List.finRange (28 * 28)) _
      (fun (m : Matrix 784 1 α) => m.data (Matrix.idx r 0) =
        ((ds.image_data.getD (image * 28 * 28 + r.val) 0 : Nat) : α) / ((255 : Nat) : α))
      (⟨r.val, r.isLt⟩ : Fin (28 * 28)) (List.mem_finRange _) (fun m => ?_) (fun m i _ hm => ?_)
      Matrix.uninit
    · show Function.update m.data _ _ _ = _
      rw [Function.update_same]
    · show Function.update m.data _ _ _ = _
      by_cases hi : Matrix.idx r (0 : Fin 1) = Matrix.idx (⟨i.val, i.isLt⟩ : Fin 784) (0 : Fin 1)
      · rw [hi, Function.update_same]
        have := (Matrix.idx_inj hi).1
        rw [this]
      · rw [Function.update_noteq hi]
        exact hm
  · intro texel a0
    have hlt : image * 28 * 28 + texel.val < ds.image_data.length := by
      have := texel.isLt
      omega
    rw [readBuf_eq _ _ hlt]
    exact Matrix.atSet_fin a0 (⟨texel.val, texel.isLt⟩ : Fin 784) (0 : Fin 1) _

theorem charToSize_of_le {b : Nat} (h : b ≤ 9) : charToSize b = b := by
  unfold charToSize
  rw [if_pos (by omega)]

theorem sampleBody_eq [Inhabited α] [Zero α] [One α] [Add α] [Sub α] [Mul α] [Div α] [Neg α]
    [NatCast α] [LT α] [DecidableRel (fun (a b : α) => a < b)]
    (expf : α → α) (powf : α → α → α) (negInf : α) (ds : Dataset) (p : Params α)
    (image_base batch_i : Nat) (acc : Accum α)
    (hok : SampleOk ds (sampleIndex ds image_base batch_i)) :
    sampleBody expf powf negInf ds p image_base batch_i acc
      = .ok (sampleVal expf powf negInf p
          (loadInputVal ds (sampleIndex ds image_base batch_i))
          (labelVal ds (sampleIndex ds image_base batch_i)) acc) := by
  obtain ⟨hN, himg, hlab, hdigit⟩ := hok
  have hl : charToSize (ds.labels.getD (sampleIndex ds image_base batch_i) 0) < 10 := by
    rw [charToSize_of_le hdigit]; omega
  unfold sampleBody
  simp only [hN, if_false]
  have hload : (loadInput ds ((image_base + batch_i) % 2 ^ 64 % ds.num_images) :
      Except Fault (Matrix 784 1 α)) = .ok (loadInputVal ds (sampleIndex ds image_base batch_i)) :=
    loadInput_eq ds _ himg
  have hread : readBuf ds.labels ((image_base + batch_i) % 2 ^ 64 % ds.num_images)
      = .ok (ds.labels.getD (sampleIndex ds image_base batch_i) 0) :=
    readBuf_eq _ _ hlab
  simp only [hload, hread, forward_eq, predict_eq, oneHot_eq _ hl, backward_eq, sub_eq, pow_eq,
    sum_eq_sumVal, addAssign_eq, ok_bind, pure_eq_ok, sampleVal, labelVal]

theorem batchBody_eq [Inhabited α] [Zero α] [One α] [Add α] [Sub α] [Mul α] [Div α] [Neg α]
    [NatCast α] [LT α] [DecidableRel (fun (a b : α) => a < b)]
    (expf : α → α) (powf : α → α → α) (negInf : α) (h : Hyper α) (ds : Dataset)
    (image_base : Nat) (p : Params α)
    (hok : ∀ batch_i, batch_i < h.batch_size → SampleOk ds (sampleIndex ds image_base batch_i)) :
    batchBody expf powf negInf h ds image_base p
      = .ok (updateVal h p (accumVal expf powf negInf h ds image_base p)) := by
  unfold batchBody
  rw [forLoop_fin (fun (batch_i : Fin h.batch_size) (acc : Accum α) =>
      sampleVal expf powf negInf p (loadInputVal ds (sampleIndex ds image_base batch_i.val))
        (labelVal ds (sampleIndex ds image_base batch_i.val)) acc)
    (fun batch_i acc => sampleBody_eq expf powf negInf ds p image_base batch_i.val acc
      (hok batch_i.val batch_i.isLt))]
  simp only [smul_eq, subAssign_eq, ok_bind, pure_eq_ok, updateVal, accumVal]

/-! ## Facts of the binary32 model -/

namespace F32

theorem pow2_pos (e : Int) : 0 < pow2 e := by
  cases e with
  | ofNat n =>
    show (0 : ℚ) < ((2 ^ n : Nat) : ℚ)
    push_cast
    positivity
  | negSucc n =>
    show (0 : ℚ) < 1 / ((2 ^ (n + 1) : Nat) : ℚ)
    push_cast
    positivity

theorem pow2_natCast (n : Nat) : pow2 (n : Int) = (2 : ℚ) ^ n := by
  show ((2 ^ n : Nat) : ℚ) = (2 : ℚ) ^ n
  push_cast
  rfl

/-- Subtracting `k` from the exponent divides by `2 ^ k`. -/
theorem pow2_sub_natCast (n k : Nat) : pow2 ((n : Int) - (k : Int)) = (2 : ℚ) ^ n / (2 : ℚ) ^ k := by
  rcases Nat.lt_or_ge n k with h | h
  · obtain ⟨d, hd⟩ : ∃ d, k = n + (d + 1) := ⟨k - n - 1, by omega⟩
    have he : (n : Int) - (k : Int) = Int.negSucc d := by
      rw [hd, Int.negSucc_eq]; push_cast; ring
    rw [he]
    show 1 / ((2 ^ (d + 1) : Nat) : ℚ) = _
    rw [hd]
    push_cast
    rw [pow_add (2 : ℚ) n (d + 1)]
    field_simp
  · obtain ⟨d, hd⟩ : ∃ d, n = k + d := ⟨n - k, by omega⟩
    have he : (n : Int) - (k : Int) = ((d : Nat) : Int) := by
      rw [hd]; push_cast; ring
    rw [he, pow2_natCast, hd, pow_add]
    field_simp

theorem log2Aux_spec (fuel n : Nat) (h : n ≤ fuel) (hn : 1 ≤ n) :
    2 ^ log2Aux fuel n ≤ n ∧ n < 2 ^ (log2Aux fuel n + 1) := by
  induction fuel generalizing n with
  | zero => omega
  | succ fuel ih =>
    unfold log2Aux
    by_cases h2 : n < 2
    · rw [if_pos h2]
      constructor
      · simpa using hn
      · simpa using h2
    · rw [if_neg h2]
      obtain ⟨h1, h3⟩ := ih (n / 2) (by omega) (by omega)
      rw [pow_succ, pow_succ]
      rw [pow_succ] at h3
      constructor <;> omega

theorem rne_bounds (t : ℚ) (ht : 0 ≤ t) : (⌊t⌋₊ : ℚ) ≤ rne t ∧ (rne t : ℚ) ≤ t + 1 := by
  have hf : (⌊t⌋₊ : ℚ) ≤ t := Nat.floor_le ht
  unfold rne
  simp only
  split_ifs
  · exact ⟨le_rfl, by linarith⟩
  · constructor
    · push_cast; linarith
    · push_cast; linarith
  · exact ⟨le_rfl, by linarith⟩
  · constructor
    · push_cast; linarith
    · push_cast; linarith

/-- Conversion of an integer from `1` to below `2 ^ 64` yields a positive finite `float`. -/
theorem natCast_pos (n : Nat) (h1 : 1 ≤ n) (h2 : n < 2 ^ 64) :
    ∃ q : ℚ, 0 < q ∧ ((n : Nat) : F32) = fin false q := by
  obtain ⟨hlo, hhi⟩ := log2Aux_spec n n le_rfl h1
  have hnq : (0 : ℚ) < (n : ℚ) := by exact_mod_cast h1
  have hlog : ilog2 (n : ℚ) = (log2Aux n n : Int) := by
    unfold ilog2
    simp only [Rat.num_natCast, Rat.den_natCast, Int.toNat_ofNat]
    have h0 : log2Aux 1 1 = 0 := rfl
    rw [h0]
    simp only [Nat.cast_zero, sub_zero]
    rw [if_pos]
    rw [pow2_natCast]
    exact_mod_cast hlo
  have hL : log2Aux n n < 64 := by
    by_contra hcon
    have : 2 ^ 64 ≤ 2 ^ log2Aux n n := Nat.pow_le_pow_right (by decide) (by omega)
    omega
  have hmax : max (ilog2 (n : ℚ)) (-126) = (log2Aux n n : Int) := by
    rw [hlog]; omega
  have hulp : pow2 ((log2Aux n n : Int) - 23) = (2 : ℚ) ^ log2Aux n n / (2 : ℚ) ^ 23 := by
    have := pow2_sub_natCast (log2Aux n n) 23
    simpa using this
  have hulp_pos : (0 : ℚ) < (2 : ℚ) ^ log2Aux n n / (2 : ℚ) ^ 23 := by positivity
  have hloq : (2 : ℚ) ^ log2Aux n n ≤ (n : ℚ) := by exact_mod_cast hlo
  have hulp_le : (2 : ℚ) ^ log2Aux n n / (2 : ℚ) ^ 23 ≤ (n : ℚ) := by
    have : (2 : ℚ) ^ log2Aux n n / (2 : ℚ) ^ 23 ≤ (2 : ℚ) ^ log2Aux n n :=
      div_le_self (by positivity) (by norm_num)
    linarith
  have ht : (2 : ℚ) ^ 23 ≤ (n : ℚ) / ((2 : ℚ) ^ log2Aux n n / (2 : ℚ) ^ 23) := by
    rw [le_div_iff₀ hulp_pos]
    have : (2 : ℚ) ^ 23 * ((2 : ℚ) ^ log2Aux n n / (2 : ℚ) ^ 23) = (2 : ℚ) ^ log2Aux n n := by
      field_simp
    rw [this]
    exact hloq
  have ht0 : (0 : ℚ) ≤ (n : ℚ) / ((2 : ℚ) ^ log2Aux n n / (2 : ℚ) ^ 23) :=
    le_trans (by positivity) ht
  obtain ⟨hr1, hr2⟩ := rne_bounds _ ht0
  have hfloor : (2 : ℚ) ^ 23 ≤
      (⌊(n : ℚ) / ((2 : ℚ) ^ log2Aux n n / (2 : ℚ) ^ 23)⌋₊ : ℚ) := by
    have : (2 ^ 23 : Nat) ≤ ⌊(n : ℚ) / ((2 : ℚ) ^ log2Aux n n / (2 : ℚ) ^ 23)⌋₊ := by
      apply Nat.le_floor
      push_cast
      exact ht
    exact_mod_cast this
  have hrpos : (0 : ℚ) < (rne ((n : ℚ) / ((2 : ℚ) ^ log2Aux n n / (2 : ℚ) ^ 23)) : ℚ) :=
    lt_of_lt_of_le (by positivity) (le_trans hfloor hr1)
  have hvlt : (rne ((n : ℚ) / ((2 : ℚ) ^ log2Aux n n / (2 : ℚ) ^ 23)) : ℚ) *
      ((2 : ℚ) ^ log2Aux n n / (2 : ℚ) ^ 23) < pow2 128 := by
    have h3 : (rne ((n : ℚ) / ((2 : ℚ) ^ log2Aux n n / (2 : ℚ) ^ 23)) : ℚ) *
        ((2 : ℚ) ^ log2Aux n n / (2 : ℚ) ^ 23)
        ≤ ((n : ℚ) / ((2 : ℚ) ^ log2Aux n n / (2 : ℚ) ^ 23) + 1) *
          ((2 : ℚ) ^ log2Aux n n / (2 : ℚ) ^ 23) :=
      mul_le_mul_of_nonneg_right hr2 (le_of_lt hulp_pos)
    have h4 : ((n : ℚ) / ((2 : ℚ) ^ log2Aux n n / (2 : ℚ) ^ 23) + 1) *
          ((2 : ℚ) ^ log2Aux n n / (2 : ℚ) ^ 23)
        = (n : ℚ) + (2 : ℚ) ^ log2Aux n n / (2 : ℚ) ^ 23 := by
      field_simp
    have h5 : (n : ℚ) < 2 ^ 64 := by exact_mod_cast h2
    have h6 : pow2 128 = (2 : ℚ) ^ 128 := pow2_natCast 128
    rw [h6]
    have h7 : (2 : ℚ) ^ 64 + 2 ^ 64 ≤ 2 ^ 128 := by norm_num
    linarith
  refine ⟨(rne ((n : ℚ) / ((2 : ℚ) ^ log2Aux n n / (2 : ℚ) ^ 23)) : ℚ) *
      ((2 : ℚ) ^ log2Aux n n / (2 : ℚ) ^ 23), mul_pos hrpos hulp_pos, ?_⟩
  show round false (n : ℚ) = _
  unfold round
  simp only [hmax, hulp]
  rw [if_neg (ne_of_gt hnq), if_neg (not_le.mpr hvlt)]

theorem div_self_pos (q : ℚ) (hq : 0 < q) : (fin false q : F32) / fin false q = 1 := by
  show div (fin false q) (fin false q) = fin false 1
  unfold div
  simp only [ne_of_gt hq, if_false, div_self (ne_of_gt hq)]
  decide!

theorem zero_div_pos (q : ℚ) (hq : 0 < q) : (fin false 0 : F32) / fin false q = fin false 0 := by
  show div (fin false 0) (fin false q) = fin false 0
  unfold div
  simp only [ne_of_gt hq, if_false, zero_div]
  decide!

end F32

/-! ## The batch: prediction and counting -/

theorem predictedClass_eq [Inhabited α] [Zero α] [One α] [Add α] [Mul α] [Div α] [Neg α]
    [NatCast α] [LT α] [DecidableRel (fun (a b : α) => a < b)] (expf : α → α) (negInf : α)
    (ds : Dataset) (p : Params α) (image : Nat)
    (himg : image * 28 * 28 + 28 * 28 ≤ ds.image_data.length) :
    predictedClass expf negInf ds p image
      = .ok (predictVal negInf (forwardVal expf p (loadInputVal ds image)).a3) := by
  unfold predictedClass
  simp only [loadInput_eq ds image himg, forward_eq, predict_eq, ok_bind]

/-- The counter `num_correct` after a run of samples: one more for each sample whose
predicted class is its label. -/
theorem num_correct_foldl [Zero α] [One α] [Add α] [Sub α] [Mul α] [Div α] [Neg α]
    [NatCast α] [LT α] [DecidableRel (fun (a b : α) => a < b)] {ι : Type}
    (expf : α → α) (powf : α → α → α) (negInf : α) (p : Params α)
    (a0 : ι → Matrix 784 1 α) (lab : ι → Nat) (l : List ι) (acc0 : Accum α) :
    (l.foldl (fun acc i => sampleVal expf powf negInf p (a0 i) (lab i) acc) acc0).num_correct
      = acc0.num_correct
        + l.countP (fun i => decide (predictVal negInf (forwardVal expf p (a0 i)).a3 = lab i)) := by
  induction l generalizing acc0 with
  | nil => simp
  | cons x l ih =>
    rw [List.foldl_cons, ih, List.countP_cons]
    by_cases hx : predictVal negInf (forwardVal expf p (a0 x)).a3 = lab x
    · simp [sampleVal, hx]; omega
    · simp [sampleVal, hx]

theorem correctCount_eq [Inhabited α] [Zero α] [One α] [Add α] [Sub α] [Mul α] [Div α]
    [Neg α] [NatCast α] [LT α] [DecidableRel (fun (a b : α) => a < b)]
    (expf : α → α) (powf : α → α → α) (negInf : α) (h : Hyper α) (ds : Dataset)
    (image_base : Nat) (p : Params α)
    (hok : ∀ batch_i, batch_i < h.batch_size → SampleOk ds (sampleIndex ds image_base batch_i)) :
    (accumVal expf powf negInf h ds image_base p).num_correct
      = correctCount expf negInf h ds image_base p := by
  unfold accumVal correctCount
  rw [num_correct_foldl expf powf negInf p
    (fun (batch_i : Fin h.batch_size) => loadInputVal ds (sampleIndex ds image_base batch_i.val))
    (fun (batch_i : Fin h.batch_size) => labelVal ds (sampleIndex ds image_base batch_i.val))]
  simp only [Nat.zero_add]
  apply List.countP_congr
  intro i _
  rw [predictedClass_eq expf negInf ds p _ (hok i.val i.isLt).2.1]
  simp

theorem correctCount_le [Inhabited α] [Zero α] [One α] [Add α] [Mul α] [Div α] [Neg α]
    [NatCast α] [LT α] [DecidableRel (fun (a b : α) => a < b)] (expf : α → α) (negInf : α)
    (h : Hyper α) (ds : Dataset) (image_base : Nat) (p : Params α) :
    correctCount expf negInf h ds image_base p ≤ h.batch_size := by
  unfold correctCount
  exact le_trans (List.countP_le_length _) (le_of_eq (List.length_finRange _))

/-! ## A network whose weights are all zero -/

theorem rowCol_zero_left {NR1 NC1 NC2 : Nat} [Zero α] [Add α] [Mul α]
    (right : Matrix NC1 NC2 α) (r : Fin NR1) (c : Fin NC2)
    (h : ∀ i, (0 : α) + 0 * right.entry i c = 0) :
    rowCol (Matrix.zero : Matrix NR1 NC1 α) right r c = 0 := by
  unfold rowCol
  exact foldl_inv (List.finRange NC1) _ (fun acc => acc = (0 : α))
    (fun acc i _ hacc => by
      show acc + (0 : α) * right.entry i c = 0
      rw [hacc]
      exact h i)
    0 rfl

theorem dotVal_zero_left {NR1 NC1 NC2 : Nat} [Zero α] [Add α] [Mul α]
    (right : Matrix NC1 NC2 α) (h : ∀ i c, (0 : α) + 0 * right.entry i c = 0) :
    dotVal (Matrix.zero : Matrix NR1 NC1 α) right = Matrix.zero := by
  apply Matrix.ext_entry
  intro r c
  rw [dotVal, Matrix.entry_ofFn, rowCol_zero_left right r c (fun i => h i c)]
  rfl

/-- With all weights and the first two biases zero, the output of the forward pass is the
softmax of `b3`, in any arithmetic with `0 + 0 = 0`, `0 + 0 * x = 0` at the inputs and at
`sigmoidf(0)`, and `0 + b = b` at the elements of `b3`. -/
theorem forwardVal_zero_weights [Zero α] [One α] [Add α] [Mul α] [Div α] [Neg α]
    (expf : α → α) (b3 : Matrix 10 1 α) (a0 : Matrix 784 1 α)
    (h00 : (0 : α) + 0 = 0) (hin : ∀ i c, (0 : α) + 0 * a0.entry i c = 0)
    (hhalf : (0 : α) + 0 * sigmoidf expf 0 = 0) (hb3 : ∀ k, (0 : α) + b3.data k = b3.data k) :
    (forwardVal expf ⟨Matrix.zero, Matrix.zero, Matrix.zero, Matrix.zero, Matrix.zero, b3⟩
      a0).a3 = softmaxVal expf b3 := by
  have hadd : ∀ {n : Nat}, Matrix.zipWith (fun l x => l + x) (Matrix.zero : Matrix n 1 α)
      (Matrix.zero : Matrix n 1 α) = Matrix.zero := by
    intro n
    apply Matrix.ext_data
    intro k
    exact h00
  have hsig : ∀ (i : Fin 16) (c : Fin 1),
      (0 : α) + 0 * ((Matrix.zero : Matrix 16 1 α).map (sigmoidf expf)).entry i c = 0 :=
    fun _ _ => hhalf
  have hz3 : Matrix.zipWith (fun l x => l + x) (Matrix.zero : Matrix 10 1 α) b3 = b3 := by
    apply Matrix.ext_data
    intro k
    exact hb3 k
  show softmaxVal expf (Matrix.zipWith (fun l x => l + x)
    (dotVal (Matrix.zero : Matrix 10 16 α)
      ((Matrix.zipWith (fun l x => l + x)
        (dotVal (Matrix.zero : Matrix 16 16 α)
          ((Matrix.zipWith (fun l x => l + x) (dotVal (Matrix.zero : Matrix 16 784 α) a0)
            (Matrix.zero : Matrix 16 1 α)).map (sigmoidf expf)))
        (Matrix.zero : Matrix 16 1 α)).map (sigmoidf expf))) b3) = softmaxVal expf b3
  rw [dotVal_zero_left a0 hin, hadd, dotVal_zero_left _ hsig, hadd, dotVal_zero_left _ hsig, hz3]

theorem charToSize_lt_ten {b : Nat} (h : charToSize b < 10) : b ≤ 9 := by
  unfold charToSize at h
  by_cases hb : b < 128
  · rw [if_pos hb] at h; omega
  · rw [if_neg hb] at h
    norm_num at h
    omega

theorem finRange_one : List.finRange 1 = [(0 : Fin 1)] := by decide

/-- The accumulators of a single-sample batch. -/
theorem accumVal_one [Zero α] [One α] [Add α] [Sub α] [Mul α] [Div α] [Neg α] [NatCast α]
    [LT α] [DecidableRel (fun (a b : α) => a < b)] (expf : α → α) (powf : α → α → α)
    (negInf : α) (epochs : Nat) (lr : α) (ds : Dataset) (image_base : Nat) (p : Params α) :
    accumVal expf powf negInf ⟨1, epochs, lr⟩ ds image_base p
      = sampleVal expf powf negInf p (loadInputVal ds (sampleIndex ds image_base 0))
          (labelVal ds (sampleIndex ds image_base 0))
          ⟨Matrix.zero, Matrix.zero, Matrix.zero, Matrix.zero, Matrix.zero, Matrix.zero, 0, 0⟩ := by
  unfold accumVal
  show List.foldl _ _ (List.finRange 1) = _
  rw [finRange_one]
  rfl

theorem frozenData_pixel (k : Nat) : frozenData.image_data.getD k 0 = 0 := by
  show (List.replicate 784 0).getD k 0 = 0
  rw [List.getD_eq_getElem?_getD, List.getElem?_replicate]
  split <;> rfl

/-! ## The accumulators of a batch -/

/-- Every accumulator of a run of samples is its own fold over the samples. -/
theorem accum_foldl_eq [Zero α] [One α] [Add α] [Sub α] [Mul α] [Div α] [Neg α] [NatCast α]
    [LT α] [DecidableRel (fun (a b : α) => a < b)] {ι : Type}
    (expf : α → α) (powf : α → α → α) (negInf : α) (p : Params α)
    (a0 : ι → Matrix 784 1 α) (lab : ι → Nat) (l : List ι) (acc0 : Accum α) :
    l.foldl (fun acc i => sampleVal expf powf negInf p (a0 i) (lab i) acc) acc0
      = ⟨l.foldl (fun m i => Matrix.zipWith (fun l x => l + x) m
            (backwardVal expf p (a0 i) (forwardVal expf p (a0 i)) (oneHotVal (lab i))).dw1)
          acc0.a_dw1,
         l.foldl (fun m i => Matrix.zipWith (fun l x => l + x) m
            (backwardVal expf p (a0 i) (forwardVal expf p (a0 i)) (oneHotVal (lab i))).db1)
          acc0.a_db1,
         l.foldl (fun m i => Matrix.zipWith (fun l x => l + x) m
            (backwardVal expf p (a0 i) (forwardVal expf p (a0 i)) (oneHotVal (lab i))).dw2)
          acc0.a_dw2,
         l.foldl (fun m i => Matrix.zipWith (fun l x => l + x) m
            (backwardVal expf p (a0 i) (forwardVal expf p (a0 i)) (oneHotVal (lab i))).db2)
          acc0.a_db2,
         l.foldl (fun m i => Matrix.zipWith (fun l x => l + x) m
            (backwardVal expf p (a0 i) (forwardVal expf p (a0 i)) (oneHotVal (lab i))).dw3)
          acc0.a_dw3,
         l.foldl (fun m i => Matrix.zipWith (fun l x => l + x) m
            (backwardVal expf p (a0 i) (forwardVal expf p (a0 i)) (oneHotVal (lab i))).db3)
          acc0.a_db3,
         l.foldl (fun loss i => loss + sumVal ((Matrix.zipWith (fun l x => l - x)
            (forwardVal expf p (a0 i)).a3 (oneHotVal (lab i) : Matrix 10 1 α)).map
              (fun x => powf x ((2 : Nat) : α)))) acc0.loss,
         (l.foldl (fun acc i => sampleVal expf powf negInf p (a0 i) (lab i) acc)
            acc0).num_correct⟩ := by
  induction l generalizing acc0 with
  | nil => rfl
  | cons x l ih =>
    simp only [List.foldl_cons]
    rw [ih]
    rfl

/-- The accumulators at the end of a batch: the six sums of per-sample gradients and the
sum of the per-sample losses. -/
theorem accumVal_fields [Zero α] [One α] [Add α] [Sub α] [Mul α] [Div α] [Neg α] [NatCast α]
    [LT α] [DecidableRel (fun (a b : α) => a < b)] (expf : α → α) (powf : α → α → α)
    (negInf : α) (h : Hyper α) (ds : Dataset) (image_base : Nat) (p : Params α) :
    (accumVal expf powf negInf h ds image_base p).a_dw1
        = gradSum h.batch_size (fun b => (sampleGrads expf ds image_base p b).dw1) ∧
    (accumVal expf powf negInf h ds image_base p).a_db1
        = gradSum h.batch_size (fun b => (sampleGrads expf ds image_base p b).db1) ∧
    (accumVal expf powf negInf h ds image_base p).a_dw2
        = gradSum h.batch_size (fun b => (sampleGrads expf ds image_base p b).dw2) ∧
    (accumVal expf powf negInf h ds image_base p).a_db2
        = gradSum h.batch_size (fun b => (sampleGrads expf ds image_base p b).db2) ∧
    (accumVal expf powf negInf h ds image_base p).a_dw3
        = gradSum h.batch_size (fun b => (sampleGrads expf ds image_base p b).dw3) ∧
    (accumVal expf powf negInf h ds image_base p).a_db3
        = gradSum h.batch_size (fun b => (sampleGrads expf ds image_base p b).db3) ∧
    (accumVal expf powf negInf h ds image_base p).loss
        = (List.finRange h.batch_size).foldl
            (fun loss b => loss + sampleLoss expf powf ds image_base p b.val) 0 := by
  unfold accumVal
  rw [accum_foldl_eq expf powf negInf p
    (fun (batch_i : Fin h.batch_size) => loadInputVal ds (sampleIndex ds image_base batch_i.val))
    (fun (batch_i : Fin h.batch_size) => labelVal ds (sampleIndex ds image_base batch_i.val))]
  exact ⟨rfl, rfl, rfl, rfl, rfl, rfl, rfl⟩

theorem frozenData_ok (batch_i : Nat) (hb : batch_i < 1) :
    SampleOk frozenData (sampleIndex frozenData 0 batch_i) := by
  have hb0 : batch_i = 0 := by omega
  subst hb0
  decide!

/-! ## `float` arithmetic at zero and on values that are not negative -/

namespace F32

theorem round_zero (s : Bool) : round s 0 = fin s 0 := by
  unfold round
  simp

theorem round_isNonneg (q : ℚ) : IsNonneg (round false q) := by
  unfold round
  simp only
  split
  · exact ⟨rfl, le_refl _⟩
  · split
    · rfl
    · exact ⟨rfl, mul_nonneg (Nat.cast_nonneg _) (le_of_lt (pow2_pos _))⟩

theorem zero_mul_fin (t : Bool) (b : ℚ) : (fin false 0 : F32) * fin t b = fin t 0 := by
  show round (xor false t) (0 * b) = fin t 0
  rw [zero_mul, Bool.false_xor, round_zero]

theorem signed_zero (s : Bool) : signed s 0 = 0 := by
  unfold signed
  split <;> simp

/-- A frozen update of one element: `w - (0.0f / 1) * g` with `g` finite is `w`, unless `w`
is `-0.0f` (and the sign bit of `g` is set), when it is `+0.0f`. -/
theorem sub_frozen (w g : F32) (hw : IsFloat w) (hg : isFinite g = true) :
    sameOrPosZero w (w - (0 : F32) / ((1 : Nat) : F32) * g) := by
  have hf : (0 : F32) / ((1 : Nat) : F32) = fin false 0 := by decide!
  rw [hf]
  cases g with
  | nan => cases hg
  | inf s => cases hg
  | fin t b =>
    rw [zero_mul_fin]
    cases w with
    | nan => exact Or.inl rfl
    | inf s => exact Or.inl rfl
    | fin s a =>
      obtain ⟨ha, hr⟩ := hw
      show sameOrPosZero (fin s a) (roundSigned (s && !t) (signed s a + signed (!t) 0))
      rw [signed_zero, add_zero]
      by_cases haz : a = 0
      · subst haz
        rw [signed_zero]
        unfold roundSigned
        rw [if_pos rfl]
        cases s <;> cases t <;> simp [sameOrPosZero]
      · have hpos : 0 < a := lt_of_le_of_ne ha (Ne.symm haz)
        left
        unfold roundSigned
        cases s
        · have hs : signed false a = a := rfl
          rw [hs, if_neg haz, abs_of_pos hpos]
          have hd : decide (a < 0) = false := decide_eq_false (not_lt.mpr ha)
          rw [hd]
          exact hr
        · have hs : signed true a = -a := rfl
          rw [hs, if_neg (neg_ne_zero.mpr haz), abs_neg, abs_of_pos hpos]
          have hd : decide (-a < 0) = true := decide_eq_true (neg_lt_zero.mpr hpos)
          rw [hd]
          exact hr

theorem add_nan_or_nonneg (x y : F32) (hx : x = nan ∨ IsNonneg x) (hy : y = nan ∨ IsNonneg y) :
    x + y = nan ∨ IsNonneg (x + y) := by
  show add x y = nan ∨ IsNonneg (add x y)
  cases x with
  | nan =>
    left
    cases y <;> rfl
  | inf s =>
    cases y with
    | nan => exact Or.inl rfl
    | inf t =>
      rcases hx with hx | hx
      · cases hx
      · rcases hy with hy | hy
        · cases hy
        · have hs : s = false := hx
          have ht : t = false := hy
          subst hs
          subst ht
          exact Or.inr rfl
    | fin t b =>
      rcases hx with hx | hx
      · cases hx
      · exact Or.inr hx
  | fin s a =>
    cases y with
    | nan => exact Or.inl rfl
    | inf t =>
      rcases hy with hy | hy
      · cases hy
      · exact Or.inr hy
    | fin t b =>
      rcases hx with hx | hx
      · cases hx
      · rcases hy with hy | hy
        · cases hy
        · obtain ⟨hs, ha⟩ := hx
          obtain ⟨ht, hb⟩ := hy
          subst hs
          subst ht
          right
          show IsNonneg (roundSigned (false && false) (a + b))
          unfold roundSigned
          split
          · exact ⟨rfl, le_refl _⟩
          · have hd : decide (a + b < 0) = false :=
              decide_eq_false (not_lt.mpr (add_nonneg ha hb))
            rw [hd]
            exact round_isNonneg _

theorem div_nan_or_nonneg (x y : F32) (hx : x = nan ∨ IsNonneg x) (hy : IsNonneg y) :
    x / y = nan ∨ IsNonneg (x / y) := by
  show div x y = nan ∨ IsNonneg (div x y)
  cases x with
  | nan =>
    left
    cases y <;> rfl
  | inf s =>
    cases y with
    | nan => exact Or.inl rfl
    | inf t => exact Or.inl rfl
    | fin t b =>
      rcases hx with hx | hx
      · cases hx
      · have hs : s = false := hx
        have ht : t = false := hy.1
        subst hs
        subst ht
        exact Or.inr rfl
  | fin s a =>
    rcases hx with hx | hx
    · cases hx
    · have hs : s = false := hx.1
      subst hs
      cases y with
      | nan => exact Or.inl rfl
      | inf t =>
        have ht : t = false := hy
        subst ht
        exact Or.inr ⟨rfl, le_refl _⟩
      | fin t b =>
        have ht : t = false := hy.1
        subst ht
        show (if b = 0 then (if a = 0 then nan else inf (xor false false))
          else round (xor false false) (a / b)) = nan ∨ IsNonneg (if b = 0 then
            (if a = 0 then nan else inf (xor false false)) else round (xor false false) (a / b))
        split
        · split
          · exact Or.inl rfl
          · exact Or.inr rfl
        · exact Or.inr (round_isNonneg _)

theorem natCast_isNonneg (n : Nat) : IsNonneg ((n : Nat) : F32) := round_isNonneg _

theorem mul_self_nan_or_nonneg (x : F32) : x * x = nan ∨ IsNonneg (x * x) := by
  show mul x x = nan ∨ IsNonneg (mul x x)
  cases x with
  | nan => exact Or.inl rfl
  | inf s =>
    right
    show xor s s = false
    exact Bool.xor_self s
  | fin s a =>
    right
    show IsNonneg (round (xor s s) (a * a))
    rw [Bool.xor_self]
    exact round_isNonneg _

end F32

/-! ## The forward pass at the parameters of the `float` examples -/

/-- The forward pass from the values of its three affine steps. -/
theorem forwardVal_of_steps [Zero α] [One α] [Add α] [Mul α] [Div α] [Neg α] (expf : α → α)
    (p : Params α) (a0 : Matrix 784 1 α) (z1 z2 : Matrix 16 1 α) (z3 : Matrix 10 1 α)
    (h1 : Matrix.zipWith (fun l x => l + x) (dotVal p.w1 a0) p.b1 = z1)
    (h2 : Matrix.zipWith (fun l x => l + x) (dotVal p.w2 (z1.map (sigmoidf expf))) p.b2 = z2)
    (h3 : Matrix.zipWith (fun l x => l + x) (dotVal p.w3 (z2.map (sigmoidf expf))) p.b3 = z3) :
    forwardVal expf p a0
      = ⟨z1, z1.map (sigmoidf expf), z2, z2.map (sigmoidf expf), z3, softmaxVal expf z3⟩ := by
  subst h1
  subst h2
  subst h3
  rfl

theorem zeroLabelData_pixel (k : Nat) : zeroLabelData.image_data.getD k 0 = 0 := by
  show (List.replicate 784 0).getD k 0 = 0
  rw [List.getD_eq_getElem?_getD, List.getElem?_replicate]
  split <;> rfl

theorem zeroLabelData_ok (batch_i : Nat) (hb : batch_i < 1) :
    SampleOk zeroLabelData (sampleIndex zeroLabelData 0 batch_i) := by
  have hb0 : batch_i = 0 := by omega
  subst hb0
  decide!

/-- A zero weight matrix times a black image, plus a zero bias, is zero in `float`. -/
theorem zero_affine_black (ds : Dataset) (image : Nat)
    (hpix : ∀ k, ds.image_data.getD k 0 = 0) :
    Matrix.zipWith (fun l x => l + x)
      (dotVal (Matrix.zero : Matrix 16 784 F32) (loadInputVal ds image))
      (Matrix.zero : Matrix 16 1 F32) = Matrix.zero := by
  rw [dotVal_zero_left (loadInputVal ds image) (fun i c => by
    rw [loadInputVal, Matrix.entry_ofFn, hpix]
    decide!)]
  apply Matrix.ext_data
  intro k
  show (0 : F32) + 0 = 0
  decide!

/-- A zero weight matrix times `sigmoid` of a zero vector, plus a zero bias, is zero. -/
theorem zero_affine_half {n : Nat} :
    Matrix.zipWith (fun l x => l + x)
      (dotVal (Matrix.zero : Matrix n 16 F32)
        ((Matrix.zero : Matrix 16 1 F32).map (sigmoidf F32.expfTable)))
      (Matrix.zero : Matrix n 1 F32) = Matrix.zero := by
  rw [dotVal_zero_left _ (fun i c => by
    show (0 : F32) + 0 * sigmoidf F32.expfTable 0 = 0
    decide!)]
  apply Matrix.ext_data
  intro k
  show (0 : F32) + 0 = 0
  decide!

/-- The forward pass of the sample of `zeroLabelData` at `negZeroParams`: every logit is
`0 + 0 = +0.0f` or `0 + -0.0f = +0.0f`. -/
theorem negZero_forward :
    forwardVal F32.expfTable negZeroParams
        (loadInputVal zeroLabelData (sampleIndex zeroLabelData 0 0))
      = ⟨Matrix.zero, (Matrix.zero : Matrix 16 1 F32).map (sigmoidf F32.expfTable),
         Matrix.zero, (Matrix.zero : Matrix 16 1 F32).map (sigmoidf F32.expfTable),
         Matrix.zero, softmaxVal F32.expfTable Matrix.zero⟩ := by
  refine forwardVal_of_steps F32.expfTable negZeroParams _ _ _ _
    (zero_affine_black zeroLabelData _ zeroLabelData_pixel) zero_affine_half ?_
  show Matrix.zipWith (fun l x => l + x)
    (dotVal (Matrix.zero : Matrix 10 16 F32)
      ((Matrix.zero : Matrix 16 1 F32).map (sigmoidf F32.expfTable))) negZeroParams.b3
    = Matrix.zero
  rw [dotVal_zero_left _ (fun i c => by
    show (0 : F32) + 0 * sigmoidf F32.expfTable 0 = 0
    decide!)]
  apply Matrix.ext_data
  intro k
  show (0 : F32) + (if k.val = 0 then F32.fin true 0 else F32.fin false 0) = 0
  split <;> decide!

/-- The forward pass of the sample of `frozenData` at `signParams`: `z2[0] = -100`, so
`a2[0] = 1 / (1 + expf(100)) = 1 / inf = +0.0f`, and every other logit is `+0.0f`. -/
theorem sign_forward :
    forwardVal F32.expfTable signParams (loadInputVal frozenData (sampleIndex frozenData 0 0))
      = ⟨Matrix.zero, (Matrix.zero : Matrix 16 1 F32).map (sigmoidf F32.expfTable),
         signParams.b2, signParams.b2.map (sigmoidf F32.expfTable),
         Matrix.zero, softmaxVal F32.expfTable Matrix.zero⟩ := by
  refine forwardVal_of_steps F32.expfTable signParams _ _ _ _
    (zero_affine_black frozenData _ frozenData_pixel) ?_ ?_
  · show Matrix.zipWith (fun l x => l + x)
      (dotVal (Matrix.zero : Matrix 16 16 F32)
        ((Matrix.zero : Matrix 16 1 F32).map (sigmoidf F32.expfTable))) signParams.b2
      = signParams.b2
    rw [dotVal_zero_left _ (fun i c => by
      show (0 : F32) + 0 * sigmoidf F32.expfTable 0 = 0
      decide!)]
    apply Matrix.ext_data
    intro k
    show (0 : F32) + (if k.val = 0 then F32.fin true 100 else F32.fin false 0)
      = if k.val = 0 then F32.fin true 100 else F32.fin false 0
    split <;> decide!
  · show Matrix.zipWith (fun l x => l + x)
      (dotVal (Matrix.zero : Matrix 10 16 F32)
        (signParams.b2.map (sigmoidf F32.expfTable))) (Matrix.zero : Matrix 10 1 F32)
      = Matrix.zero
    rw [dotVal_zero_left _ (fun i c => by
      show (0 : F32) + 0 * sigmoidf F32.expfTable
        (if (Matrix.idx i c).val = 0 then F32.fin true 100 else F32.fin false 0) = 0
      split <;> decide!)]
    apply Matrix.ext_data
    intro k
    show (0 : F32) + 0 = 0
    decide!

/-! ## Theorems -/

/-- C1: `dot(left, right)` returns, without faulting, the `NR1 x NC2` matrix whose element
`(r, c)` is the sum of `left(r, i) * right(i, c)` accumulated from `0` in increasing `i`; the
operands are passed by const reference and `dot` is a function of their values only. -/
theorem dot_spec {NR1 NC1 NC2 : Nat} [Inhabited α] [Zero α] [Add α] [Mul α]
    (left : Matrix NR1 NC1 α) (right : Matrix NC1 NC2 α) :
    ∃ result : Matrix NR1 NC2 α, dot left right = .ok result ∧
      ∀ (r : Fin NR1) (c : Fin NC2), result.entry r c =
        (List.finRange NC1).foldl (fun acc i => acc + left.entry r i * right.entry i c) 0 :=
  dot_entry left right

/-- C2: `X.T()` returns the matrix with `result(c, r) = X(r, c)`, and transposing it again
returns `X` itself. -/
theorem T_involution {NR NC : Nat} [Inhabited α] (X : Matrix NR NC α) :
    ∃ Y : Matrix NC NR α, X.T = .ok Y ∧ (∀ r c, Y.entry c r = X.entry r c) ∧ Y.T = .ok X := by
  obtain ⟨Y, hY, hYe⟩ := Matrix.T_entry X
  obtain ⟨Z, hZ, hZe⟩ := Matrix.T_entry Y
  refine ⟨Y, hY, hYe, ?_⟩
  rw [hZ]
  congr 1
  apply Matrix.ext_entry
  intro r c
  rw [hZe c r, hYe r c]

/-- C3: the non-const `at` fails its assertion for every `(r, c)` outside the matrix, read or
write, but the const overload has no assertion: on the `2 x 2` matrix built from
`{1, 2, 3, 4}` the read `at(0, 2)` through a const reference returns `3`, the element
`(1, 0)`, where the non-const overload stops. -/
theorem at_const_unchecked :
    (∀ (NR NC : Nat) (m : Matrix NR NC Int) (r c : Nat) (v : Int), NR ≤ r ∨ NC ≤ c →
      m.atGet r c = .error .assertion ∧ m.atSet r c v = .error .assertion) ∧
    ∃ m : Matrix 2 2 Int, Matrix.ofList [1, 2, 3, 4] = .ok m ∧
      m.atConst 0 2 = .ok 3 ∧ m.atGet 0 2 = .error .assertion ∧ m.entry 1 0 = 3 := by
  refine ⟨fun NR NC m r c v h => ?_, ⟨fun i => [1, 2, 3, 4].getD i.val 0⟩, ?_, ?_, ?_, ?_⟩
  · have hn : ¬ (r < NR ∧ c < NC) := by omega
    simp [Matrix.atGet, Matrix.atSet, hn]
  · decide
  · decide
  · decide
  · decide

/-- C4: constructing a `Matrix<NR, NC>` from a list succeeds exactly when the list has
`NR * NC` values; on success element `(r, c)` is `values[r * NC + c]`; a list of any other
length fails the assertion. -/
theorem ofList_spec (NR NC : Nat) [Inhabited α] (input : List α) :
    ((∃ m : Matrix NR NC α, Matrix.ofList input = .ok m) ↔ input.length = NR * NC) ∧
    (∀ m : Matrix NR NC α, Matrix.ofList input = .ok m →
      ∀ (r : Fin NR) (c : Fin NC), input[r.val * NC + c.val]? = some (m.entry r c)) ∧
    (input.length ≠ NR * NC →
      (Matrix.ofList input : Except Fault (Matrix NR NC α)) = .error .assertion) := by
  by_cases hlen : input.length = NR * NC
  · obtain ⟨s, hs, hinv⟩ := forLoop_inv (NR * NC)
      (fun i (s : Matrix NR NC α × Nat) => do
        let v ← match input[s.2]? with
          | some v => pure v
          | none => throw Fault.outOfBounds
        let m ← s.1.set i v
        pure (m, s.2 + 1))
      (fun i s => s.2 = i ∧ ∀ j : Fin (NR * NC), j.val < i → input[j.val]? = some (s.1.data j))
      (Matrix.uninit, 0) ⟨rfl, fun j hj => absurd hj (Nat.not_lt_zero _)⟩
      (by
        rintro i ⟨m, it⟩ hi ⟨hit, hprev⟩
        simp only at hit
        subst hit
        have hlt : it < input.length := by rw [hlen]; exact hi
        refine ⟨(⟨Function.update m.data ⟨it, hi⟩ input[it]⟩, it + 1), ?_, rfl, ?_⟩
        · simp [List.getElem?_eq_getElem hlt, Matrix.set, hi]
        · intro j hj
          by_cases hji : j = ⟨it, hi⟩
          · subst hji
            simp [List.getElem?_eq_getElem hlt]
          · have hne : j.val ≠ it := fun h => hji (Fin.ext h)
            simp only [Function.update_noteq hji]
            exact hprev j (by omega))
    have hok : (Matrix.ofList input : Except Fault (Matrix NR NC α)) = .ok s.1 := by
      simp only [Matrix.ofList, hlen, if_true]
      rw [hs]
      rfl
    refine ⟨⟨fun _ => hlen, fun _ => ⟨s.1, hok⟩⟩, ?_, fun h => absurd hlen h⟩
    intro m hm r c
    rw [hok] at hm
    cases hm
    exact hinv.2 (Matrix.idx r c) (Matrix.idx r c).isLt
  · have herr : (Matrix.ofList input : Except Fault (Matrix NR NC α)) = .error .assertion := by
      simp [Matrix.ofList, hlen]
    refine ⟨⟨?_, fun h => absurd h hlen⟩, ?_, fun _ => herr⟩
    · rintro ⟨m, hm⟩
      rw [herr] at hm
      cases hm
    · intro m hm
      rw [herr] at hm
      cases hm

/-- C5: `sum(Matrix<NR, NC>::zero())` is `0.0` for every `NR` and `NC`, in any arithmetic in
which `0.0 + 0.0` is `0.0`: `zero()` has every element `0.0` and `sum` adds the `NR * NC`
elements to `0.0` in row-major order. -/
theorem sum_zero (NR NC : Nat) [Zero α] [Add α] (h00 : (0 : α) + 0 = 0) :
    (∀ i, (Matrix.zero : Matrix NR NC α).data i = 0) ∧
    sum (Matrix.zero : Matrix NR NC α) = .ok 0 := by
  refine ⟨fun _ => rfl, ?_⟩
  rw [sum_eq]
  congr 1
  exact foldl_inv (List.finRange (NR * NC)) _ (fun acc => acc = (0 : α))
    (fun acc i _ hacc => by
      show acc + (Matrix.zero : Matrix NR NC α).data i = 0
      rw [hacc]
      exact h00)
    0 rfl

/-- C6: `sigmoid` and `d_sigmoid` return matrices of the shape of `X` with, at every index,
`sigmoid(X)[i] = 1 / (1 + expf(-X[i]))` and `d_sigmoid(X)[i] = sigmoid(X)[i] * (1 - sigmoid(X)[i])`. -/
theorem d_sigmoid_spec {NR NC : Nat} [Inhabited α] [One α] [Add α] [Sub α] [Mul α] [Div α]
    [Neg α] (expf : α → α) (X : Matrix NR NC α) :
    ∃ S D : Matrix NR NC α, sigmoid expf X = .ok S ∧ d_sigmoid expf X = .ok D ∧
      ∀ i, S.data i = 1 / (1 + expf (-(X.data i))) ∧ D.data i = S.data i * (1 - S.data i) :=
  ⟨_, _, Matrix.apply_eq X _, Matrix.apply_eq X _, fun _ => ⟨rfl, rfl⟩⟩

/-- C7: in exact arithmetic, for a matrix with at least one element, `softmax(X)[i]` is
`exp(X[i]) / sum_j exp(X[j])`, every element is strictly positive, and the elements sum to
exactly `1`, also as computed by `sum`. -/
theorem softmax_spec {NR NC : Nat} (X : Matrix NR NC ℝ) (hne : 1 ≤ NR * NC) :
    ∃ S : Matrix NR NC ℝ, softmax Real.exp X = .ok S ∧
      (∀ i, S.data i = Real.exp (X.data i) / ∑ j, Real.exp (X.data j)) ∧
      (∀ i, 0 < S.data i) ∧ ∑ i, S.data i = 1 ∧ sum S = .ok 1 := by
  have hpos : 0 < ∑ j, Real.exp (X.data j) := by
    haveI : Nonempty (Fin (NR * NC)) := ⟨⟨0, hne⟩⟩
    exact Finset.sum_pos (fun j _ => Real.exp_pos _) Finset.univ_nonempty
  have hdata : ∀ i, (X.map (fun x => Real.exp x /
      (List.finRange (NR * NC)).foldl (fun acc i => acc + Real.exp (X.data i)) 0)).data i
      = Real.exp (X.data i) / ∑ j, Real.exp (X.data j) := by
    intro i
    show Real.exp (X.data i) / _ = _
    rw [foldl_add_eq_sum (fun j => Real.exp (X.data j))]
  have hsum : ∑ i, (X.map (fun x => Real.exp x /
      (List.finRange (NR * NC)).foldl (fun acc i => acc + Real.exp (X.data i)) 0)).data i
      = 1 := by
    simp only [hdata]
    rw [← Finset.sum_div]
    exact div_self (ne_of_gt hpos)
  refine ⟨_, softmax_eq Real.exp X, hdata, fun i => ?_, hsum, ?_⟩
  · rw [hdata i]
    exact div_pos (Real.exp_pos _) hpos
  · rw [sum_eq, foldl_add_eq_sum, hsum]

/-- C7 at the `1 x 2` zero matrix. -/
theorem softmax_spec_witness :
    1 ≤ 1 * 2 ∧ ∃ S : Matrix 1 2 ℝ, softmax Real.exp (Matrix.zero : Matrix 1 2 ℝ) = .ok S ∧
      (∀ i, S.data i = Real.exp ((Matrix.zero : Matrix 1 2 ℝ).data i) /
        ∑ j, Real.exp ((Matrix.zero : Matrix 1 2 ℝ).data j)) ∧
      (∀ i, 0 < S.data i) ∧ ∑ i, S.data i = 1 ∧ sum S = .ok 1 :=
  ⟨by decide, softmax_spec (Matrix.zero : Matrix 1 2 ℝ) (by decide)⟩

/-- C8: on ten comparable values of which at least one exceeds the initial `-INFINITY`, the
prediction scan returns the index `d` of a maximum (`a3[j] <= a3[d]` for all `j`) that is the
lowest such index (`a3[j] < a3[d]` for all `j < d`). -/
theorem predict_spec [LinearOrder α] (negInf : α) (a3 : Matrix 10 1 α)
    (h : ∃ j, negInf < a3.entry j 0) :
    ∃ d : Fin 10, predict negInf a3 = .ok d.val ∧
      (∀ j, a3.entry j 0 ≤ a3.entry d 0) ∧ (∀ j, j < d → a3.entry j 0 < a3.entry d 0) := by
  obtain ⟨s, hs, hle, hcase⟩ := forLoop_inv 10
    (fun i (s : Nat × α) => do
      let x ← a3.atGet i 0
      if s.2 < x then pure (i, x) else pure s)
    (fun i s => (∀ j : Fin 10, j.val < i → a3.entry j 0 ≤ s.2) ∧
      ((s.2 = negInf ∧ s.1 = 0) ∨
        ∃ d : Fin 10, d.val = s.1 ∧ s.2 = a3.entry d 0 ∧ ∀ j, j < d → a3.entry j 0 < s.2))
    (0, negInf) ⟨fun j hj => absurd hj (Nat.not_lt_zero _), Or.inl ⟨rfl, rfl⟩⟩
    (by
      rintro i ⟨d, pr⟩ hi ⟨hle, hcase⟩
      have hget : a3.atGet i 0 = .ok (a3.entry ⟨i, hi⟩ 0) :=
        Matrix.atGet_fin a3 ⟨i, hi⟩ 0
      by_cases hlt : pr < a3.entry ⟨i, hi⟩ 0
      · refine ⟨(i, a3.entry ⟨i, hi⟩ 0), by simp [hget, hlt], fun j hj => ?_, Or.inr ?_⟩
        · rcases Nat.lt_succ_iff_lt_or_eq.mp hj with hj | hj
          · exact le_of_lt (lt_of_le_of_lt (hle j hj) hlt)
          · have : j = ⟨i, hi⟩ := Fin.ext hj
            rw [this]
        · exact ⟨⟨i, hi⟩, rfl, rfl, fun j hj => lt_of_le_of_lt (hle j hj) hlt⟩
      · refine ⟨(d, pr), by simp [hget, hlt], fun j hj => ?_, hcase⟩
        rcases Nat.lt_succ_iff_lt_or_eq.mp hj with hj | hj
        · exact hle j hj
        · have : j = ⟨i, hi⟩ := Fin.ext hj
          rw [this]
          exact not_lt.mp hlt)
  have hpred : predict negInf a3 = .ok s.1 := by
    unfold predict
    rw [hs]
    rfl
  rcases hcase with ⟨hpr, _⟩ | ⟨d, hd, hpr, hlow⟩
  · obtain ⟨j, hj⟩ := h
    exact absurd (lt_of_lt_of_le hj (hle j j.isLt)) (by rw [hpr]; exact lt_irrefl _)
  · refine ⟨d, by rw [hpred, hd], fun j => ?_, fun j hj => ?_⟩
    · rw [← hpr]; exact hle j j.isLt
    · rw [← hpr]; exact hlow j hj

/-- C8 at the vector `(3, 7, 7, 1, 0, 0, 0, 0, 0, 0)` with `-100` for `-INFINITY`: the scan
returns `1`. -/
theorem predict_spec_witness :
    (∃ j, (-100 : Int) < (⟨fun i => [3, 7, 7, 1, 0, 0, 0, 0, 0, 0].getD i.val 0⟩ :
      Matrix 10 1 Int).entry j 0) ∧
    predict (-100 : Int) (⟨fun i => [3, 7, 7, 1, 0, 0, 0, 0, 0, 0].getD i.val 0⟩ :
      Matrix 10 1 Int) = .ok 1 ∧
    ∃ d : Fin 10, predict (-100 : Int) (⟨fun i => [3, 7, 7, 1, 0, 0, 0, 0, 0, 0].getD i.val 0⟩ :
      Matrix 10 1 Int) = .ok d.val ∧
      (∀ j, (⟨fun i => [3, 7, 7, 1, 0, 0, 0, 0, 0, 0].getD i.val 0⟩ : Matrix 10 1 Int).entry j 0
        ≤ (⟨fun i => [3, 7, 7, 1, 0, 0, 0, 0, 0, 0].getD i.val 0⟩ : Matrix 10 1 Int).entry d 0) ∧
      (∀ j, j < d →
        (⟨fun i => [3, 7, 7, 1, 0, 0, 0, 0, 0, 0].getD i.val 0⟩ : Matrix 10 1 Int).entry j 0
        < (⟨fun i => [3, 7, 7, 1, 0, 0, 0, 0, 0, 0].getD i.val 0⟩ : Matrix 10 1 Int).entry d 0) :=
  ⟨⟨0, by decide⟩, by decide, predict_spec (-100 : Int) _ ⟨0, by decide⟩⟩

/-- C5 in `float` arithmetic, where `0.0f + 0.0f` is `0.0f`, at a `3 x 2` matrix. -/
theorem sum_zero_witness :
    (0 : F32) + 0 = 0 ∧ (∀ i, (Matrix.zero : Matrix 3 2 F32).data i = 0) ∧
      sum (Matrix.zero : Matrix 3 2 F32) = .ok 0 :=
  ⟨by decide!, sum_zero 3 2 (by decide!)⟩

/-- C10: in `float` arithmetic, for a batch size from `1` to below `2 ^ 64` whose samples
can all be processed, the batch ends with `num_correct` equal to the number of samples
whose predicted class is their label, at most `batch_size`; the reported accuracy
`num_correct / batch_size * 100` is exactly `100.0f` when all are correct and exactly
`0.0f` when none is. -/
theorem accuracy_spec (expf : F32 → F32) (powf : F32 → F32 → F32) (negInf : F32)
    (h : Hyper F32) (ds : Dataset) (image_base : Nat) (p : Params F32)
    (hpos : 0 < h.batch_size) (hsize : h.batch_size < 2 ^ 64)
    (hok : ∀ batch_i, batch_i < h.batch_size → SampleOk ds (sampleIndex ds image_base batch_i)) :
    ∃ (p' : Params F32) (rep : Report F32),
      batchBody expf powf negInf h ds image_base p = .ok (p', rep) ∧
      rep.accuracy = ((correctCount expf negInf h ds image_base p : Nat) : F32)
        / ((h.batch_size : Nat) : F32) * ((100 : Nat) : F32) ∧
      correctCount expf negInf h ds image_base p ≤ h.batch_size ∧
      (correctCount expf negInf h ds image_base p = h.batch_size →
        rep.accuracy = F32.fin false 100) ∧
      (correctCount expf negInf h ds image_base p = 0 → rep.accuracy = F32.fin false 0) := by
  have hacc : (updateVal h p (accumVal expf powf negInf h ds image_base p)).2.accuracy
      = ((correctCount expf negInf h ds image_base p : Nat) : F32)
        / ((h.batch_size : Nat) : F32) * ((100 : Nat) : F32) := by
    show (((accumVal expf powf negInf h ds image_base p).num_correct : Nat) : F32)
      / ((h.batch_size : Nat) : F32) * ((100 : Nat) : F32) = _
    rw [correctCount_eq expf powf negInf h ds image_base p hok]
  obtain ⟨q, hq, hcast⟩ := F32.natCast_pos h.batch_size hpos hsize
  refine ⟨_, _, batchBody_eq expf powf negInf h ds image_base p hok, hacc,
    correctCount_le expf negInf h ds image_base p, fun hall => ?_, fun hnone => ?_⟩
  · refine hacc.trans ?_
    rw [hall, hcast, F32.div_self_pos q hq]
    decide!
  · refine hacc.trans ?_
    have h0 : ((0 : Nat) : F32) = F32.fin false 0 := by decide!
    rw [hnone, hcast, h0, F32.zero_div_pos q hq]
    decide!

/-- C10 at the one-image dataset with `batch_size = 1`. -/
theorem accuracy_spec_witness :
    ∃ (p' : Params F32) (rep : Report F32),
      batchBody F32.expfTable powfSquare (F32.inf true) frozenHyper frozenData 0 frozenParams
        = .ok (p', rep) ∧
      rep.accuracy = ((correctCount F32.expfTable (F32.inf true) frozenHyper frozenData 0
          frozenParams : Nat) : F32) / ((frozenHyper.batch_size : Nat) : F32)
        * ((100 : Nat) : F32) ∧
      correctCount F32.expfTable (F32.inf true) frozenHyper frozenData 0 frozenParams
        ≤ frozenHyper.batch_size ∧
      (correctCount F32.expfTable (F32.inf true) frozenHyper frozenData 0 frozenParams
          = frozenHyper.batch_size → rep.accuracy = F32.fin false 100) ∧
      (correctCount F32.expfTable (F32.inf true) frozenHyper frozenData 0 frozenParams = 0 →
        rep.accuracy = F32.fin false 0) :=
  accuracy_spec F32.expfTable powfSquare (F32.inf true) frozenHyper frozenData 0 frozenParams
    (by decide) (by decide) (by
      intro batch_i hb
      have hb0 : batch_i = 0 := by
        have : batch_i < 1 := hb
        omega
      subst hb0
      decide!)

/-- C9 fails in `float` arithmetic. With all parameters `0.0f` except `b3[0] = 100.0f`, the
logit `z3[0] = 100` makes `expf` overflow, `a3[0] = inf / inf` is NaN and the other outputs are
`1 / inf = 0`, so the scan predicts class `1`, the label of the sample; the gradient of `b3[0]`
is NaN and a frozen single-sample batch replaces `b3[0] = 100.0f` by `100 - 0 * NaN`, NaN.
And with finite gradients: with all parameters `+0.0f` except `b3[0] = -0.0f` and a sample of
label `0`, every output is `1 / 10`, the scan predicts class `0`, the gradient of `b3[0]` is
negative, and the batch replaces `b3[0] = -0.0f` by `-0.0f - (0 * g) = -0.0f - -0.0f`,
which is `+0.0f`. -/
theorem frozen_update_counterexample :
    (readBuf frozenData.labels (sampleIndex frozenData 0 0) = .ok 1 ∧
    predictedClass F32.expfTable (F32.inf true) frozenData frozenParams
      (sampleIndex frozenData 0 0) = .ok 1 ∧
    frozenParams.b3.data 0 = F32.fin false 100 ∧
    ∃ (p' : Params F32) (rep : Report F32),
      batchBody F32.expfTable powfSquare (F32.inf true) frozenHyper frozenData 0 frozenParams
        = .ok (p', rep) ∧ p'.b3.data 0 = F32.nan) ∧
    (readBuf zeroLabelData.labels (sampleIndex zeroLabelData 0 0) = .ok 0 ∧
    predictedClass F32.expfTable (F32.inf true) zeroLabelData negZeroParams
      (sampleIndex zeroLabelData 0 0) = .ok 0 ∧
    negZeroParams.b3.data 0 = F32.fin true 0 ∧
    ∃ (p' : Params F32) (rep : Report F32),
      batchBody F32.expfTable powfSquare (F32.inf true) frozenHyper zeroLabelData 0
        negZeroParams = .ok (p', rep) ∧ p'.b3.data 0 = F32.fin false 0) := by
  have hok : ∀ batch_i, batch_i < frozenHyper.batch_size →
      SampleOk frozenData (sampleIndex frozenData 0 batch_i) := frozenData_ok
  have ha3 : (forwardVal F32.expfTable frozenParams
      (loadInputVal frozenData (sampleIndex frozenData 0 0))).a3
      = softmaxVal F32.expfTable frozenParams.b3 :=
    forwardVal_zero_weights F32.expfTable frozenParams.b3 _ (by decide!)
      (fun i c => by
        rw [loadInputVal, Matrix.entry_ofFn, frozenData_pixel]
        decide!)
      (by decide!)
      (fun k => by
        show (0 : F32) + (if k.val = 0 then F32.fin false 100 else F32.fin false 0)
          = if k.val = 0 then F32.fin false 100 else F32.fin false 0
        split <;> decide!)
  refine ⟨⟨by decide, ?_, rfl, _, _,
    batchBody_eq F32.expfTable powfSquare (F32.inf true) frozenHyper frozenData 0 frozenParams hok,
    ?_⟩, ⟨by decide, ?_, rfl, _, _,
    batchBody_eq F32.expfTable powfSquare (F32.inf true) frozenHyper zeroLabelData 0
      negZeroParams zeroLabelData_ok, ?_⟩⟩
  · rw [predictedClass_eq F32.expfTable (F32.inf true) frozenData frozenParams _
      (hok 0 (by decide)).2.1, ha3]
    decide!
  · show (updateVal frozenHyper frozenParams
      (accumVal F32.expfTable powfSquare (F32.inf true) ⟨1, 1, 0⟩ frozenData 0
        frozenParams)).1.b3.data 0 = F32.nan
    rw [accumVal_one]
    show frozenParams.b3.data 0 - (frozenHyper.learning_rate / ((frozenHyper.batch_size : Nat) : F32))
      * ((0 : F32) + ((2 : Nat) : F32) * ((forwardVal F32.expfTable frozenParams
          (loadInputVal frozenData (sampleIndex frozenData 0 0))).a3.data 0
        - (oneHotVal (labelVal frozenData (sampleIndex frozenData 0 0)) : Matrix 10 1 F32).data 0))
      = F32.nan
    rw [ha3]
    decide!
  · rw [predictedClass_eq F32.expfTable (F32.inf true) zeroLabelData negZeroParams _
      (zeroLabelData_ok 0 (by decide)).2.1, negZero_forward]
    decide!
  · show (updateVal frozenHyper negZeroParams
      (accumVal F32.expfTable powfSquare (F32.inf true) ⟨1, 1, 0⟩ zeroLabelData 0
        negZeroParams)).1.b3.data 0 = F32.fin false 0
    rw [accumVal_one]
    show negZeroParams.b3.data 0
      - (frozenHyper.learning_rate / ((frozenHyper.batch_size : Nat) : F32))
      * ((0 : F32) + ((2 : Nat) : F32) * ((forwardVal F32.expfTable negZeroParams
          (loadInputVal zeroLabelData (sampleIndex zeroLabelData 0 0))).a3.data 0
        - (oneHotVal (labelVal zeroLabelData (sampleIndex zeroLabelData 0 0))
            : Matrix 10 1 F32).data 0))
      = F32.fin false 0
    rw [negZero_forward]
    decide!

/-- C9 in `float` arithmetic, for every `expf` and `powf`: with `learning_rate = 0` and
`batch_size = 1`, for every parameter state and every sample inside the dataset buffers whose
predicted class equals its label, the batch succeeds, and every element of the six parameter
matrices whose accumulated gradient is finite (neither NaN nor an infinity) is after the batch
the element before it, except that an element `-0.0f` may have become `+0.0f`. The elements
are `float` data (`IsFloat`): a finite datum of the model carries any rational magnitude, a
finite `float` a representable one. -/
theorem frozen_update (expf : F32 → F32) (powf : F32 → F32 → F32) (negInf : F32)
    (epochs : Nat) (ds : Dataset) (image_base : Nat) (p : Params F32)
    (hN : ds.num_images ≠ 0)
    (himg : sampleIndex ds image_base 0 * 28 * 28 + 28 * 28 ≤ ds.image_data.length)
    (hlab : sampleIndex ds image_base 0 < ds.labels.length)
    (hpred : predictedClass expf negInf ds p (sampleIndex ds image_base 0)
      = .ok (labelVal ds (sampleIndex ds image_base 0))) :
    ∃ (p' : Params F32) (rep : Report F32),
      batchBody expf powf negInf ⟨1, epochs, 0⟩ ds image_base p = .ok (p', rep) ∧
      (∀ i, F32.IsFloat (p.w1.data i) →
        F32.isFinite ((gradSum 1 (fun b => (sampleGrads expf ds image_base p b).dw1)).data i)
          = true → F32.sameOrPosZero (p.w1.data i) (p'.w1.data i)) ∧
      (∀ i, F32.IsFloat (p.b1.data i) →
        F32.isFinite ((gradSum 1 (fun b => (sampleGrads expf ds image_base p b).db1)).data i)
          = true → F32.sameOrPosZero (p.b1.data i) (p'.b1.data i)) ∧
      (∀ i, F32.IsFloat (p.w2.data i) →
        F32.isFinite ((gradSum 1 (fun b => (sampleGrads expf ds image_base p b).dw2)).data i)
          = true → F32.sameOrPosZero (p.w2.data i) (p'.w2.data i)) ∧
      (∀ i, F32.IsFloat (p.b2.data i) →
        F32.isFinite ((gradSum 1 (fun b => (sampleGrads expf ds image_base p b).db2)).data i)
          = true → F32.sameOrPosZero (p.b2.data i) (p'.b2.data i)) ∧
      (∀ i, F32.IsFloat (p.w3.data i) →
        F32.isFinite ((gradSum 1 (fun b => (sampleGrads expf ds image_base p b).dw3)).data i)
          = true → F32.sameOrPosZero (p.w3.data i) (p'.w3.data i)) ∧
      (∀ i, F32.IsFloat (p.b3.data i) →
        F32.isFinite ((gradSum 1 (fun b => (sampleGrads expf ds image_base p b).db3)).data i)
          = true → F32.sameOrPosZero (p.b3.data i) (p'.b3.data i)) := by
  have hdigit : ds.labels.getD (sampleIndex ds image_base 0) 0 ≤ 9 := by
    rw [predictedClass_eq expf negInf ds p _ himg] at hpred
    have heq : predictVal negInf (forwardVal expf p
        (loadInputVal ds (sampleIndex ds image_base 0))).a3
        = labelVal ds (sampleIndex ds image_base 0) := by
      injection hpred
    apply charToSize_lt_ten
    show labelVal ds (sampleIndex ds image_base 0) < 10
    rw [← heq]
    exact predictVal_lt _ _
  have hok : ∀ batch_i, batch_i < (⟨1, epochs, 0⟩ : Hyper F32).batch_size →
      SampleOk ds (sampleIndex ds image_base batch_i) := by
    intro batch_i hb
    have hb0 : batch_i = 0 := by
      have : batch_i < 1 := hb
      omega
    subst hb0
    exact ⟨hN, himg, hlab, hdigit⟩
  obtain ⟨h1, h2, h3, h4, h5, h6, _⟩ :=
    accumVal_fields expf powf negInf ⟨1, epochs, 0⟩ ds image_base p
  refine ⟨_, _, batchBody_eq expf powf negInf ⟨1, epochs, 0⟩ ds image_base p hok,
    ?_, ?_, ?_, ?_, ?_, ?_⟩
  · intro i hw hg
    rw [← h1] at hg
    exact F32.sub_frozen _ _ hw hg
  · intro i hw hg
    rw [← h2] at hg
    exact F32.sub_frozen _ _ hw hg
  · intro i hw hg
    rw [← h3] at hg
    exact F32.sub_frozen _ _ hw hg
  · intro i hw hg
    rw [← h4] at hg
    exact F32.sub_frozen _ _ hw hg
  · intro i hw hg
    rw [← h5] at hg
    exact F32.sub_frozen _ _ hw hg
  · intro i hw hg
    rw [← h6] at hg
    exact F32.sub_frozen _ _ hw hg

/-- C9 at the one-image dataset with label `0` and the parameters `negZeroParams`: the
prediction is the label, the ten accumulated gradients of `b3` are finite, and every element
of `b3` is kept, `b3[0] = -0.0f` up to the sign of zero. -/
theorem frozen_update_witness :
    predictedClass F32.expfTable (F32.inf true) zeroLabelData negZeroParams
      (sampleIndex zeroLabelData 0 0) = .ok (labelVal zeroLabelData (sampleIndex zeroLabelData 0 0)) ∧
    ∃ (p' : Params F32) (rep : Report F32),
      batchBody F32.expfTable powfSquare (F32.inf true) ⟨1, 1, 0⟩ zeroLabelData 0 negZeroParams
        = .ok (p', rep) ∧
      ∀ i, F32.sameOrPosZero (negZeroParams.b3.data i) (p'.b3.data i) := by
  have hpred : predictedClass F32.expfTable (F32.inf true) zeroLabelData negZeroParams
      (sampleIndex zeroLabelData 0 0)
      = .ok (labelVal zeroLabelData (sampleIndex zeroLabelData 0 0)) := by
    rw [predictedClass_eq F32.expfTable (F32.inf true) zeroLabelData negZeroParams _
      (zeroLabelData_ok 0 (by decide)).2.1, negZero_forward]
    decide!
  have hfloat : ∀ i, F32.IsFloat (negZeroParams.b3.data i) := by
    intro i
    show F32.IsFloat (if i.val = 0 then F32.fin true 0 else F32.fin false 0)
    split <;> exact ⟨le_refl _, F32.round_zero _⟩
  have hfin : ∀ i, F32.isFinite ((gradSum 1 (fun b =>
      (sampleGrads F32.expfTable zeroLabelData 0 negZeroParams b).db3)).data i) = true := by
    show ∀ i : Fin (10 * 1), F32.isFinite ((Matrix.zipWith (fun l x => l + x)
      (Matrix.zero : Matrix 10 1 F32)
      (backwardVal F32.expfTable negZeroParams
        (loadInputVal zeroLabelData (sampleIndex zeroLabelData 0 0))
        (forwardVal F32.expfTable negZeroParams
          (loadInputVal zeroLabelData (sampleIndex zeroLabelData 0 0)))
        (oneHotVal (labelVal zeroLabelData (sampleIndex zeroLabelData 0 0)))).db3).data i) = true
    rw [negZero_forward]
    decide!
  obtain ⟨p', rep, hrun, _, _, _, _, _, hb3⟩ :=
    frozen_update F32.expfTable powfSquare (F32.inf true) 1 zeroLabelData 0 negZeroParams
      (by decide) (by decide!) (by decide) hpred
  exact ⟨hpred, p', rep, hrun, fun i => hb3 i (hfloat i) (hfin i)⟩

/-! ## Reading the dataset -/

theorem reverse_integer_bytes (x0 x1 x2 x3 : Nat) (h0 : x0 < 256) (h1 : x1 < 256)
    (h2 : x2 < 256) (h3 : x3 < 256) :
    reverse_integer (x0 + x1 * 256 + x2 * 256 ^ 2 + x3 * 256 ^ 3)
      = x3 + x2 * 256 + x1 * 256 ^ 2 + x0 * 256 ^ 3 := by
  have e0 : (x0 + x1 * 256 + x2 * 256 ^ 2 + x3 * 256 ^ 3) / 256 ^ 0 % 256 = x0 := by
    norm_num; omega
  have e1 : (x0 + x1 * 256 + x2 * 256 ^ 2 + x3 * 256 ^ 3) / 256 ^ 1 % 256 = x1 := by
    norm_num; omega
  have e2 : (x0 + x1 * 256 + x2 * 256 ^ 2 + x3 * 256 ^ 3) / 256 ^ 2 % 256 = x2 := by
    norm_num; omega
  have e3 : (x0 + x1 * 256 + x2 * 256 ^ 2 + x3 * 256 ^ 3) / 256 ^ 3 % 256 = x3 := by
    norm_num; omega
  unfold reverse_integer
  simp only [List.range_succ, List.range_zero, List.nil_append, List.cons_append,
    List.foldl_cons, List.foldl_nil, e0, e1, e2, e3]
  rfl

theorem load_big_endian_cons (b0 b1 b2 b3 : Nat) (rest : List Nat) (h0 : b0 < 256)
    (h1 : b1 < 256) (h2 : b2 < 256) (h3 : b3 < 256) :
    load_big_endian (b0 :: b1 :: b2 :: b3 :: rest)
      = .ok (b0 * 2 ^ 24 + b1 * 2 ^ 16 + b2 * 2 ^ 8 + b3, rest) := by
  unfold load_big_endian load
  show Except.ok (reverse_integer (b0 + b1 * 256 + b2 * 256 ^ 2 + b3 * 256 ^ 3), rest) = _
  rw [reverse_integer_bytes b0 b1 b2 b3 h0 h1 h2 h3]
  congr 2
  norm_num
  ring

/-- C11: a batch whose samples can be processed ends with each of the six parameters `P`
replaced, element by element, by `P - (learning_rate / batch_size) * G`, where `G` is the sum
in sample order, from the zero matrix, of that parameter's gradient over the `batch_size`
samples, every gradient being computed with the parameters the batch started with. -/
theorem batch_update_spec [Inhabited α] [Zero α] [One α] [Add α] [Sub α] [Mul α] [Div α]
    [Neg α] [NatCast α] [LT α] [DecidableRel (fun (a b : α) => a < b)]
    (expf : α → α) (powf : α → α → α) (negInf : α) (h : Hyper α) (ds : Dataset)
    (image_base : Nat) (p : Params α)
    (hok : ∀ batch_i, batch_i < h.batch_size → SampleOk ds (sampleIndex ds image_base batch_i)) :
    ∃ (p' : Params α) (rep : Report α),
      batchBody expf powf negInf h ds image_base p = .ok (p', rep) ∧
      (∀ i, p'.w1.data i = p.w1.data i - h.learning_rate / (h.batch_size : α) *
        (gradSum h.batch_size (fun b => (sampleGrads expf ds image_base p b).dw1)).data i) ∧
      (∀ i, p'.b1.data i = p.b1.data i - h.learning_rate / (h.batch_size : α) *
        (gradSum h.batch_size (fun b => (sampleGrads expf ds image_base p b).db1)).data i) ∧
      (∀ i, p'.w2.data i = p.w2.data i - h.learning_rate / (h.batch_size : α) *
        (gradSum h.batch_size (fun b => (sampleGrads expf ds image_base p b).dw2)).data i) ∧
      (∀ i, p'.b2.data i = p.b2.data i - h.learning_rate / (h.batch_size : α) *
        (gradSum h.batch_size (fun b => (sampleGrads expf ds image_base p b).db2)).data i) ∧
      (∀ i, p'.w3.data i = p.w3.data i - h.learning_rate / (h.batch_size : α) *
        (gradSum h.batch_size (fun b => (sampleGrads expf ds image_base p b).dw3)).data i) ∧
      (∀ i, p'.b3.data i = p.b3.data i - h.learning_rate / (h.batch_size : α) *
        (gradSum h.batch_size (fun b => (sampleGrads expf ds image_base p b).db3)).data i) := by
  obtain ⟨h1, h2, h3, h4, h5, h6, _⟩ := accumVal_fields expf powf negInf h ds image_base p
  refine ⟨_, _, batchBody_eq expf powf negInf h ds image_base p hok, ?_, ?_, ?_, ?_, ?_, ?_⟩
  · intro i; rw [← h1]; rfl
  · intro i; rw [← h2]; rfl
  · intro i; rw [← h3]; rfl
  · intro i; rw [← h4]; rfl
  · intro i; rw [← h5]; rfl
  · intro i; rw [← h6]; rfl

/-- C11 at the one-image dataset with `batch_size = 1` in `float` arithmetic. -/
theorem batch_update_spec_witness :
    (∀ batch_i, batch_i < frozenHyper.batch_size →
      SampleOk frozenData (sampleIndex frozenData 0 batch_i)) ∧
    ∃ (p' : Params F32) (rep : Report F32),
      batchBody F32.expfTable powfSquare (F32.inf true) frozenHyper frozenData 0 frozenParams
        = .ok (p', rep) ∧
      ∀ i, p'.b3.data i = frozenParams.b3.data i
        - frozenHyper.learning_rate / (frozenHyper.batch_size : F32) *
          (gradSum frozenHyper.batch_size
            (fun b => (sampleGrads F32.expfTable frozenData 0 frozenParams b).db3)).data i := by
  refine ⟨frozenData_ok, ?_⟩
  obtain ⟨p', rep, hrun, _, _, _, _, _, hb3⟩ :=
    batch_update_spec F32.expfTable powfSquare (F32.inf true) frozenHyper frozenData 0
      frozenParams frozenData_ok
  exact ⟨p', rep, hrun, hb3⟩

/-! ## Startup -/

theorem stop_ok_bind {β γ : Type} (a : β) (f : β → Except Stop γ) :
    (Except.ok a >>= f) = f a := rfl

theorem stop_error_bind {β γ : Type} (e : Stop) (f : β → Except Stop γ) :
    (Except.error e >>= f) = Except.error e := rfl

theorem exists_cons4 (l : List Nat) (h : 4 ≤ l.length) :
    ∃ a b c d r, l = a :: b :: c :: d :: r := by
  match l, h with
  | a :: b :: c :: d :: r, _ => exact ⟨a, b, c, d, r, rfl⟩

theorem mainRun_of_startup_error {E D : Type} [Inhabited α] [Zero α] [One α] [Add α] [Sub α]
    [Mul α] [Div α] [Neg α] [NatCast α] [LT α] [DecidableRel (fun (a b : α) => a < b)]
    (expf : α → α) (powf : α → α → α) (negInf : α) (draw : D × E → α × (D × E)) (fresh : D)
    (generator : E) (fuel : Nat) (labelsFile imagesFile : Option (List Nat)) (e : Stop)
    (h : startup labelsFile imagesFile = .error e) :
    mainRun expf powf negInf draw fresh generator fuel labelsFile imagesFile = .error e := by
  unfold mainRun
  rw [h]
  rfl

/-- The four validations of startup, on files whose headers are complete. -/
theorem startup_checks (labels images : List Nat) (hlb : ∀ b ∈ labels, b < 256)
    (hib : ∀ b ∈ images, b < 256) (hl : 8 ≤ labels.length) (hi : 16 ≤ images.length) :
    (beWord labels 0 ≠ 2049 → ∀ imagesFile,
      startup (some labels) imagesFile = .error (.exit1 .unrecognized)) ∧
    (beWord labels 0 = 2049 → beWord images 0 ≠ 2051 →
      startup (some labels) (some images) = .error (.exit1 .unrecognized)) ∧
    (beWord labels 0 = 2049 → beWord images 0 = 2051 → beWord images 1 ≠ beWord labels 1 →
      startup (some labels) (some images) = .error .abort) ∧
    (beWord labels 0 = 2049 → beWord images 0 = 2051 → beWord images 1 = beWord labels 1 →
      (beWord images 2 ≠ 28 ∨ beWord images 3 ≠ 28) →
      startup (some labels) (some images) = .error .abort) := by
  obtain ⟨a0, a1, a2, a3, l1, rfl⟩ := exists_cons4 labels (by omega)
  obtain ⟨a4, a5, a6, a7, l2, rfl⟩ := exists_cons4 l1 (by simp at hl; omega)
  obtain ⟨c0, c1, c2, c3, i1, rfl⟩ := exists_cons4 images (by omega)
  obtain ⟨c4, c5, c6, c7, i2, rfl⟩ := exists_cons4 i1 (by simp at hi; omega)
  obtain ⟨c8, c9, c10, c11, i3, rfl⟩ := exists_cons4 i2 (by simp at hi; omega)
  obtain ⟨c12, c13, c14, c15, i4, rfl⟩ := exists_cons4 i3 (by simp at hi; omega)
  have ha0 := hlb a0 (by simp)
  have ha1 := hlb a1 (by simp)
  have ha2 := hlb a2 (by simp)
  have ha3 := hlb a3 (by simp)
  have ha4 := hlb a4 (by simp)
  have ha5 := hlb a5 (by simp)
  have ha6 := hlb a6 (by simp)
  have ha7 := hlb a7 (by simp)
  have hc0 := hib c0 (by simp)
  have hc1 := hib c1 (by simp)
  have hc2 := hib c2 (by simp)
  have hc3 := hib c3 (by simp)
  have hc4 := hib c4 (by simp)
  have hc5 := hib c5 (by simp)
  have hc6 := hib c6 (by simp)
  have hc7 := hib c7 (by simp)
  have hc8 := hib c8 (by simp)
  have hc9 := hib c9 (by simp)
  have hc10 := hib c10 (by simp)
  have hc11 := hib c11 (by simp)
  have hc12 := hib c12 (by simp)
  have hc13 := hib c13 (by simp)
  have hc14 := hib c14 (by simp)
  have hc15 := hib c15 (by simp)
  have hL0 := load_big_endian_cons a0 a1 a2 a3 (a4 :: a5 :: a6 :: a7 :: l2) ha0 ha1 ha2 ha3
  have hL1 := load_big_endian_cons a4 a5 a6 a7 l2 ha4 ha5 ha6 ha7
  have hI0 := load_big_endian_cons c0 c1 c2 c3
    (c4 :: c5 :: c6 :: c7 :: c8 :: c9 :: c10 :: c11 :: c12 :: c13 :: c14 :: c15 :: i4)
    hc0 hc1 hc2 hc3
  have hI1 := load_big_endian_cons c4 c5 c6 c7
    (c8 :: c9 :: c10 :: c11 :: c12 :: c13 :: c14 :: c15 :: i4) hc4 hc5 hc6 hc7
  have hI2 := load_big_endian_cons c8 c9 c10 c11 (c12 :: c13 :: c14 :: c15 :: i4)
    hc8 hc9 hc10 hc11
  have hI3 := load_big_endian_cons c12 c13 c14 c15 i4 hc12 hc13 hc14 hc15
  have hfread : ∀ (file : List Nat) (n : Nat), ∃ buf, freadBuf file n (1 * n) = .ok buf := by
    intro file n
    unfold freadBuf
    have hlen : (file.take (1 * n)).length ≤ n := by
      rw [List.length_take]; omega
    rw [if_neg (by omega)]
    exact ⟨_, rfl⟩
  obtain ⟨buf, hbuf⟩ := hfread l2 (a4 * 2 ^ 24 + a5 * 2 ^ 16 + a6 * 2 ^ 8 + a7)
  have hw0 : beWord (a0 :: a1 :: a2 :: a3 :: a4 :: a5 :: a6 :: a7 :: l2) 0
      = a0 * 2 ^ 24 + a1 * 2 ^ 16 + a2 * 2 ^ 8 + a3 := rfl
  have hw1 : beWord (a0 :: a1 :: a2 :: a3 :: a4 :: a5 :: a6 :: a7 :: l2) 1
      = a4 * 2 ^ 24 + a5 * 2 ^ 16 + a6 * 2 ^ 8 + a7 := rfl
  have hv0 : beWord (c0 :: c1 :: c2 :: c3 :: c4 :: c5 :: c6 :: c7 :: c8 :: c9 :: c10 :: c11
      :: c12 :: c13 :: c14 :: c15 :: i4) 0 = c0 * 2 ^ 24 + c1 * 2 ^ 16 + c2 * 2 ^ 8 + c3 := rfl
  have hv1 : beWord (c0 :: c1 :: c2 :: c3 :: c4 :: c5 :: c6 :: c7 :: c8 :: c9 :: c10 :: c11
      :: c12 :: c13 :: c14 :: c15 :: i4) 1 = c4 * 2 ^ 24 + c5 * 2 ^ 16 + c6 * 2 ^ 8 + c7 := rfl
  have hv2 : beWord (c0 :: c1 :: c2 :: c3 :: c4 :: c5 :: c6 :: c7 :: c8 :: c9 :: c10 :: c11
      :: c12 :: c13 :: c14 :: c15 :: i4) 2 = c8 * 2 ^ 24 + c9 * 2 ^ 16 + c10 * 2 ^ 8 + c11 := rfl
  have hv3 : beWord (c0 :: c1 :: c2 :: c3 :: c4 :: c5 :: c6 :: c7 :: c8 :: c9 :: c10 :: c11
      :: c12 :: c13 :: c14 :: c15 :: i4) 3 = c12 * 2 ^ 24 + c13 * 2 ^ 16 + c14 * 2 ^ 8 + c15 := rfl
  rw [hw0, hw1, hv0, hv1, hv2, hv3]
  refine ⟨fun hm imagesFile => ?_, fun hm hm2 => ?_, fun hm hm2 hcount => ?_,
    fun hm hm2 hcount hdim => ?_⟩
  · simp only [startup, load_buffer, hL0, stop_ok_bind]
    rw [if_pos hm]
    rfl
  · simp only [startup, load_buffer, hL0, hL1, hI0, hbuf, stop_ok_bind]
    rw [if_neg (not_not.mpr hm), if_pos hm2]
    rfl
  · simp only [startup, load_buffer, hL0, hL1, hI0, hI1, hbuf, stop_ok_bind]
    rw [if_neg (not_not.mpr hm), if_neg (not_not.mpr hm2), if_pos hcount]
    rfl
  · have hnd : ¬ (c8 * 2 ^ 24 + c9 * 2 ^ 16 + c10 * 2 ^ 8 + c11 = 28 ∧
        c12 * 2 ^ 24 + c13 * 2 ^ 16 + c14 * 2 ^ 8 + c15 = 28) := by
      rintro ⟨h1, h2⟩
      rcases hdim with h | h
      · exact h h1
      · exact h h2
    simp only [startup, load_buffer, hL0, hL1, hI0, hI1, hI2, hI3, hbuf, stop_ok_bind]
    rw [if_neg (not_not.mpr hm), if_neg (not_not.mpr hm2), if_neg (not_not.mpr hcount),
      if_pos hnd]
    rfl

theorem stop_bind_eq_ok {β γ : Type} {x : Except Stop β} {f : β → Except Stop γ} {c : γ}
    (h : (x >>= f) = .ok c) : ∃ a, x = .ok a ∧ f a = .ok c := by
  cases x with
  | error e => cases h
  | ok a => exact ⟨a, rfl, h⟩

theorem freadBuf_length (file : List Nat) (cap want : Nat) (buf : List Nat)
    (h : freadBuf file cap want = .ok buf) : buf.length = cap := by
  unfold freadBuf at h
  by_cases hc : cap < (file.take want).length
  · rw [if_pos hc] at h; cases h
  · rw [if_neg hc] at h
    cases h
    rw [List.length_append, List.length_replicate]
    omega

/-- After a successful startup the label buffer has `num_images` bytes and the image buffer
has the length computed in `uint32_t`. -/
theorem startup_buffers (labelsFile imagesFile : Option (List Nat)) (ds : Dataset)
    (h : startup labelsFile imagesFile = .ok ds) :
    ds.labels.length = ds.num_images ∧ ds.image_data.length = imageBufLen ds.num_images := by
  unfold startup at h
  obtain ⟨file, _, h⟩ := stop_bind_eq_ok h
  obtain ⟨m1, _, h⟩ := stop_bind_eq_ok h
  try simp only at h
  split at h
  · cases h
  · obtain ⟨m2, _, h⟩ := stop_bind_eq_ok h
    try simp only at h
    obtain ⟨labels, hlabels, h⟩ := stop_bind_eq_ok h
    obtain ⟨file2, _, h⟩ := stop_bind_eq_ok h
    obtain ⟨m3, _, h⟩ := stop_bind_eq_ok h
    try simp only at h
    split at h
    · cases h
    · obtain ⟨m4, _, h⟩ := stop_bind_eq_ok h
      try simp only at h
      split at h
      · cases h
      · rename_i hcount
        obtain ⟨m5, _, h⟩ := stop_bind_eq_ok h
        try simp only at h
        obtain ⟨m6, _, h⟩ := stop_bind_eq_ok h
        try simp only at h
        split at h
        · cases h
        · obtain ⟨image_data, himg, h⟩ := stop_bind_eq_ok h
          cases h
          have hc : m4.1 = m2.1 := not_not.mp hcount
          refine ⟨?_, freadBuf_length _ _ _ _ himg⟩
          show labels.length = m4.1
          rw [hc]
          exact freadBuf_length _ _ _ _ hlabels

/-- C12, as the code has it: when the labels file's magic number is not 2049 or the images
file's is not 2051, `main` ends with status `1` after reporting the dataset as unrecognized;
when the image count differs from the label count, or the image rows or columns differ from
28, it ends by a failed assertion; in all four cases before any parameter is initialised or
any training step runs. -/
theorem startup_validation {E D : Type} [Inhabited α] [Zero α] [One α] [Add α] [Sub α]
    [Mul α] [Div α] [Neg α] [NatCast α] [LT α] [DecidableRel (fun (a b : α) => a < b)]
    (expf : α → α) (powf : α → α → α) (negInf : α) (draw : D × E → α × (D × E)) (fresh : D)
    (generator : E) (fuel : Nat) (labels images : List Nat)
    (hlb : ∀ b ∈ labels, b < 256) (hib : ∀ b ∈ images, b < 256)
    (hl : 8 ≤ labels.length) (hi : 16 ≤ images.length) :
    (beWord labels 0 ≠ 2049 → ∀ imagesFile,
      mainRun expf powf negInf draw fresh generator fuel (some labels) imagesFile
        = .error (.exit1 .unrecognized)) ∧
    (beWord labels 0 = 2049 → beWord images 0 ≠ 2051 →
      mainRun expf powf negInf draw fresh generator fuel (some labels) (some images)
        = .error (.exit1 .unrecognized)) ∧
    (beWord labels 0 = 2049 → beWord images 0 = 2051 → beWord images 1 ≠ beWord labels 1 →
      mainRun expf powf negInf draw fresh generator fuel (some labels) (some images)
        = .error .abort) ∧
    (beWord labels 0 = 2049 → beWord images 0 = 2051 → beWord images 1 = beWord labels 1 →
      (beWord images 2 ≠ 28 ∨ beWord images 3 ≠ 28) →
      mainRun expf powf negInf draw fresh generator fuel (some labels) (some images)
        = .error .abort) := by
  obtain ⟨h1, h2, h3, h4⟩ := startup_checks labels images hlb hib hl hi
  exact ⟨fun hm imagesFile => mainRun_of_startup_error _ _ _ _ _ _ _ _ _ _ (h1 hm imagesFile),
    fun hm hm2 => mainRun_of_startup_error _ _ _ _ _ _ _ _ _ _ (h2 hm hm2),
    fun hm hm2 hc => mainRun_of_startup_error _ _ _ _ _ _ _ _ _ _ (h3 hm hm2 hc),
    fun hm hm2 hc hd => mainRun_of_startup_error _ _ _ _ _ _ _ _ _ _ (h4 hm hm2 hc hd)⟩

/-- C12 at a labels file with magic number 1234: status `1`, dataset unrecognized. -/
theorem startup_validation_witness :
    beWord [0, 0, 4, 210, 0, 0, 0, 1, 5] 0 = 1234 ∧
    mainRun F32.expfTable powfSquare (F32.inf true) (fun (s : Unit × Unit) => ((0 : F32), s))
      () () 1 (some [0, 0, 4, 210, 0, 0, 0, 1, 5])
      (some [0, 0, 8, 3, 0, 0, 0, 1, 0, 0, 0, 28, 0, 0, 0, 28])
      = .error (.exit1 .unrecognized) :=
  ⟨by decide,
    (startup_validation F32.expfTable powfSquare (F32.inf true)
      (fun (s : Unit × Unit) => ((0 : F32), s)) () () 1 [0, 0, 4, 210, 0, 0, 0, 1, 5]
      [0, 0, 8, 3, 0, 0, 0, 1, 0, 0, 0, 28, 0, 0, 0, 28]
      (by decide) (by decide) (by decide) (by decide)).1 (by decide) _⟩

/-- C12 fails for a count mismatch: with one label and an images file that declares two
images, both magic numbers being right, startup ends by the failed assertion of line 64, not
with status `1`; likewise for `27` rows. -/
theorem startup_validation_counterexample :
    startup (some [0, 0, 8, 1, 0, 0, 0, 1, 5])
      (some [0, 0, 8, 3, 0, 0, 0, 2, 0, 0, 0, 28, 0, 0, 0, 28]) = .error Stop.abort ∧
    startup (some [0, 0, 8, 1, 0, 0, 0, 1, 5])
      (some [0, 0, 8, 3, 0, 0, 0, 1, 0, 0, 0, 27, 0, 0, 0, 28]) = .error Stop.abort ∧
    Stop.abort ≠ Stop.exit1 Message.unrecognized ∧ Stop.abort ≠ Stop.exit1 Message.failedToLoad := by
  refine ⟨?_, ?_, by decide, by decide⟩
  · exact (startup_checks [0, 0, 8, 1, 0, 0, 0, 1, 5]
      [0, 0, 8, 3, 0, 0, 0, 2, 0, 0, 0, 28, 0, 0, 0, 28]
      (by decide) (by decide) (by decide) (by decide)).2.2.1 (by decide) (by decide) (by decide)
  · exact (startup_checks [0, 0, 8, 1, 0, 0, 0, 1, 5]
      [0, 0, 8, 3, 0, 0, 0, 1, 0, 0, 0, 27, 0, 0, 0, 28]
      (by decide) (by decide) (by decide) (by decide)).2.2.2 (by decide) (by decide) (by decide)
      (Or.inl (by decide))

/-- C17: on a little-endian host, `load` of the four bytes `b0 b1 b2 b3` yields the integer
with these in-memory bytes, `reverse_integer` maps it to the integer with in-memory bytes
`b3 b2 b1 b0`, and so `load_big_endian` returns `b0 * 2^24 + b1 * 2^16 + b2 * 2^8 + b3`,
leaving the file after the four bytes. -/
theorem load_big_endian_spec (b0 b1 b2 b3 : Nat) (rest : List Nat) (h0 : b0 < 256)
    (h1 : b1 < 256) (h2 : b2 < 256) (h3 : b3 < 256) :
    load (b0 :: b1 :: b2 :: b3 :: rest)
      = .ok (b0 + b1 * 256 + b2 * 256 ^ 2 + b3 * 256 ^ 3, rest) ∧
    reverse_integer (b0 + b1 * 256 + b2 * 256 ^ 2 + b3 * 256 ^ 3)
      = b3 + b2 * 256 + b1 * 256 ^ 2 + b0 * 256 ^ 3 ∧
    load_big_endian (b0 :: b1 :: b2 :: b3 :: rest)
      = .ok (b0 * 2 ^ 24 + b1 * 2 ^ 16 + b2 * 2 ^ 8 + b3, rest) :=
  ⟨rfl, reverse_integer_bytes b0 b1 b2 b3 h0 h1 h2 h3,
    load_big_endian_cons b0 b1 b2 b3 rest h0 h1 h2 h3⟩

/-- C17 at the header bytes `00 00 08 01`: decoded as 2049. -/
theorem load_big_endian_spec_witness :
    load_big_endian [0, 0, 8, 1] = .ok (2049, []) :=
  (load_big_endian_spec 0 0 8 1 [] (by decide) (by decide) (by decide) (by decide)).2.2

/-- When `num_images * 28 * 28` does not wrap, every read of a sample lies inside the
buffers of a dataset with `num_images` labels and an image buffer of the computed length. -/
theorem sample_reads_in_bounds (ds : Dataset) (image_base batch_i texel : Nat)
    (hN : 0 < ds.num_images) (hwrap : ds.num_images * 28 * 28 < 2 ^ 32)
    (hlabels : ds.labels.length = ds.num_images)
    (himages : ds.image_data.length = imageBufLen ds.num_images) (ht : texel < 28 * 28) :
    sampleIndex ds image_base batch_i < ds.num_images ∧
    sampleIndex ds image_base batch_i * 28 * 28 + texel < ds.image_data.length ∧
    sampleIndex ds image_base batch_i < ds.labels.length := by
  have hidx : sampleIndex ds image_base batch_i < ds.num_images := Nat.mod_lt _ hN
  have hlen : ds.image_data.length = ds.num_images * 28 * 28 := by
    rw [himages, imageBufLen, Nat.mod_eq_of_lt hwrap]
  refine ⟨hidx, ?_, by rw [hlabels]; exact hidx⟩
  rw [hlen]
  have : (sampleIndex ds image_base batch_i + 1) * 28 * 28 ≤ ds.num_images * 28 * 28 := by
    apply Nat.mul_le_mul_right
    apply Nat.mul_le_mul_right
    exact hidx
  omega

/-- C14 fails once `num_images * 28 * 28` wraps: for `5478275` images the product is
`2^32 + 304`, the image buffer has `304` bytes, and the very first sample (`image_base = 0`,
`batch_i = 0`, index `0`) reads texel `304` at offset `304`, outside the buffer. -/
theorem image_buffer_wraps :
    imageBufLen 5478275 = 304 ∧
    sampleIndex ⟨5478275, [], List.replicate 304 0⟩ 0 0 = 0 ∧
    ¬ (sampleIndex ⟨5478275, [], List.replicate 304 0⟩ 0 0 * 28 * 28 + 304
        < (List.replicate 304 0).length) ∧
    readBuf (List.replicate 304 0) (0 * 28 * 28 + 304) = .error .outOfBounds ∧
    (loadInput ⟨5478275, [], List.replicate 304 0⟩ 0 : Except Fault (Matrix 784 1 ℚ))
      = .error .outOfBounds := by
  refine ⟨by decide, by decide, by decide!, by decide!, ?_⟩
  decide!

/-! ## Initialisation -/

theorem randn_eq {NR NC : Nat} {E D : Type} [Inhabited α] (draw : D × E → α × (D × E))
    (fresh : D) (generator : E) :
    (Matrix.randn draw fresh generator : Except Fault (Matrix NR NC α))
      = .ok ⟨fun i => drawSeq draw (fresh, generator) i.val⟩ := by
  obtain ⟨s, hs, hst, hdata⟩ := forLoop_inv (NR * NC)
    (fun i (s : Matrix NR NC α × (D × E)) => do
      let result ← s.1.set i (draw s.2).1
      pure (result, (draw s.2).2))
    (fun i s => s.2 = Nat.iterate (fun s => (draw s).2) i (fresh, generator) ∧
      ∀ j : Fin (NR * NC), j.val < i → s.1.data j = drawSeq draw (fresh, generator) j.val)
    (Matrix.uninit, (fresh, generator)) ⟨rfl, fun j hj => absurd hj (Nat.not_lt_zero _)⟩
    (by
      rintro i ⟨m, st⟩ hi ⟨hst, hprev⟩
      simp only at hst
      refine ⟨(⟨Function.update m.data ⟨i, hi⟩ (draw st).1⟩, (draw st).2), ?_, ?_, ?_⟩
      · simp [Matrix.set, hi]
      · show (draw st).2 = _
        rw [Function.iterate_succ_apply', ← hst]
      · intro j hj
        by_cases hji : j = ⟨i, hi⟩
        · subst hji
          show Function.update m.data _ _ _ = _
          rw [Function.update_same, hst]
          rfl
        · have hne : j.val ≠ i := fun h => hji (Fin.ext h)
          show Function.update m.data _ _ _ = _
          rw [Function.update_noteq hji]
          exact hprev j (by omega))
  unfold Matrix.randn
  rw [hs]
  refine congrArg Except.ok ?_
  apply Matrix.ext_data
  intro j
  exact hdata j j.isLt

/-- C18: `randn` receives a copy of `generator`, which the caller's variable never sees
advanced, so the three calls of the initialisation draw the same sequence: `w1.data[k]` is
sample `k` of that sequence, `w2.data[k] = w1.data[k]` for `k < 256` and
`w3.data[k] = w1.data[k]` for `k < 160`. -/
theorem randn_shared_prefix {E D : Type} [Inhabited α] [Zero α]
    (draw : D × E → α × (D × E)) (fresh : D) (generator : E) :
    ∃ p : Params α, initParams draw fresh generator = .ok p ∧
      (∀ i, p.w1.data i = drawSeq draw (fresh, generator) i.val) ∧
      (∀ (k : Nat) (hk : k < 256),
        p.w2.data ⟨k, by omega⟩ = p.w1.data ⟨k, by omega⟩) ∧
      (∀ (k : Nat) (hk : k < 160),
        p.w3.data ⟨k, by omega⟩ = p.w1.data ⟨k, by omega⟩) := by
  refine ⟨⟨⟨fun i => drawSeq draw (fresh, generator) i.val⟩, Matrix.zero,
    ⟨fun i => drawSeq draw (fresh, generator) i.val⟩, Matrix.zero,
    ⟨fun i => drawSeq draw (fresh, generator) i.val⟩, Matrix.zero⟩, ?_, fun _ => rfl,
    fun _ _ => rfl, fun _ _ => rfl⟩
  unfold initParams
  simp only [randn_eq, ok_bind, pure_eq_ok]

/-! ## The epoch and batch loops -/

theorem lt_numBatches_iff (N bs j : Nat) (hbs : 0 < bs) : j < numBatches N bs ↔ j * bs < N := by
  unfold numBatches
  rw [Nat.lt_iff_add_one_le, Nat.le_div_iff_mul_le hbs, Nat.add_mul]
  omega

theorem wrap_of_lt (x : Nat) (h : x < 2 ^ 32) : x % 2 ^ 64 % 2 ^ 32 = x := by
  have h64 : x < 2 ^ 64 := lt_of_lt_of_le h (by norm_num)
  rw [Nat.mod_eq_of_lt h64, Nat.mod_eq_of_lt h]

/-- Without wrap-around of `image_base`, a batch loop whose body succeeds and keeps an
invariant indexed by the number of batches done exits after `numBatches` batches. -/
theorem batchLoop_inv {σ : Type} (N bs : Nat) (body : Nat → σ → Except Fault σ)
    (Inv : Nat → σ → Prop) (hbs : 0 < bs) (hwrap : N + bs ≤ 2 ^ 32)
    (hstep : ∀ j s, j * bs < N → Inv j s → ∃ s', body (j * bs) s = .ok s' ∧ Inv (j + 1) s')
    (m j fuel : Nat) (s : σ) (hj : j + m = numBatches N bs) (hfuel : m < fuel)
    (hinv : Inv j s) :
    ∃ s', batchLoop fuel N bs body (j * bs) s = .ok (some s') ∧ Inv (numBatches N bs) s' := by
  induction m generalizing j fuel s with
  | zero =>
    obtain ⟨f, rfl⟩ : ∃ f, fuel = f + 1 := ⟨fuel - 1, by omega⟩
    have hnot : ¬ j * bs < N := by
      rw [← lt_numBatches_iff N bs j hbs]; omega
    refine ⟨s, ?_, ?_⟩
    · unfold batchLoop
      rw [if_neg hnot]
    · have : j = numBatches N bs := by omega
      rw [← this]; exact hinv
  | succ m ih =>
    obtain ⟨f, rfl⟩ : ∃ f, fuel = f + 1 := ⟨fuel - 1, by omega⟩
    have hlt : j * bs < N := by
      rw [← lt_numBatches_iff N bs j hbs]; omega
    obtain ⟨s', hs', hinv'⟩ := hstep j s hlt hinv
    have hnext : (j * bs + bs) % 2 ^ 64 % 2 ^ 32 = (j + 1) * bs := by
      rw [wrap_of_lt _ (by omega), Nat.add_mul, Nat.one_mul]
    obtain ⟨r, hr, hinvr⟩ := ih (j + 1) f s' (by omega) (by omega) hinv'
    refine ⟨r, ?_, hinvr⟩
    unfold batchLoop
    rw [if_pos hlt, hs']
    simp only [ok_bind, hnext]
    exact hr

/-- The epoch loop under the same conditions: `epochs * numBatches` batches in all. -/
theorem epochLoop_inv {σ : Type} (N bs epochs fuel : Nat) (body : Nat → σ → Except Fault σ)
    (Inv : Nat → σ → Prop) (hbs : 0 < bs) (hwrap : N + bs ≤ 2 ^ 32)
    (hfuel : numBatches N bs < fuel)
    (hstep : ∀ t j s, j * bs < N → Inv t s → ∃ s', body (j * bs) s = .ok s' ∧ Inv (t + 1) s')
    (s0 : σ) (h0 : Inv 0 s0) :
    ∃ s', epochLoop fuel epochs N bs body s0 = .ok (some s') ∧
      Inv (epochs * numBatches N bs) s' := by
  obtain ⟨so, hso, s', hs', hinv⟩ := forLoop_inv epochs
    (fun _ (s : Option σ) =>
      match s with
      | some s => batchLoop fuel N bs body 0 s
      | none => .ok none)
    (fun e so => ∃ s, so = some s ∧ Inv (e * numBatches N bs) s)
    (some s0) ⟨s0, rfl, by rw [Nat.zero_mul]; exact h0⟩
    (by
      rintro e so _ ⟨s, rfl, hinv⟩
      obtain ⟨r, hr, hinvr⟩ := batchLoop_inv N bs body
        (fun j s => Inv (e * numBatches N bs + j) s) hbs hwrap
        (fun j s hj hi => hstep _ j s hj hi) (numBatches N bs) 0 fuel s (by omega) hfuel hinv
      refine ⟨some r, ?_, r, rfl, ?_⟩
      · show batchLoop fuel N bs body 0 s = _
        rw [← hr, Nat.zero_mul]
      · rw [Nat.add_mul, Nat.one_mul]; exact hinvr)
  refine ⟨s', ?_, hinv⟩
  unfold epochLoop
  rw [hso, hs']

/-- With `2^32 - 1` images and batches of `128`, `image_base` only takes multiples of `128`
below `2^32`, all of them below `num_images`: the batch loop never reaches its exit. -/
theorem batchLoop_wrap_none {σ : Type} (body : Nat → σ → Except Fault σ)
    (hbody : ∀ b s, ∃ s', body b s = .ok s') (fuel base : Nat) (s : σ)
    (hmul : base % 128 = 0) (hlt : base < 2 ^ 32) :
    batchLoop fuel 4294967295 128 body base s = .ok none := by
  induction fuel generalizing base s with
  | zero => rfl
  | succ f ih =>
    obtain ⟨s', hs'⟩ := hbody base s
    have hb : base < 4294967295 := by
      norm_num at hlt
      omega
    unfold batchLoop
    rw [if_pos hb, hs']
    simp only [ok_bind]
    apply ih
    · norm_num
      omega
    · exact Nat.mod_lt _ (by norm_num)

/-- The training on a dataset whose samples can all be processed, without wrap-around of
`image_base`: it returns after `epochs * numBatches` batches, and a property of the
parameters that every batch keeps holds after every batch. -/
theorem train_inv [Inhabited α] [Zero α] [One α] [Add α] [Sub α] [Mul α] [Div α] [Neg α]
    [NatCast α] [LT α] [DecidableRel (fun (a b : α) => a < b)]
    (expf : α → α) (powf : α → α → α) (negInf : α) (fuel : Nat) (h : Hyper α) (ds : Dataset)
    (p0 : Params α) (P : Params α → Prop)
    (hbs : 0 < h.batch_size) (hwrap : ds.num_images + h.batch_size ≤ 2 ^ 32)
    (hfuel : numBatches ds.num_images h.batch_size < fuel)
    (hok : ∀ image, image < ds.num_images → SampleOk ds image)
    (hP : ∀ image_base p, P p →
      P (updateVal h p (accumVal expf powf negInf h ds image_base p)).1)
    (h0 : P p0) :
    ∃ r, train expf powf negInf fuel h ds p0 = .ok (some r) ∧ P r.1 ∧
      (∀ e ∈ r.2, P e.1) ∧
      r.2.length = h.epochs * numBatches ds.num_images h.batch_size := by
  obtain ⟨r, hr, hP1, hlen, hall⟩ := epochLoop_inv ds.num_images h.batch_size h.epochs fuel
    (fun image_base (s : Params α × List (Params α × Report α)) => do
      let r ← batchBody expf powf negInf h ds image_base s.1
      pure (r.1, s.2 ++ [r]))
    (fun t s => P s.1 ∧ s.2.length = t ∧ ∀ e ∈ s.2, P e.1) hbs hwrap hfuel
    (by
      rintro t j ⟨p, hist⟩ hj ⟨hp, hlen, hall⟩
      have hN : 0 < ds.num_images := by omega
      have hsamples : ∀ batch_i, batch_i < h.batch_size →
          SampleOk ds (sampleIndex ds (j * h.batch_size) batch_i) :=
        fun batch_i _ => hok _ (Nat.mod_lt _ hN)
      refine ⟨((updateVal h p (accumVal expf powf negInf h ds (j * h.batch_size) p)).1,
        hist ++ [updateVal h p (accumVal expf powf negInf h ds (j * h.batch_size) p)]), ?_,
        hP _ p hp, ?_, ?_⟩
      · simp only [batchBody_eq expf powf negInf h ds (j * h.batch_size) p hsamples, ok_bind,
          pure_eq_ok]
      · simp only [List.length_append, List.length_singleton]
        simp only at hlen
        omega
      · intro e he
        rcases List.mem_append.mp he with he | he
        · exact hall e he
        · rw [List.mem_singleton.mp he]
          exact hP _ p hp)
    (p0, []) ⟨h0, rfl, fun e he => absurd he (List.not_mem_nil e)⟩
  exact ⟨r, hr, hP1, hall, hlen⟩

/-- With no image the batch loop exits at its first test: no batch body runs, so no sample
index is computed. -/
theorem batchLoop_zero_images {σ : Type} (fuel batch_size : Nat)
    (body : Nat → σ → Except Fault σ) (s : σ) :
    batchLoop (fuel + 1) 0 batch_size body 0 s = .ok (some s) := by
  unfold batchLoop
  rw [if_neg (Nat.lt_irrefl 0)]

/-- An epoch loop whose batch loop never reaches its exit does not return either. -/
theorem epochLoop_none {σ : Type} (fuel epochs N bs : Nat) (body : Nat → σ → Except Fault σ)
    (s0 : σ) (hloop : ∀ s, batchLoop fuel N bs body 0 s = .ok none) (he : 0 < epochs) :
    epochLoop fuel epochs N bs body s0 = .ok none := by
  obtain ⟨so, hso, hinv⟩ := forLoop_inv epochs
    (fun _ (s : Option σ) =>
      match s with
      | some s => batchLoop fuel N bs body 0 s
      | none => .ok none)
    (fun e so => 0 < e → so = none) (some s0) (fun h => absurd h (Nat.lt_irrefl 0))
    (by
      intro e so _ hinv
      cases so with
      | none => exact ⟨none, rfl, fun _ => rfl⟩
      | some s => exact ⟨none, hloop s, fun _ => rfl⟩)
  unfold epochLoop
  rw [hso, hinv he]

/-- The same for any body, which may also fault: the batch loop never returns. -/
theorem batchLoop_wrap_never {σ : Type} (body : Nat → σ → Except Fault σ) (fuel base : Nat)
    (s r : σ) (hmul : base % 128 = 0) (hlt : base < 2 ^ 32) :
    batchLoop fuel 4294967295 128 body base s ≠ .ok (some r) := by
  induction fuel generalizing base s with
  | zero =>
    intro h
    cases h
  | succ f ih =>
    have hb : base < 4294967295 := by
      norm_num at hlt
      omega
    unfold batchLoop
    rw [if_pos hb]
    cases hbody : body base s with
    | error e =>
      intro h
      cases h
    | ok s' =>
      simp only [ok_bind]
      apply ih
      · norm_num
        omega
      · exact Nat.mod_lt _ (by norm_num)

theorem foldlM_option_never {σ : Type} (f : Option σ → Nat → Except Fault (Option σ))
    (hnone : ∀ i, f none i = .ok none) (hsome : ∀ s i r, f (some s) i ≠ .ok (some r))
    (l : List Nat) (so : Option σ) (h : l ≠ [] ∨ so = none) (r : σ) :
    l.foldlM f so ≠ .ok (some r) := by
  induction l generalizing so with
  | nil =>
    rcases h with h | h
    · exact absurd rfl h
    · subst h
      intro hcon
      cases hcon
  | cons x l ih =>
    rw [List.foldlM_cons]
    cases hstep : f so x with
    | error e =>
      intro hcon
      cases hcon
    | ok so' =>
      simp only [ok_bind]
      apply ih
      right
      cases so with
      | none =>
        rw [hnone] at hstep
        cases hstep
        rfl
      | some s =>
        cases so' with
        | none => rfl
        | some s' => exact absurd hstep (hsome s x s')

/-- An epoch loop with at least one epoch whose batch loop never returns does not return. -/
theorem epochLoop_never {σ : Type} (fuel epochs N bs : Nat) (body : Nat → σ → Except Fault σ)
    (s0 r : σ) (hloop : ∀ s r, batchLoop fuel N bs body 0 s ≠ .ok (some r)) (he : 0 < epochs) :
    epochLoop fuel epochs N bs body s0 ≠ .ok (some r) := by
  unfold epochLoop forLoop
  refine foldlM_option_never _ (fun _ => rfl) (fun s _ r => hloop s r) _ _ (Or.inl ?_) r
  intro hnil
  have hlen := congrArg List.length hnil
  rw [List.length_range] at hlen
  exact absurd hlen (Nat.pos_iff_ne_zero.mp he)

/-- C13 fails for an image count in the last `127` values of `uint32_t`: with
`num_images = 2^32 - 1` and `batch_size = 128`, the batch that starts at `2^32 - 128` is
followed by `image_base = (2^32 - 128 + 128) mod 2^32 = 0`, so with a body that always
succeeds no number of iterations brings the batch loop, or the 64 epochs, to their end; and
the training of `main` on a dataset of that size does not return for any bound. -/
theorem batch_loop_wraps :
    (4294967168 < 4294967295 ∧ (4294967168 + 128) % 2 ^ 64 % 2 ^ 32 = 0) ∧
    (∀ (fuel : Nat) (s : Nat),
      batchLoop fuel 4294967295 128 (fun _ s => .ok (s + 1)) 0 s = .ok none) ∧
    (∀ fuel : Nat,
      epochLoop fuel 64 4294967295 128 (fun _ (s : Nat) => .ok (s + 1)) 0 = .ok none) ∧
    (∀ (fuel : Nat) (ds : Dataset) (p : Params F32) (r : Params F32 × List (Params F32 × Report F32)),
      ds.num_images = 4294967295 →
      train F32.expfTable powfSquare (F32.inf true) fuel mainHyper ds p ≠ .ok (some r)) := by
  have hloop : ∀ (fuel : Nat) (s : Nat),
      batchLoop fuel 4294967295 128 (fun _ s => .ok (s + 1)) 0 s = .ok none :=
    fun fuel s => batchLoop_wrap_none _ (fun _ s => ⟨s + 1, rfl⟩) fuel 0 s rfl (by norm_num)
  refine ⟨⟨by decide, by decide⟩, hloop,
    fun fuel => epochLoop_none fuel 64 4294967295 128 _ 0 (hloop fuel) (by decide), ?_⟩
  intro fuel ds p r hN
  unfold train
  rw [hN]
  exact epochLoop_never fuel 64 4294967295 128 _ _ r
    (fun s r => batchLoop_wrap_never _ fuel 0 s r rfl (by norm_num)) (by decide)

/-! ## The backward pass and the loss -/

/-- An outer product computed by `dot(u, v.T())`: each element is one product added to the
`0.0f` that the accumulation starts from. -/
theorem dotVal_outer {n m : Nat} [Zero α] [Add α] [Mul α] (u : Matrix n 1 α)
    (v : Matrix m 1 α) (i : Fin n) (j : Fin m) :
    (dotVal u v.transpose).entry i j = 0 + u.entry i 0 * v.entry j 0 := by
  rw [dotVal, Matrix.entry_ofFn, rowCol, finRange_one]
  simp only [List.foldl_cons, List.foldl_nil, Matrix.transpose, Matrix.entry_ofFn]

/-- A product `dot(w.T(), u)`: element `j` accumulates `w(i, j) * u(i)` over `i`. -/
theorem dotVal_transpose_left {n m : Nat} [Zero α] [Add α] [Mul α] (w : Matrix n m α)
    (u : Matrix n 1 α) (j : Fin m) :
    (dotVal w.transpose u).entry j 0
      = (List.finRange n).foldl (fun acc i => acc + w.entry i j * u.entry i 0) 0 := by
  rw [dotVal, Matrix.entry_ofFn, rowCol]
  simp only [Matrix.transpose, Matrix.entry_ofFn]

/-- The gradient of `b3`: `dz3[i] = 2 * (a3[i] - y[i])`. -/
theorem backwardVal_db3 [Zero α] [One α] [Add α] [Sub α] [Mul α] [Div α] [Neg α] [NatCast α]
    (expf : α → α) (p : Params α) (a0 : Matrix 784 1 α) (fw : Forward α) (y : Matrix 10 1 α)
    (i : Fin 10) :
    (backwardVal expf p a0 fw y).db3.entry i 0
      = ((2 : Nat) : α) * (fw.a3.entry i 0 - y.entry i 0) := rfl

/-- The gradient of `w3`: `dW3[i][j] = 0 + dz3[i] * a2[j]`. -/
theorem backwardVal_dw3 [Zero α] [One α] [Add α] [Sub α] [Mul α] [Div α] [Neg α] [NatCast α]
    (expf : α → α) (p : Params α) (a0 : Matrix 784 1 α) (fw : Forward α) (y : Matrix 10 1 α)
    (i : Fin 10) (j : Fin 16) :
    (backwardVal expf p a0 fw y).dw3.entry i j
      = 0 + (backwardVal expf p a0 fw y).db3.entry i 0 * fw.a2.entry j 0 :=
  dotVal_outer _ fw.a2 i j

/-- C15 fails in `float` arithmetic for the sign of a zero. At the parameters `signParams`
(all `0.0f` except `b2[0] = -100.0f`) and the black image of label `1`, the forward pass gives
`a2[0] = 1 / (1 + expf(100)) = 1 / inf = +0.0f` and `a3[i] = 1 / 10`, so
`dz3[1] = 2 * (a3[1] - 1)` is negative and the product `dz3[1] * a2[0]` is `-0.0f`; the
gradient that the backward pass stores is `dW3[1][0] = 0.0f + -0.0f`, which is `+0.0f`. -/
theorem backward_spec_counterexample :
    labelVal frozenData (sampleIndex frozenData 0 0) = 1 ∧
    backward F32.expfTable signParams (loadInputVal frozenData (sampleIndex frozenData 0 0))
        (forwardVal F32.expfTable signParams
          (loadInputVal frozenData (sampleIndex frozenData 0 0)))
        (oneHotVal 1)
      = .ok (sampleGrads F32.expfTable frozenData 0 signParams 0) ∧
    (forwardVal F32.expfTable signParams
      (loadInputVal frozenData (sampleIndex frozenData 0 0))).a2.entry 0 0 = F32.fin false 0 ∧
    F32.lt ((sampleGrads F32.expfTable frozenData 0 signParams 0).db3.entry 1 0) 0 = true ∧
    (sampleGrads F32.expfTable frozenData 0 signParams 0).db3.entry 1 0
      * (forwardVal F32.expfTable signParams
          (loadInputVal frozenData (sampleIndex frozenData 0 0))).a2.entry 0 0
      = F32.fin true 0 ∧
    (sampleGrads F32.expfTable frozenData 0 signParams 0).dw3.entry 1 0 = F32.fin false 0 := by
  unfold sampleGrads
  refine ⟨by decide!, backward_eq _ _ _ _ _, ?_, ?_, ?_, ?_⟩
  · rw [sign_forward]
    decide!
  · rw [backwardVal_db3, sign_forward]
    decide!
  · rw [backwardVal_db3, sign_forward]
    decide!
  · rw [backwardVal_dw3, backwardVal_db3, sign_forward]
    decide!

/-- C15: the backward pass never faults and its six gradients, of shapes `16 x 784`,
`16 x 1`, `16 x 16`, `16 x 1`, `10 x 16`, `10 x 1`, are `db3 = dz3` with
`dz3[i] = 2 * (a3[i] - y[i])`, `dW3[i][j] = 0 + dz3[i] * a2[j]`, `db2 = dz2` with
`dz2[j] = (sum_i W3[i][j] * dz3[i]) * sigmoid'(z2[j])`, `dW2[j][k] = 0 + dz2[j] * a1[k]`,
`db1 = dz1` with `dz1[k] = (sum_j W2[j][k] * dz2[j]) * sigmoid'(z1[k])` and
`dW1[k][t] = 0 + dz1[k] * a0[t]`, the sums accumulated from `0` in increasing index, in
every arithmetic, that of `float` included: each element of a weight gradient is its product
added to the `0.0f` that `dot` starts from, which differs from the product only when that is
`-0.0f`. -/
theorem backward_spec [Inhabited α] [Zero α] [One α] [Add α] [Sub α] [Mul α] [Div α] [Neg α]
    [NatCast α] (expf : α → α) (p : Params α) (a0 : Matrix 784 1 α) (fw : Forward α)
    (y : Matrix 10 1 α) :
    ∃ g : Grads α, backward expf p a0 fw y = .ok g ∧
      (∀ i, g.db3.entry i 0 = ((2 : Nat) : α) * (fw.a3.entry i 0 - y.entry i 0)) ∧
      (∀ i j, g.dw3.entry i j = 0 + g.db3.entry i 0 * fw.a2.entry j 0) ∧
      (∀ j, g.db2.entry j 0
        = (List.finRange 10).foldl (fun acc i => acc + p.w3.entry i j * g.db3.entry i 0) 0
          * (sigmoidf expf (fw.z2.entry j 0) * (1 - sigmoidf expf (fw.z2.entry j 0)))) ∧
      (∀ j k, g.dw2.entry j k = 0 + g.db2.entry j 0 * fw.a1.entry k 0) ∧
      (∀ k, g.db1.entry k 0
        = (List.finRange 16).foldl (fun acc j => acc + p.w2.entry j k * g.db2.entry j 0) 0
          * (sigmoidf expf (fw.z1.entry k 0) * (1 - sigmoidf expf (fw.z1.entry k 0)))) ∧
      (∀ k t, g.dw1.entry k t = 0 + g.db1.entry k 0 * a0.entry t 0) := by
  refine ⟨_, backward_eq expf p a0 fw y, fun i => rfl, fun i j => ?_, fun j => ?_,
    fun j k => ?_, fun k => ?_, fun k t => ?_⟩
  · exact dotVal_outer _ fw.a2 i j
  · show (dotVal p.w3.transpose _).entry j 0 * _ = _
    rw [dotVal_transpose_left]
    rfl
  · exact dotVal_outer _ fw.a1 j k
  · show (dotVal p.w2.transpose _).entry k 0 * _ = _
    rw [dotVal_transpose_left]
    rfl
  · exact dotVal_outer _ a0 k t

/-- The in-order sum, from `0.0f`, of `float` data that are NaN or not negative is NaN or
not negative. -/
theorem foldl_nan_or_nonneg {ι : Type} (l : List ι) (f : ι → F32)
    (hf : ∀ i, f i = F32.nan ∨ F32.IsNonneg (f i)) :
    l.foldl (fun acc i => acc + f i) 0 = F32.nan
      ∨ F32.IsNonneg (l.foldl (fun acc i => acc + f i) 0) :=
  foldl_inv l _ (fun acc => acc = F32.nan ∨ F32.IsNonneg acc)
    (fun acc i _ hacc => F32.add_nan_or_nonneg acc (f i) hacc (hf i))
    0 (Or.inr ⟨rfl, le_refl _⟩)

/-- The loss accumulated by a single-sample batch. -/
theorem accumVal_one_loss [Zero α] [One α] [Add α] [Sub α] [Mul α] [Div α] [Neg α]
    [NatCast α] [LT α] [DecidableRel (fun (a b : α) => a < b)] (expf : α → α)
    (powf : α → α → α) (negInf : α) (epochs : Nat) (lr : α) (ds : Dataset) (image_base : Nat)
    (p : Params α) :
    (accumVal expf powf negInf ⟨1, epochs, lr⟩ ds image_base p).loss
      = 0 + sampleLoss expf powf ds image_base p 0 := by
  rw [accumVal_one]
  rfl

/-- C16 fails in `float` arithmetic: in the single-sample batch of `frozenData`, whose label
is `1`, at the parameters `frozenParams`, the output `a3[0]` is `inf / inf`, NaN, so the loss
of the sample and the reported loss of the batch are NaN, which is neither greater than nor
equal to zero. -/
theorem batch_loss_counterexample :
    (∀ batch_i, batch_i < frozenHyper.batch_size →
      SampleOk frozenData (sampleIndex frozenData 0 batch_i)) ∧
    sampleLoss F32.expfTable powfSquare frozenData 0 frozenParams 0 = F32.nan ∧
    ∃ (p' : Params F32) (rep : Report F32),
      batchBody F32.expfTable powfSquare (F32.inf true) frozenHyper frozenData 0 frozenParams
        = .ok (p', rep) ∧
      rep.loss = F32.nan ∧ ¬ ((0 : F32) < rep.loss) ∧ rep.loss ≠ 0 := by
  have ha3 : (forwardVal F32.expfTable frozenParams
      (loadInputVal frozenData (sampleIndex frozenData 0 0))).a3
      = softmaxVal F32.expfTable frozenParams.b3 :=
    forwardVal_zero_weights F32.expfTable frozenParams.b3 _ (by decide!)
      (fun i c => by
        rw [loadInputVal, Matrix.entry_ofFn, frozenData_pixel]
        decide!)
      (by decide!)
      (fun k => by
        show (0 : F32) + (if k.val = 0 then F32.fin false 100 else F32.fin false 0)
          = if k.val = 0 then F32.fin false 100 else F32.fin false 0
        split <;> decide!)
  have hsample : sampleLoss F32.expfTable powfSquare frozenData 0 frozenParams 0 = F32.nan := by
    unfold sampleLoss
    rw [ha3]
    decide!
  have hloss : (updateVal frozenHyper frozenParams
      (accumVal F32.expfTable powfSquare (F32.inf true) ⟨1, 1, 0⟩ frozenData 0
        frozenParams)).2.loss = F32.nan := by
    show (accumVal F32.expfTable powfSquare (F32.inf true) ⟨1, 1, 0⟩ frozenData 0
      frozenParams).loss / ((1 : Nat) : F32) = F32.nan
    rw [accumVal_one_loss, hsample]
    decide!
  have hnan : ∀ x : F32, x = F32.nan → ¬ ((0 : F32) < x) ∧ x ≠ 0 := by
    intro x hx
    subst hx
    exact ⟨by decide, by decide⟩
  exact ⟨frozenData_ok, hsample, _, _,
    batchBody_eq F32.expfTable powfSquare (F32.inf true) frozenHyper frozenData 0 frozenParams
      frozenData_ok, hloss, (hnan _ hloss).1, (hnan _ hloss).2⟩

/-- C16 in `float` arithmetic: in a batch whose samples can be processed (labels in `0..9`),
the target of each sample is `1` at the label's index and `0` at the other nine, the loss of
the sample is the sum over `i`, accumulated from `0.0f` in increasing index, of
`powf(a3[i] - y[i], 2.0f)`, and the reported loss is the sum of the losses of the samples,
accumulated from `0.0f` in sample order, divided by `batch_size`; with a `powf` whose value
at the power `2.0f` is NaN or not negative, the reported loss is NaN or not negative. -/
theorem batch_loss_spec (expf : F32 → F32) (powf : F32 → F32 → F32) (negInf : F32)
    (h : Hyper F32) (ds : Dataset) (image_base : Nat) (p : Params F32)
    (hok : ∀ batch_i, batch_i < h.batch_size → SampleOk ds (sampleIndex ds image_base batch_i)) :
    (∀ b, b < h.batch_size →
      ∃ y : Matrix 10 1 F32,
        oneHot (ds.labels.getD (sampleIndex ds image_base b) 0) = .ok y ∧
        ds.labels.getD (sampleIndex ds image_base b) 0 ≤ 9 ∧
        (∀ k, y.data k = if k.val = ds.labels.getD (sampleIndex ds image_base b) 0 then 1 else 0) ∧
        sampleLoss expf powf ds image_base p b
          = (List.finRange (10 * 1)).foldl (fun acc i => acc + powf
              ((forwardVal expf p (loadInputVal ds (sampleIndex ds image_base b))).a3.data i
                - y.data i) ((2 : Nat) : F32)) 0) ∧
    ∃ (p' : Params F32) (rep : Report F32),
      batchBody expf powf negInf h ds image_base p = .ok (p', rep) ∧
      rep.loss = (List.finRange h.batch_size).foldl
          (fun acc b => acc + sampleLoss expf powf ds image_base p b.val) 0
        / ((h.batch_size : Nat) : F32) ∧
      ((∀ x : F32, powf x ((2 : Nat) : F32) = F32.nan
          ∨ F32.IsNonneg (powf x ((2 : Nat) : F32))) →
        rep.loss = F32.nan ∨ F32.IsNonneg rep.loss) := by
  have hloss : (accumVal expf powf negInf h ds image_base p).loss
      = (List.finRange h.batch_size).foldl
          (fun acc b => acc + sampleLoss expf powf ds image_base p b.val) 0 :=
    (accumVal_fields expf powf negInf h ds image_base p).2.2.2.2.2.2
  have hsample : (∀ x : F32, powf x ((2 : Nat) : F32) = F32.nan
        ∨ F32.IsNonneg (powf x ((2 : Nat) : F32))) →
      ∀ b, sampleLoss expf powf ds image_base p b = F32.nan
        ∨ F32.IsNonneg (sampleLoss expf powf ds image_base p b) := by
    intro hpow b
    unfold sampleLoss sumVal
    exact foldl_nan_or_nonneg _ _ (fun i => hpow _)
  refine ⟨fun b hb => ?_, _, _, batchBody_eq expf powf negInf h ds image_base p hok, ?_, ?_⟩
  · obtain ⟨_, _, _, hdigit⟩ := hok b hb
    have hc : charToSize (ds.labels.getD (sampleIndex ds image_base b) 0)
        = ds.labels.getD (sampleIndex ds image_base b) 0 := charToSize_of_le hdigit
    have hl : charToSize (ds.labels.getD (sampleIndex ds image_base b) 0) < 10 := by
      rw [hc]; omega
    refine ⟨_, oneHot_eq _ hl, hdigit, fun k => ?_, ?_⟩
    · show (if k.val = charToSize _ then (1 : F32) else 0) = _
      rw [hc]
    · rfl
  · show (accumVal expf powf negInf h ds image_base p).loss / ((h.batch_size : Nat) : F32) = _
    rw [hloss]
  · intro hpow
    show (accumVal expf powf negInf h ds image_base p).loss / ((h.batch_size : Nat) : F32)
        = F32.nan
      ∨ F32.IsNonneg
        ((accumVal expf powf negInf h ds image_base p).loss / ((h.batch_size : Nat) : F32))
    rw [hloss]
    exact F32.div_nan_or_nonneg _ _ (foldl_nan_or_nonneg _ _ (fun b => hsample hpow b.val))
      (F32.natCast_isNonneg _)

/-- C16 at the one-image dataset with label `0`, the parameters `negZeroParams`,
`batch_size = 1` and `x * x` in the place of `powf(x, 2.0f)`: the reported loss is the loss of
the sample, `0.0f + loss` divided by `1`, and it is NaN or not negative. -/
theorem batch_loss_spec_witness :
    (∀ batch_i, batch_i < frozenHyper.batch_size →
      SampleOk zeroLabelData (sampleIndex zeroLabelData 0 batch_i)) ∧
    ∃ (p' : Params F32) (rep : Report F32),
      batchBody F32.expfTable powfSquare (F32.inf true) frozenHyper zeroLabelData 0
        negZeroParams = .ok (p', rep) ∧
      rep.loss = (List.finRange frozenHyper.batch_size).foldl
          (fun acc b => acc + sampleLoss F32.expfTable powfSquare zeroLabelData 0 negZeroParams
            b.val) 0
        / ((frozenHyper.batch_size : Nat) : F32) ∧
      (rep.loss = F32.nan ∨ F32.IsNonneg rep.loss) := by
  obtain ⟨p', rep, hrun, hloss, hsign⟩ :=
    (batch_loss_spec F32.expfTable powfSquare (F32.inf true) frozenHyper zeroLabelData 0
      negZeroParams zeroLabelData_ok).2
  exact ⟨zeroLabelData_ok, p', rep, hrun, hloss,
    hsign (fun x => F32.mul_self_nan_or_nonneg x)⟩

/-! ## Softmax, prediction and the output bias in exact arithmetic -/

/-- The value of the prediction scan on comparable values of which one exceeds `negInf`:
the lowest index of a maximum. -/
theorem predictVal_argmax [LinearOrder α] (negInf : α) (a3 : Matrix 10 1 α)
    (h : ∃ j, negInf < a3.entry j 0) :
    ∃ d : Fin 10, predictVal negInf a3 = d.val ∧
      (∀ j, a3.entry j 0 ≤ a3.entry d 0) ∧ (∀ j, j < d → a3.entry j 0 < a3.entry d 0) := by
  have hinv : (∀ j : Fin 10, a3.entry j 0 ≤ (predictState negInf a3).2) ∧
      (((predictState negInf a3).2 = negInf ∧ (predictState negInf a3).1 = 0) ∨
        ∃ d : Fin 10, d.val = (predictState negInf a3).1 ∧
          (predictState negInf a3).2 = a3.entry d 0 ∧
          ∀ j, j < d → a3.entry j 0 < (predictState negInf a3).2) := by
    have key : ∀ (n : Nat) (hn : n ≤ 10),
        let s := ((List.finRange 10).take n).foldl
          (fun (s : Nat × α) i => if s.2 < a3.entry i 0 then (i.val, a3.entry i 0) else s)
          (0, negInf)
        (∀ j : Fin 10, j.val < n → a3.entry j 0 ≤ s.2) ∧
        ((s.2 = negInf ∧ s.1 = 0) ∨
          ∃ d : Fin 10, d.val = s.1 ∧ s.2 = a3.entry d 0 ∧ ∀ j, j < d → a3.entry j 0 < s.2) := by
      intro n
      induction n with
      | zero =>
        intro _
        exact ⟨fun j hj => absurd hj (Nat.not_lt_zero _), Or.inl ⟨rfl, rfl⟩⟩
      | succ n ih =>
        intro hn
        have hn' : n < 10 := hn
        obtain ⟨hle, hcase⟩ := ih (Nat.le_of_lt hn')
        have htake : (List.finRange 10).take (n + 1)
            = (List.finRange 10).take n ++ [(⟨n, hn'⟩ : Fin 10)] := by
          rw [List.take_succ]
          congr 1
          rw [List.getElem?_eq_getElem (by simp; exact hn')]
          simp
        simp only [htake, List.foldl_append, List.foldl_cons, List.foldl_nil]
        generalize ((List.finRange 10).take n).foldl
          (fun (s : Nat × α) i => if s.2 < a3.entry i 0 then (i.val, a3.entry i 0) else s)
          (0, negInf) = s at hle hcase ⊢
        by_cases hlt : s.2 < a3.entry ⟨n, hn'⟩ 0
        · simp only [hlt, if_true]
          refine ⟨fun j hj => ?_, Or.inr ⟨⟨n, hn'⟩, rfl, rfl, fun j hj =>
            lt_of_le_of_lt (hle j hj) hlt⟩⟩
          rcases Nat.lt_succ_iff_lt_or_eq.mp hj with hj | hj
          · exact le_of_lt (lt_of_le_of_lt (hle j hj) hlt)
          · have : j = ⟨n, hn'⟩ := Fin.ext hj
            rw [this]
        · simp only [hlt, if_false]
          refine ⟨fun j hj => ?_, hcase⟩
          rcases Nat.lt_succ_iff_lt_or_eq.mp hj with hj | hj
          · exact hle j hj
          · have : j = ⟨n, hn'⟩ := Fin.ext hj
            rw [this]
            exact not_lt.mp hlt
    have h10 := key 10 (le_refl 10)
    have hfull : (List.finRange 10).take 10 = List.finRange 10 :=
      List.take_of_length_le (by simp)
    simp only [hfull] at h10
    exact ⟨fun j => h10.1 j j.isLt, h10.2⟩
  obtain ⟨hle, hcase⟩ := hinv
  rcases hcase with ⟨hpr, _⟩ | ⟨d, hd, hpr, hlow⟩
  · obtain ⟨j, hj⟩ := h
    exact absurd (lt_of_lt_of_le hj (hle j)) (by rw [hpr]; exact lt_irrefl _)
  · refine ⟨d, hd.symm, fun j => ?_, fun j hj => ?_⟩
    · rw [← hpr]; exact hle j
    · rw [← hpr]; exact hlow j hj

/-- C19: in exact arithmetic, for every logit vector `z3`, `softmax` succeeds and the class
the scan predicts from `a3 = softmax(z3)` is the lowest index of the maximum of `z3`, the
scan starting from any value that is not positive. -/
theorem softmax_prediction (negInf : ℝ) (hneg : negInf ≤ 0) (z3 : Matrix 10 1 ℝ) :
    ∃ (a3 : Matrix 10 1 ℝ) (d : Fin 10),
      softmax Real.exp z3 = .ok a3 ∧ predict negInf a3 = .ok d.val ∧
      (∀ j, z3.entry j 0 ≤ z3.entry d 0) ∧ (∀ j, j < d → z3.entry j 0 < z3.entry d 0) := by
  have hD : 0 < sumVal (z3.map Real.exp) := by
    unfold sumVal
    rw [foldl_add_eq_sum]
    exact Finset.sum_pos (fun j _ => Real.exp_pos _) ⟨⟨0, by decide⟩, Finset.mem_univ _⟩
  have hentry : ∀ j : Fin 10, (softmaxVal Real.exp z3).entry j 0
      = Real.exp (z3.entry j 0) / sumVal (z3.map Real.exp) := fun _ => rfl
  obtain ⟨d, hd, hmax, hlow⟩ := predictVal_argmax negInf (softmaxVal Real.exp z3)
    ⟨0, lt_of_le_of_lt hneg (by rw [hentry]; exact div_pos (Real.exp_pos _) hD)⟩
  refine ⟨_, d, softmax_eq_softmaxVal Real.exp z3, ?_, fun j => ?_, fun j hj => ?_⟩
  · rw [predict_eq, hd]
  · have := hmax j
    rw [hentry, hentry, div_le_div_iff_of_pos_right hD] at this
    exact Real.exp_le_exp.mp this
  · have := hlow j hj
    rw [hentry, hentry, div_lt_div_iff_of_pos_right hD] at this
    exact Real.exp_lt_exp.mp this

/-- C19 at the zero logits with the scan started from `-1`. -/
theorem softmax_prediction_witness :
    (-1 : ℝ) ≤ 0 ∧
    ∃ (a3 : Matrix 10 1 ℝ) (d : Fin 10),
      softmax Real.exp (Matrix.zero : Matrix 10 1 ℝ) = .ok a3 ∧
      predict (-1 : ℝ) a3 = .ok d.val ∧
      (∀ j, (Matrix.zero : Matrix 10 1 ℝ).entry j 0 ≤ (Matrix.zero : Matrix 10 1 ℝ).entry d 0) ∧
      (∀ j, j < d →
        (Matrix.zero : Matrix 10 1 ℝ).entry j 0 < (Matrix.zero : Matrix 10 1 ℝ).entry d 0) :=
  ⟨by norm_num, softmax_prediction (-1) (by norm_num) Matrix.zero⟩

theorem softmaxVal_sum_one [LinearOrderedField α] (expf : α → α) (hexp : ∀ x, 0 < expf x)
    (z : Matrix 10 1 α) : ∑ i, (softmaxVal expf z).data i = 1 := by
  have hD : sumVal (z.map expf) = ∑ i, expf (z.data i) := by
    unfold sumVal
    exact foldl_add_eq_sum (fun i => expf (z.data i))
  have hpos : 0 < ∑ i : Fin (10 * 1), expf (z.data i) :=
    Finset.sum_pos (fun j _ => hexp _) ⟨⟨0, by decide⟩, Finset.mem_univ _⟩
  show ∑ i, expf (z.data i) / sumVal (z.map expf) = 1
  rw [hD, ← Finset.sum_div]
  exact div_self (ne_of_gt hpos)

theorem oneHotVal_sum_one [LinearOrderedField α] (label : Nat) (hl : label < 10) :
    ∑ k, (oneHotVal label : Matrix 10 1 α).data k = 1 := by
  show ∑ k : Fin (10 * 1), (if k.val = label then (1 : α) else 0) = 1
  rw [Finset.sum_eq_single (⟨label, by omega⟩ : Fin (10 * 1))]
  · simp
  · intro k _ hk
    have : k.val ≠ label := fun h => hk (Fin.ext h)
    simp [this]
  · intro h
    exact absurd (Finset.mem_univ _) h

/-- In exact arithmetic the ten elements of `dz3 = db3` of a sample with a digit label sum
to `2 * (1 - 1) = 0`. -/
theorem db3_sum_zero [LinearOrderedField α] (expf : α → α) (hexp : ∀ x, 0 < expf x)
    (ds : Dataset) (image_base : Nat) (p : Params α) (b : Nat)
    (hl : labelVal ds (sampleIndex ds image_base b) < 10) :
    ∑ i, (sampleGrads expf ds image_base p b).db3.data i = 0 := by
  show ∑ i : Fin (10 * 1), ((2 : Nat) : α) *
    ((forwardVal expf p (loadInputVal ds (sampleIndex ds image_base b))).a3.data i
      - (oneHotVal (labelVal ds (sampleIndex ds image_base b)) : Matrix 10 1 α).data i) = 0
  rw [← Finset.mul_sum, Finset.sum_sub_distrib]
  have h1 : ∑ i, (forwardVal expf p (loadInputVal ds (sampleIndex ds image_base b))).a3.data i
      = 1 := softmaxVal_sum_one expf hexp _
  rw [h1, oneHotVal_sum_one _ hl]
  simp

theorem gradSum_sum_zero [LinearOrderedField α] {NR NC : Nat} (n : Nat)
    (g : Nat → Matrix NR NC α) (hg : ∀ b, b < n → ∑ i, (g b).data i = 0) :
    ∑ i, (gradSum n g).data i = 0 := by
  unfold gradSum
  refine foldl_inv (List.finRange n) _ (fun (m : Matrix NR NC α) => ∑ i, m.data i = 0)
    (fun m b _ hm => ?_) _ ?_
  · show ∑ i, (m.data i + (g b.val).data i) = 0
    rw [Finset.sum_add_distrib, hm, hg b.val b.isLt, add_zero]
  · show ∑ i : Fin (NR * NC), (0 : α) = 0
    simp

theorem numBatches_le (N bs : Nat) (hbs : 0 < bs) : numBatches N bs ≤ N := by
  by_contra hcon
  have h1 : N < numBatches N bs := Nat.lt_of_not_le hcon
  have h2 := (lt_numBatches_iff N bs N hbs).mp h1
  have h3 : N * 1 ≤ N * bs := Nat.mul_le_mul_left N hbs
  omega

/-- C20: in exact arithmetic with a positive `expf`, on a dataset whose samples can all be
processed (labels in `0..9`): the elements of `dz3` of every sample sum to `0`; every batch
succeeds, its accumulated `db3` sums to `0` and it leaves the sum of `b3` unchanged; and the
training from parameters with `b3` zero returns with the sum of `b3` equal to `0` at its
end and after every batch of every epoch. -/
theorem b3_sum_invariant [LinearOrderedField α] [Inhabited α] (expf : α → α)
    (powf : α → α → α) (negInf : α) (hexp : ∀ x, 0 < expf x) (fuel : Nat) (h : Hyper α)
    (ds : Dataset) (p0 : Params α) (hb3 : p0.b3 = Matrix.zero) (hN : 0 < ds.num_images)
    (hbs : 0 < h.batch_size) (hwrap : ds.num_images + h.batch_size ≤ 2 ^ 32)
    (hfuel : ds.num_images < fuel)
    (hok : ∀ image, image < ds.num_images → SampleOk ds image) :
    (∀ image_base p b, ∑ i, (sampleGrads expf ds image_base p b).db3.data i = 0) ∧
    (∀ image_base p, ∃ (p' : Params α) (rep : Report α),
      batchBody expf powf negInf h ds image_base p = .ok (p', rep) ∧
      ∑ i, (gradSum h.batch_size
        (fun b => (sampleGrads expf ds image_base p b).db3)).data i = 0 ∧
      ∑ i, p'.b3.data i = ∑ i, p.b3.data i) ∧
    ∃ r, train expf powf negInf fuel h ds p0 = .ok (some r) ∧
      ∑ i, r.1.b3.data i = 0 ∧ ∀ e ∈ r.2, ∑ i, e.1.b3.data i = 0 := by
  have hsample : ∀ image_base b, SampleOk ds (sampleIndex ds image_base b) :=
    fun image_base b => hok _ (Nat.mod_lt _ hN)
  have hlabel : ∀ image_base b, labelVal ds (sampleIndex ds image_base b) < 10 := by
    intro image_base b
    obtain ⟨_, _, _, hd⟩ := hsample image_base b
    show charToSize _ < 10
    rw [charToSize_of_le hd]
    omega
  have hdb3 : ∀ image_base p b, ∑ i, (sampleGrads expf ds image_base p b).db3.data i = 0 :=
    fun image_base p b => db3_sum_zero expf hexp ds image_base p b (hlabel image_base b)
  have hacc : ∀ image_base p, ∑ i, (gradSum h.batch_size
      (fun b => (sampleGrads expf ds image_base p b).db3)).data i = 0 :=
    fun image_base p => gradSum_sum_zero _ _ (fun b _ => hdb3 image_base p b)
  have hupd : ∀ image_base p,
      ∑ i, (updateVal h p (accumVal expf powf negInf h ds image_base p)).1.b3.data i
        = ∑ i, p.b3.data i := by
    intro image_base p
    show ∑ i, (p.b3.data i - h.learning_rate / (h.batch_size : α)
      * (accumVal expf powf negInf h ds image_base p).a_db3.data i) = _
    rw [(accumVal_fields expf powf negInf h ds image_base p).2.2.2.2.2.1,
      Finset.sum_sub_distrib, ← Finset.mul_sum, hacc image_base p]
    simp
  refine ⟨hdb3, fun image_base p => ⟨_, _,
    batchBody_eq expf powf negInf h ds image_base p (fun b _ => hsample image_base b),
    hacc image_base p, hupd image_base p⟩, ?_⟩
  obtain ⟨r, hr, h1, h2, _⟩ := train_inv expf powf negInf fuel h ds p0
    (fun p => ∑ i, p.b3.data i = 0) hbs hwrap
    (lt_of_le_of_lt (numBatches_le _ _ hbs) hfuel) hok
    (fun image_base p hp => (hupd image_base p).trans hp)
    (by
      show ∑ i, p0.b3.data i = 0
      rw [hb3]
      show ∑ i : Fin (10 * 1), (0 : α) = 0
      simp)
  exact ⟨r, hr, h1, h2⟩

/-- C20 in exact arithmetic at the one-image dataset, one epoch of one batch of one sample,
from parameters that are all zero, with `1 + x^2` in the place of `expf`. -/
theorem b3_sum_invariant_witness :
    ∃ r, train (fun x => 1 + x ^ 2) (fun x _ => x ^ 2) (-1 : ℚ) 2 ⟨1, 1, 1⟩ frozenData
        ⟨Matrix.zero, Matrix.zero, Matrix.zero, Matrix.zero, Matrix.zero, Matrix.zero⟩
        = .ok (some r) ∧
      ∑ i, r.1.b3.data i = 0 ∧ ∀ e ∈ r.2, ∑ i, e.1.b3.data i = 0 :=
  (b3_sum_invariant (fun x => 1 + x ^ 2) (fun x _ => x ^ 2) (-1 : ℚ)
    (fun x => by positivity) 2 ⟨1, 1, 1⟩ frozenData
    ⟨Matrix.zero, Matrix.zero, Matrix.zero, Matrix.zero, Matrix.zero, Matrix.zero⟩ rfl
    (by decide) (by decide) (by decide) (by decide)
    (fun image himage => by
      have h0 : image = 0 := by
        have : image < 1 := himage
        omega
      subst h0
      decide!)).2.2

end ML
